import Mathlib

/-!
Material parser of `glshader.cpp`.

A shallow embedding of `ParseMaterialFile` and of the compile path it drives
(`Shader::Compile`, `CompileGLSLShader`, `GLSLError`, `LookupShader`), followed by
theorems about it.

Text is a list of characters.  The graphics backend is a record of the answers the
driver gives (compile status, info log, link status) together with the platform the
file was built for; the calls made to it are recorded in the world.
-/

namespace Lobster

/-- Text: C strings and `std::string` values alike. -/
abbrev Str := List Char

/-! ## C library pieces used by the parser -/

/-- The characters of a NUL-terminated buffer, up to the terminator. -/
def cstr (buf : Str) : Str := buf.takeWhile (fun c => c != '\x00')

/-- The separator set of `strspn(p, " \t\r")` and `strcspn(p, " \t\r\0")`. -/
def isBlank (c : Char) : Bool := c == ' ' || c == '\t' || c == '\r'

/-- The C `isspace` in the "C" locale, as skipped by `atoi`. -/
def isspace (c : Char) : Bool :=
  c == ' ' || c == '\t' || c == '\n' || c == '\x0b' || c == '\x0c' || c == '\r'

/-- Accumulates the leading decimal digits of a string. -/
def atoiDigits : Nat → Str → Nat
  | acc, [] => acc
  | acc, c :: cs => if c.isDigit then atoiDigits (acc * 10 + (c.toNat - 48)) cs else acc

/-- Reduction of a mathematical integer to the 32-bit two's complement `int`. -/
def toInt32 (v : Int) : Int := (v + 2147483648) % 4294967296 - 2147483648

/-- The number that `strtol(s, NULL, 10)` reads, before any range check: white space is
skipped, then an optional sign and the leading decimal digits are read (0 when there are
none). -/
def strtolValue (s : Str) : Int :=
  let t := s.dropWhile isspace
  if t.head? = some '-' then -(atoiDigits 0 (t.drop 1) : Int)
  else if t.head? = some '+' then (atoiDigits 0 (t.drop 1) : Int)
  else (atoiDigits 0 t : Int)

/-- The C `strtol(s, NULL, 10)` with a 64-bit `long`: a number above `LONG_MAX` gives
`LONG_MAX`, a number below `LONG_MIN` gives `LONG_MIN`. -/
def strtol (s : Str) : Int :=
  if strtolValue s > 9223372036854775807 then 9223372036854775807
  else if strtolValue s < -9223372036854775808 then -9223372036854775808
  else strtolValue s

/-- The C `atoi` as the GNU C library defines it, `(int) strtol(s, NULL, 10)`: the `long`
is cut to its low 32 bits.  For a number that fits an `int` the result is that number; the
C standard leaves the other case undefined, and there the result is, for example, 1 for
`4294967297` and -1 for any number above `LONG_MAX`. -/
def atoi (s : Str) : Int := toInt32 (strtol s)

/-- The `std::to_string(int)`. -/
def to_string (i : Int) : Str :=
  if i < 0 then '-' :: Nat.toDigits 10 i.natAbs else Nat.toDigits 10 i.toNat

/-- The pieces of a text between its newlines (there is always a last piece, possibly
empty). -/
def splitLines : Str → List Str
  | [] => [[]]
  | c :: cs =>
    if c = '\n' then [] :: splitLines cs
    else
      match splitLines cs with
      | [] => [[c]]
      | l :: ls => (c :: l) :: ls

/-- The `word` lambda of `ParseMaterialFile`: skips blanks, tabs and carriage returns, then
reads up to the next one (or the end of the line).  Returns `last` and the advanced
cursor `p`. -/
def word (p : Str) : Str × Str :=
  let p1 := p.dropWhile isBlank
  (p1.takeWhile (fun c => !isBlank c), p1.dropWhile (fun c => !isBlank c))

/-! ## Backend, registry and parse state -/

/-- The `GLenum` shader types passed to `glCreateShader`. -/
inductive Stage
  | vertex
  | fragment
  | compute
  deriving DecidableEq, Repr

/-- The build the file was compiled for: `PLATFORM_ES2`, else `__APPLE__` (with the
characters 0, 2 and 3 of `glGetString(GL_SHADING_LANGUAGE_VERSION)`), else neither. -/
inductive Platform
  | es2
  | apple (c0 c2 c3 : Char)
  | desktop
  deriving DecidableEq, Repr

/-- The answers of the graphics driver. -/
structure Backend where
  /-- The build configuration. -/
  platform : Platform
  /-- The value of `GL_COMPILE_STATUS` after compiling a source for a stage. -/
  compileStatus : Stage → Str → Bool
  /-- The text of the shader info log after compiling a source for a stage. -/
  shaderInfoLog : Stage → Str → Str
  /-- The value of `GL_LINK_STATUS` after linking a program with the given attached stages. -/
  linkStatus : List (Stage × Str) → Bool

/-- A call made to the driver, as recorded in the world. -/
inductive GLCall
  | compileShader (type : Stage) (source : Str)
  | linkProgram (attached : List (Stage × Str))
  deriving DecidableEq, Repr

/-- A `Shader` object: for each stage handle `vs`, `ps`, `cs`, the source of the attached
stage object (`none` for the handle 0). -/
structure Shader where
  vs : Option Str
  ps : Option Str
  cs : Option Str
  deriving DecidableEq, Repr

/-- The object made by `new Shader()`. -/
def Shader.new : Shader := ⟨none, none, none⟩

/-- The contents of `shadermap`. -/
abbrev Registry := List (Str × Shader)

/-- The process state outside the parser: `shadermap`, the driver calls made so far, and
for each call of `Shader::Compile` that returned, the shader name and the string returned. -/
structure World where
  registry : Registry
  calls : List GLCall
  compiled : List (Str × Str)
  deriving DecidableEq, Repr

/-- `LookupShader`: the entry found under the name, or `none` for `nullptr`. -/
def LookupShader (r : Registry) (name : Str) : Option Shader :=
  match r.find? (fun e => e.1 == name) with
  | some e => some e.2
  | none => none

/-- The assignment `shadermap[name] = sh`: the map afterwards has one entry for the name. -/
def Registry.assign (r : Registry) (name : Str) (sh : Shader) : Registry :=
  (name, sh) :: r.filter (fun e => e.1 != name)

/-- Which string `accum` points to. -/
inductive Accum
  | none
  | vfunctions
  | pfunctions
  | cfunctions
  | vertex
  | pixel
  | compute
  deriving DecidableEq, Repr

/-- The local variables of `ParseMaterialFile` (the cursor apart). -/
structure PState where
  err : Str
  vfunctions : Str
  pfunctions : Str
  cfunctions : Str
  vertex : Str
  pixel : Str
  compute : Str
  vdecl : Str
  pdecl : Str
  csdecl : Str
  shader : Str
  accum : Accum
  deriving DecidableEq, Repr

/-- The locals as declared: all strings empty, `accum = nullptr`. -/
def PState.init : PState := ⟨[], [], [], [], [], [], [], [], [], [], [], Accum.none⟩

/-! ## Diagnostics and compilation -/

/-- The loop of `GLSLError` over the source: each piece gets its 1-based number. -/
def numberedFrom : Nat → List Str → Str
  | _, [] => []
  | i, p :: ps => to_string ((i + 1 : Nat) : Int) ++ ": ".toList ++ p ++ "\n".toList
      ++ numberedFrom (i + 1) ps

/-- `GLSLError` for an object whose info log has the given text (`length` is the size of
the text plus its terminator). -/
def GLSLError (log : Str) (source : Option Str) : Str :=
  if log.length + 1 > 1 then
    "GLSL ERROR: ".toList ++ log ++
      (match source with
       | some src => numberedFrom 0 (splitLines src)
       | none => [])
  else []

/-- `CompileGLSLShader`: the world after the call, whether a stage object was returned
(attached to the program), and the value left in `err`. -/
def CompileGLSLShader (b : Backend) (w : World) (type : Stage) (source : Str) (err : Str) :
    World × Bool × Str :=
  let w1 := { w with calls := w.calls ++ [GLCall.compileShader type source] }
  if b.compileStatus type source then (w1, true, err)
  else (w1, false, GLSLError (b.shaderInfoLog type source) (some source))

/-- How a call that may throw ends. -/
inductive CompileResult
  | returned (w : World) (sh : Shader) (err : Str)
  | thrown (w : World) (msg : Str)
  deriving DecidableEq, Repr

/-- `Shader::Link`: links, and throws when the link status is not `GL_TRUE`. -/
def Shader.Link (b : Backend) (w : World) (sh : Shader) (name : Str)
    (attached : List (Stage × Str)) : CompileResult :=
  let w1 := { w with calls := w.calls ++ [GLCall.linkProgram attached] }
  if b.linkStatus attached then CompileResult.returned w1 sh []
  else CompileResult.thrown w1 ("linking failed for shader: ".toList ++ name)

/-- `Shader::Compile(name, vscode, pscode)`. -/
def Shader.Compile (b : Backend) (w : World) (sh : Shader) (name vscode pscode : Str) :
    CompileResult :=
  match CompileGLSLShader b w Stage.vertex vscode [] with
  | (w1, false, err) =>
    CompileResult.returned w1 sh
      ("couldn't compile vertex shader: ".toList ++ name ++ "\n".toList ++ err)
  | (w1, true, err) =>
    let sh1 := { sh with vs := some vscode }
    match CompileGLSLShader b w1 Stage.fragment pscode err with
    | (w2, false, err2) =>
      CompileResult.returned w2 sh1
        ("couldn't compile pixel shader: ".toList ++ name ++ "\n".toList ++ err2)
    | (w2, true, _) =>
      Shader.Link b w2 { sh1 with ps := some pscode } name
        [(Stage.vertex, vscode), (Stage.fragment, pscode)]

/-- `Shader::Compile(name, cscode)`: compiled out on `PLATFORM_ES2` and `__APPLE__`. -/
def Shader.CompileCompute (b : Backend) (w : World) (sh : Shader) (name cscode : Str) :
    CompileResult :=
  match b.platform with
  | Platform.desktop =>
    match CompileGLSLShader b w Stage.compute cscode [] with
    | (w1, false, err) =>
      CompileResult.returned w1 sh
        ("couldn't compile compute shader: ".toList ++ name ++ "\n".toList ++ err)
    | (w1, true, _) =>
      Shader.Link b w1 { sh with cs := some cscode } name [(Stage.compute, cscode)]
  | _ => CompileResult.returned w sh "compute shaders not supported".toList

/-- The `header` of a vertex/pixel program. -/
def versionHeader (b : Backend) : Str :=
  match b.platform with
  | Platform.es2 => "#ifdef GL_ES\nprecision highp float;\n#endif\n".toList
  | Platform.apple c0 c2 c3 => "#version ".toList ++ [c0, c2, c3] ++ "\n".toList
  | Platform.desktop => "#version 130\n".toList

/-- The text that opens `main` in every assembled source. -/
def mainOpen : Str := "void main()\n\x7b\n".toList

/-- The text that closes `main`. -/
def mainClose : Str := "\x7d\n".toList

/-- The vertex source assembled by `finish`. -/
def vertexSource (b : Backend) (st : PState) : Str :=
  versionHeader b ++ st.vdecl ++ st.vfunctions ++ mainOpen ++ st.vertex ++ mainClose

/-- The pixel source assembled by `finish`. -/
def pixelSource (b : Backend) (st : PState) : Str :=
  versionHeader b ++ st.pdecl ++ st.pfunctions ++ mainOpen ++ st.pixel ++ mainClose

/-- The compute source assembled by `finish`. -/
def computeSource (st : PState) : Str :=
  "#version 430\n".toList ++ st.csdecl ++ st.cfunctions ++ mainOpen ++ st.compute ++ mainClose

/-- How `finish` ends: it returns `failed` (with the locals updated), or the link threw. -/
inductive FinishResult
  | done (w : World) (st : PState) (failed : Bool)
  | thrown (w : World) (msg : Str)
  deriving DecidableEq, Repr

/-- The statements of `finish` after the call of `Compile`: `err` holds what it returned;
`if (!err.empty()) return true; shadermap[shader] = sh; shader.clear();` and then
`return false`. -/
def finishCompiled (st : PState) (r : CompileResult) : FinishResult :=
  match r with
  | CompileResult.thrown w1 msg => FinishResult.thrown w1 msg
  | CompileResult.returned w1 sh err =>
    let w2 := { w1 with compiled := w1.compiled ++ [(st.shader, err)] }
    if err ≠ [] then FinishResult.done w2 { st with err := err } true
    else
      FinishResult.done { w2 with registry := w2.registry.assign st.shader sh }
        { st with err := err, shader := [] } false

/-- The `finish` lambda. -/
def finish (b : Backend) (w : World) (st : PState) : FinishResult :=
  if st.shader ≠ [] then
    finishCompiled st
      (if st.compute.length ≠ 0 then
        Shader.CompileCompute b w Shader.new st.shader (computeSource st)
      else
        Shader.Compile b w Shader.new st.shader (vertexSource b st) (pixelSource b st))
  else FinishResult.done w st false

/-! ## The line loop -/

/-- Which `return` statement of `ParseMaterialFile` was taken. -/
inductive Exit
  /-- One of the `return "..."` statements of the keyword handlers and of the default
  branch. -/
  | syntaxError
  /-- One of the `if (finish()) return err;` statements. -/
  | compileError
  /-- The final `return err;` after the loop. -/
  | endOfInput
  deriving DecidableEq, Repr

/-- How the processing of one line ends: the loop goes on, the function returns, or an
exception leaves it. -/
inductive Step
  | cont (w : World) (st : PState)
  | ret (w : World) (err : Str) (via : Exit)
  | thrown (w : World) (msg : Str)
  deriving DecidableEq, Repr

/-- The statement `if (finish()) return err;` followed by the updates `k` of the locals. -/
def afterFinish (r : FinishResult) (k : PState → PState) : Step :=
  match r with
  | FinishResult.thrown w msg => Step.thrown w msg
  | FinishResult.done w st true => Step.ret w st.err Exit.compileError
  | FinishResult.done w st false => Step.cont w (k st)

/-- The declaration buffer that `decl` refers to in the `UNIFORMS` and `UNIFORM` handlers:
`accum == &compute ? csdecl : (accum == &vertex ? vdecl : pdecl)`. -/
def declOf (st : PState) : Str :=
  if st.accum = Accum.compute then st.csdecl
  else if st.accum = Accum.vertex then st.vdecl
  else st.pdecl

/-- Stores through the reference `decl`. -/
def setDecl (st : PState) (d : Str) : PState :=
  if st.accum = Accum.compute then { st with csdecl := d }
  else if st.accum = Accum.vertex then { st with vdecl := d }
  else { st with pdecl := d }

/-- The body of the `UNIFORMS` loop for one non-empty word `last`: the new value of `decl`,
or the error returned.  `isCompute` is `accum == &compute`. -/
def uniformsWord (isCompute : Bool) (decl : Str) (last : Str) : Except Str Str :=
  if last = "mvp".toList then Except.ok (decl ++ "uniform mat4 mvp;\n".toList)
  else if last = "col".toList then Except.ok (decl ++ "uniform vec4 col;\n".toList)
  else if last = "camera".toList then Except.ok (decl ++ "uniform vec3 camera;\n".toList)
  else if last = "light1".toList then Except.ok (decl ++ "uniform vec3 light1;\n".toList)
  else if last = "lightparams1".toList then
    Except.ok (decl ++ "uniform vec2 lightparams1;\n".toList)
  else if last = "bones".toList then Except.ok (decl ++ "uniform vec4 bones[230];\n".toList)
  else if last = "pointscale".toList then
    Except.ok (decl ++ "uniform float pointscale;\n".toList)
  else if "tex".toList.isPrefixOf last then
    let p0 := last.drop 3
    let cubemap := "cube".toList.isPrefixOf p0
    let p1 := if cubemap then p0.drop 4 else p0
    let floatingp := p1.head? = some 'f'
    let p2 := if floatingp then p1.drop 1 else p1
    let unit := atoi p2
    let decl1 :=
      if isCompute then
        decl ++ ("layout(binding = ".toList ++ to_string unit ++ ", ".toList ++
          (if floatingp then "rgba32f".toList else "rgba8".toList) ++ ") ".toList)
      else decl
    let decl2 := decl1 ++ "uniform ".toList
    let decl3 := decl2 ++
      (if isCompute then (if cubemap then "imageCube".toList else "image2D".toList)
       else (if cubemap then "samplerCube".toList else "sampler2D".toList))
    Except.ok (decl3 ++ (" ".toList ++ last ++ ";\n".toList))
  else Except.error ("unknown uniform: ".toList ++ last)

/-- The `for (;;)` loop of the `UNIFORMS` handler, from the cursor `p`. -/
def uniformsLoop (isCompute : Bool) : Nat → Str → Str → Except Str Str
  | 0, _, decl => Except.ok decl
  | fuel + 1, p, decl =>
    if (word p).1 = [] then Except.ok decl
    else
      match uniformsWord isCompute decl (word p).1 with
      | Except.error e => Except.error e
      | Except.ok decl1 => uniformsLoop isCompute fuel (word p).2 decl1

/-- The body of the `INPUTS` loop for one non-empty word `last`. -/
def inputsWord (st : PState) (last : Str) : Except Str PState :=
  if ':' ∉ last then
    Except.error ("input ".toList ++ last ++
      " doesn't specify number of components, e.g. anormal:3".toList)
  else
    let pos := (last.takeWhile (fun c => c != ':')).length
    let comp := atoi (last.drop (pos + 1))
    if comp ≤ 0 ∨ comp > 4 then
      Except.error ("input ".toList ++ last ++ " can only use 1..4 components".toList)
    else
      let last1 := last.take pos
      let d := " vec".toList ++ to_string comp ++ " ".toList ++ last1 ++ ";\n".toList
      if st.accum = Accum.vertex then
        Except.ok { st with vdecl := st.vdecl ++ ("attribute".toList ++ d) }
      else
        let d1 := "varying".toList ++ d
        Except.ok { st with vdecl := st.vdecl ++ d1, pdecl := st.pdecl ++ d1 }

/-- The `for (;;)` loop of the `INPUTS` handler, from the cursor `p`. -/
def inputsLoop : Nat → Str → PState → Except Str PState
  | 0, _, st => Except.ok st
  | fuel + 1, p, st =>
    if (word p).1 = [] then Except.ok st
    else
      match inputsWord st (word p).1 with
      | Except.error e => Except.error e
      | Except.ok st1 => inputsLoop fuel (word p).2 st1

/-- The statements `*accum += start; *accum += "\n";` for a non-null `accum`. -/
def appendAccum (st : PState) (text : Str) : PState :=
  match st.accum with
  | Accum.none => st
  | Accum.vfunctions => { st with vfunctions := st.vfunctions ++ text }
  | Accum.pfunctions => { st with pfunctions := st.pfunctions ++ text }
  | Accum.cfunctions => { st with cfunctions := st.cfunctions ++ text }
  | Accum.vertex => { st with vertex := st.vertex ++ text }
  | Accum.pixel => { st with pixel := st.pixel ++ text }
  | Accum.compute => { st with compute := st.compute ++ text }

/-- The first words that select a handler. -/
def keywords : List Str :=
  ["VERTEXFUNCTIONS".toList, "PIXELFUNCTIONS".toList, "COMPUTEFUNCTIONS".toList,
   "VERTEX".toList, "PIXEL".toList, "COMPUTE".toList, "SHADER".toList,
   "UNIFORMS".toList, "UNIFORM".toList, "INPUTS".toList, "LAYOUT".toList]

/-- One iteration of the line loop on the line `start` (the text from `start` up to `end`,
where the newline was overwritten). -/
def processLine (b : Backend) (w : World) (st : PState) (start : Str) : Step :=
  let last := (word start).1
  let p := (word start).2
  if last = [] then Step.cont w st
  else if last = "VERTEXFUNCTIONS".toList then
    afterFinish (finish b w st) (fun s => { s with vfunctions := [], accum := Accum.vfunctions })
  else if last = "PIXELFUNCTIONS".toList then
    afterFinish (finish b w st) (fun s => { s with pfunctions := [], accum := Accum.pfunctions })
  else if last = "COMPUTEFUNCTIONS".toList then
    afterFinish (finish b w st) (fun s => { s with cfunctions := [], accum := Accum.cfunctions })
  else if last = "VERTEX".toList then
    Step.cont w { st with vertex := [], accum := Accum.vertex }
  else if last = "PIXEL".toList then
    Step.cont w { st with pixel := [], accum := Accum.pixel }
  else if last = "COMPUTE".toList then
    Step.cont w { st with compute := [], accum := Accum.compute }
  else if last = "SHADER".toList then
    afterFinish (finish b w st) (fun s =>
      { s with shader := (word p).1, vdecl := [], pdecl := [], csdecl := [],
               vertex := [], pixel := [], compute := [], accum := Accum.none })
  else if last = "UNIFORMS".toList then
    match uniformsLoop (decide (st.accum = Accum.compute)) (p.length + 1) p (declOf st) with
    | Except.error e => Step.ret w e Exit.syntaxError
    | Except.ok d => Step.cont w (setDecl st d)
  else if last = "UNIFORM".toList then
    let type := (word p).1
    let name := (word (word p).2).1
    if type = [] ∨ name = [] then
      Step.ret w "uniform decl must specify type and name".toList Exit.syntaxError
    else
      Step.cont w (setDecl st (declOf st ++
        ("uniform ".toList ++ type ++ " ".toList ++ name ++ ";\n".toList)))
  else if last = "INPUTS".toList then
    match inputsLoop (p.length + 1) p st with
    | Except.error e => Step.ret w e Exit.syntaxError
    | Except.ok st1 => Step.cont w st1
  else if last = "LAYOUT".toList then
    let xs := (word p).1
    let ys := (word (word p).2).1
    Step.cont w { st with csdecl := st.csdecl ++
      ("layout(local_size_x = ".toList ++ xs ++ ", local_size_y = ".toList ++ ys ++
        ") in;\n".toList) }
  else if st.accum = Accum.none then
    Step.ret w ("GLSL code outside of FUNCTIONS/VERTEX/PIXEL block: ".toList ++ start)
      Exit.syntaxError
  else Step.cont w (appendAccum st (start ++ "\n".toList))

/-- The `for (;;)` loop over the lines of the buffer, until a line makes the function
return or throw. -/
def lineLoop (b : Backend) : World → PState → List Str → Step
  | w, st, [] => Step.cont w st
  | w, st, l :: ls =>
    match processLine b w st l with
    | Step.cont w1 st1 => lineLoop b w1 st1 ls
    | r => r

/-- How `ParseMaterialFile` ends. -/
inductive Outcome
  | returned (err : Str) (via : Exit)
  | thrown (msg : Str)
  deriving DecidableEq, Repr

/-- The world after `ParseMaterialFile` and how it ended. -/
structure Result where
  world : World
  outcome : Outcome
  deriving DecidableEq, Repr

/-- The statements after the loop: `finish(); return err;`. -/
def finishAtEnd (b : Backend) (w : World) (st : PState) : Result :=
  match finish b w st with
  | FinishResult.done w1 st1 _ => ⟨w1, Outcome.returned st1.err Exit.endOfInput⟩
  | FinishResult.thrown w1 msg => ⟨w1, Outcome.thrown msg⟩

/-- The parse from a given point of the loop: the remaining lines, then the final
statements. -/
def parseFrom (b : Backend) (w : World) (st : PState) (ls : List Str) : Result :=
  match lineLoop b w st ls with
  | Step.cont w1 st1 => finishAtEnd b w1 st1
  | Step.ret w1 e via => ⟨w1, Outcome.returned e via⟩
  | Step.thrown w1 msg => ⟨w1, Outcome.thrown msg⟩

/-- `ParseMaterialFile(mbuf)` run in a world. -/
def ParseMaterialFile (b : Backend) (w : World) (mbuf : Str) : Result :=
  parseFrom b w PState.init (splitLines (cstr mbuf))

/-- The string `ParseMaterialFile` returns, if it returns. -/
def Result.err? (r : Result) : Option Str :=
  match r.outcome with
  | Outcome.returned e _ => some e
  | Outcome.thrown _ => none

/-! ## Sample backends -/

/-- A desktop driver that compiles and links everything. -/
def acceptAll : Backend :=
  { platform := Platform.desktop
    compileStatus := fun _ _ => true
    shaderInfoLog := fun _ _ => []
    linkStatus := fun _ => true }

/-- An ES2 driver (no compute support) that compiles and links everything. -/
def acceptAllES2 : Backend := { acceptAll with platform := Platform.es2 }

/-- A desktop driver that rejects every source with the log `bad`. -/
def rejectAll : Backend :=
  { platform := Platform.desktop
    compileStatus := fun _ _ => false
    shaderInfoLog := fun _ _ => "bad".toList
    linkStatus := fun _ => true }

/-- The world at start-up: empty registry, nothing called. -/
def World.empty : World := ⟨[], [], []⟩

/-- The words the loops `for (;;) { word(); if (last.empty()) break; ... }` read from the
cursor `p`, in order. -/
def tokensAux : Nat → Str → List Str
  | 0, _ => []
  | fuel + 1, p => if (word p).1 = [] then [] else (word p).1 :: tokensAux fuel (word p).2

/-- The words on the rest of a line. -/
def tokens (p : Str) : List Str := tokensAux (p.length + 1) p

/-- A line of body text for the default branch: it lies within one line of the buffer, and
its first word is non-empty and selects no handler. -/
def isBodyLine (l : Str) : Bool :=
  decide ('\n' ∉ l) && decide ('\x00' ∉ l) && decide ((word l).1 ≠ []) &&
    decide ((word l).1 ∉ keywords)

/-- A shader name as `SHADER <name>` reads it back: non-empty, without separators, newline
or terminator. -/
def isName (s : Str) : Bool :=
  decide (s ≠ []) && s.all (fun c => !isBlank c && c != '\n' && c != '\x00')

/-- The world a compile call leaves behind. -/
def CompileResult.world : CompileResult → World
  | CompileResult.returned w _ _ => w
  | CompileResult.thrown w _ => w

/-- The world `finish` leaves behind. -/
def FinishResult.world : FinishResult → World
  | FinishResult.done w _ _ => w
  | FinishResult.thrown w _ => w

/-- The world after one line. -/
def Step.world : Step → World
  | Step.cont w _ => w
  | Step.ret w _ _ => w
  | Step.thrown w _ => w

/-- The name has an entry in the registry. -/
def registered (w : World) (name : Str) : Prop := LookupShader w.registry name ≠ none

/-- A driver that compiles every source and links every program. -/
def Backend.acceptsAll (b : Backend) : Prop :=
  (∀ t src, b.compileStatus t src = true) ∧ (∀ a, b.linkStatus a = true)

/-- The material `SHADER s` / `VERTEX` / `X` / `PIXEL` / `Y`, one item per line. -/
def shaderMaterial (s X Y : Str) : Str :=
  "SHADER ".toList ++ s ++ "\nVERTEX\n".toList ++ X ++ "\nPIXEL\n".toList ++ Y

/-- The source `header + "void main()\n{\n" + body + "\n}\n"`. -/
def mainAround (header body : Str) : Str :=
  header ++ "void main()\n\x7b\n".toList ++ body ++ "\n\x7d\n".toList

/-- The locals inside a `SHADER s` block that has so far only body text: the vertex body
`v`, the pixel body `p` and the compute body `c`, with `accum` at `a`. -/
def blockState (s v p c : Str) (a : Accum) : PState :=
  { PState.init with shader := s, vertex := v, pixel := p, compute := c, accum := a }

/-- The name part of an `INPUTS` word: the text before its first `:` (the whole word when
it has none). -/
def inputName (tok : Str) : Str := tok.takeWhile (fun c => c != ':')

/-- The component count of an `INPUTS` word: `atoi` of the text after its first `:`. -/
def inputCount (tok : Str) : Int := atoi (tok.drop ((inputName tok).length + 1))

/-- The `INPUTS` word has a `:` and a component count in 1..4. -/
def validInput (tok : Str) : Bool :=
  decide (':' ∈ tok) && decide (1 ≤ inputCount tok) && decide (inputCount tok ≤ 4)

/-- The body of the `INPUTS` loop run over a list of words. -/
def inputsAll : PState → List Str → Except Str PState
  | st, [] => Except.ok st
  | st, t :: ts =>
    match inputsWord st t with
    | Except.error e => Except.error e
    | Except.ok st1 => inputsAll st1 ts

/-- The body of the `UNIFORMS` loop run over a list of words. -/
def uniformsAll (isCompute : Bool) : Str → List Str → Except Str Str
  | decl, [] => Except.ok decl
  | decl, t :: ts =>
    match uniformsWord isCompute decl t with
    | Except.error e => Except.error e
    | Except.ok decl1 => uniformsAll isCompute decl1 ts

/-- The seven predefined uniform names of the `UNIFORMS` handler. -/
def predefinedUniforms : List Str :=
  ["mvp".toList, "col".toList, "camera".toList, "light1".toList, "lightparams1".toList,
   "bones".toList, "pointscale".toList]

/-- The word is taken by the `UNIFORMS` handler: a predefined name, or any word that begins
with `tex` (the test `!strncmp(last.c_str(), "tex", 3)`). -/
def acceptedUniform (t : Str) : Bool :=
  decide (t ∈ predefinedUniforms) || "tex".toList.isPrefixOf t

/-- A decimal unit index: one or more decimal digits. -/
def isUnitIndex (d : Str) : Bool := decide (d ≠ []) && d.all Char.isDigit

/-- The texture-uniform pattern in the words of the specification: the prefix `tex`,
optionally `cube`, optionally `f`, then a decimal unit index. -/
def specTexturePattern (t : Str) : Bool :=
  ["tex".toList, "texcube".toList, "texf".toList, "texcubef".toList].any
    (fun pre => pre.isPrefixOf t && isUnitIndex (t.drop pre.length))

/-- Lines put one per line, each after a newline. -/
def joinLines : List Str → Str
  | [] => []
  | l :: ls => '\n' :: l ++ joinLines ls

/-- The material `SHADER c` / `COMPUTE` followed by the lines of the body. -/
def computeMaterial (c : Str) (body : List Str) : Str :=
  "SHADER ".toList ++ c ++ "\nCOMPUTE".toList ++ joinLines body

/-- The locals after the default branch took the lines `ls` one after the other. -/
def appendLines (st : PState) : List Str → PState
  | [] => st
  | l :: ls => appendLines (appendAccum st (l ++ "\n".toList)) ls

/-- Two blocks under the same name `s`, one after the other in one material. -/
def twoBlockMaterial (s X1 Y1 X2 Y2 : Str) : Str :=
  shaderMaterial s X1 Y1 ++ '\n' :: shaderMaterial s X2 Y2

/-- The program `finish` builds from the locals: a compute stage when the compute body is
non-empty, else a vertex and a pixel stage. -/
def programOf (b : Backend) (st : PState) : Shader :=
  if st.compute.length ≠ 0 then ⟨none, none, some (computeSource st)⟩
  else ⟨some (vertexSource b st), some (pixelSource b st), none⟩

/-- The world after `finish` compiled, linked and registered the vertex/pixel block `s`
with body lines `X` and `Y` (no declarations, no functions). -/
def registerBlock (b : Backend) (w : World) (s X Y : Str) : World :=
  { registry := w.registry.assign s
      ⟨some (mainAround (versionHeader b) X), some (mainAround (versionHeader b) Y), none⟩
    calls := w.calls ++
      [GLCall.compileShader Stage.vertex (mainAround (versionHeader b) X),
       GLCall.compileShader Stage.fragment (mainAround (versionHeader b) Y),
       GLCall.linkProgram [(Stage.vertex, mainAround (versionHeader b) X),
         (Stage.fragment, mainAround (versionHeader b) Y)]]
    compiled := w.compiled ++ [(s, [])] }

/-- The log of `Shader::Compile` results grew from `w` to `w1` by calls that all returned
the empty string. -/
def cleanExt (w w1 : World) : Prop :=
  ∃ new, w1.compiled = w.compiled ++ new ∧ ∀ x ∈ new, x.2 = []

/-- The log of `Shader::Compile` results grew from `w` to `w1`, and one of the new calls
returned the non-empty string `e`. -/
def dirtyExt (w w1 : World) (e : Str) : Prop :=
  e ≠ [] ∧ ∃ new, w1.compiled = w.compiled ++ new ∧ ∃ x ∈ new, x.2 = e

/-- What `finish` does to the log of compile results. -/
def FinishSpec (w : World) : FinishResult → Prop
  | FinishResult.done w1 _ false => cleanExt w w1
  | FinishResult.done w1 st1 true => dirtyExt w w1 st1.err
  | FinishResult.thrown _ _ => True

/-- What the lines do to the log of compile results, by the way they end. -/
def StepSpec (w : World) : Step → Prop
  | Step.cont w1 _ => cleanExt w w1
  | Step.ret w1 e Exit.syntaxError => cleanExt w w1 ∧ e ≠ []
  | Step.ret w1 e Exit.compileError => dirtyExt w w1 e
  | Step.ret _ _ Exit.endOfInput => False
  | Step.thrown _ _ => True

/-- The string `Shader::Compile` returns for the shader `s` with vertex body `a` when the
desktop driver rejects the vertex stage with the log `bad`. -/
def sampleVertexError : Str :=
  ("couldn't compile vertex shader: s\nGLSL ERROR: bad" ++
    "1: #version 130\n2: void main()\n3: \x7b\n4: a\n5: \x7d\n6: \n").toList

/-- The string `Shader::Compile` returns when the driver rejects the vertex stage assembled
from the locals. -/
def vertexError (b : Backend) (st : PState) : Str :=
  "couldn't compile vertex shader: ".toList ++ st.shader ++ "\n".toList ++
    GLSLError (b.shaderInfoLog Stage.vertex (vertexSource b st)) (some (vertexSource b st))

/-- The string `Shader::Compile` returns when the driver rejects the pixel stage assembled
from the locals. -/
def pixelError (b : Backend) (st : PState) : Str :=
  "couldn't compile pixel shader: ".toList ++ st.shader ++ "\n".toList ++
    GLSLError (b.shaderInfoLog Stage.fragment (pixelSource b st)) (some (pixelSource b st))

/-- The string `Shader::Compile` returns when the driver rejects the compute stage assembled
from the locals. -/
def computeError (b : Backend) (st : PState) : Str :=
  "couldn't compile compute shader: ".toList ++ st.shader ++ "\n".toList ++
    GLSLError (b.shaderInfoLog Stage.compute (computeSource st)) (some (computeSource st))

/-- The world after a failed compilation of the pending shader: the registry is as before,
the driver saw the calls `cs`, and `Shader::Compile` returned `msg`. -/
def rejectedWorld (w : World) (cs : List GLCall) (name msg : Str) : World :=
  { registry := w.registry, calls := w.calls ++ cs, compiled := w.compiled ++ [(name, msg)] }

/-- The first word of the line is one of the keywords whose handler starts with
`if (finish()) return err;`. -/
def finishingLine (l : Str) : Prop :=
  (word l).1 = "SHADER".toList ∨ (word l).1 = "VERTEXFUNCTIONS".toList ∨
  (word l).1 = "PIXELFUNCTIONS".toList ∨ (word l).1 = "COMPUTEFUNCTIONS".toList

/-- The `for (;;)` loop of `GLSLError` as written: `i` is the counter, `source` the rest
of the source and `err` the message so far.  Each round appends `to_string(++i)` and ": ",
then the text up to and including the next newline, or the rest of the source and a
newline when there is no newline left. -/
def GLSLErrorLoop : Nat → Nat → Str → Str → Str
  | 0, _, _, err => err
  | fuel + 1, i, source, err =>
    if '\n' ∈ source then
      GLSLErrorLoop fuel (i + 1) ((source.dropWhile (fun c => c != '\n')).drop 1)
        (err ++ to_string ((i + 1 : Nat) : Int) ++ ": ".toList ++
          (source.takeWhile (fun c => c != '\n') ++ "\n".toList))
    else err ++ to_string ((i + 1 : Nat) : Int) ++ ": ".toList ++ (source ++ "\n".toList)

/-- The numbered source in the words of the specification: the pieces p1 .. pn rendered as
"1: p1\n2: p2\n ... n: pn\n". -/
def specNumberedLines (ps : List Str) : Str :=
  ((List.range' 1 ps.length).zip ps).foldr
    (fun kp acc => to_string (kp.1 : Int) ++ ": ".toList ++ kp.2 ++ "\n".toList ++ acc) []

/-- The program was built from one of the two stage sets: a vertex and a pixel stage that
the driver compiled and linked, without a compute stage; or a compute stage that the
driver compiled and linked, without a vertex or pixel stage. -/
def builtBy (b : Backend) (sh : Shader) : Prop :=
  (∃ v p, sh = ⟨some v, some p, none⟩ ∧ b.compileStatus Stage.vertex v = true ∧
    b.compileStatus Stage.fragment p = true ∧
    b.linkStatus [(Stage.vertex, v), (Stage.fragment, p)] = true) ∨
  (∃ c, sh = ⟨none, none, some c⟩ ∧ b.platform = Platform.desktop ∧
    b.compileStatus Stage.compute c = true ∧ b.linkStatus [(Stage.compute, c)] = true)

/-- Every entry of the registry of `w1` is an entry of `w` or holds a program built from
one of the two stage sets. -/
def shapedExt (b : Backend) (w w1 : World) : Prop :=
  ∀ e ∈ w1.registry, e ∈ w.registry ∨ builtBy b e.2

/-- A uniform write issued to the driver, `glUniform<components>fv(loc, elements, val)`.
The values behind `val` are never inspected, so their type is left open. -/
structure UniformWrite (V : Type) where
  components : Nat
  loc : Int
  elements : Int
  val : V
  deriving DecidableEq, Repr

/-- `Shader::SetUniform(name, val, components, elements)`, with `getLocation` the answer of
`glGetUniformLocation(program, name)` (negative when the name is not found).  Returns the
result and the writes issued. -/
def Shader.SetUniform {V : Type} (getLocation : Str → Int) (name : Str) (val : V)
    (components elements : Int) : Bool × List (UniformWrite V) :=
  if getLocation name < 0 then (false, [])
  else if components = 1 then (true, [⟨1, getLocation name, elements, val⟩])
  else if components = 2 then (true, [⟨2, getLocation name, elements, val⟩])
  else if components = 3 then (true, [⟨3, getLocation name, elements, val⟩])
  else if components = 4 then (true, [⟨4, getLocation name, elements, val⟩])
  else (false, [])

/-- The non-blank lines of `ls`, in order, each followed by a newline. -/
def bodyText : List Str → Str
  | [] => []
  | x :: xs => if (word x).1 = [] then bodyText xs else x ++ "\n".toList ++ bodyText xs

/-- The declaration lines of the seven predefined uniform names, as written in the
`UNIFORMS` handler. -/
def predefinedLines : List (Str × Str) :=
  [("mvp".toList, "uniform mat4 mvp;\n".toList),
   ("col".toList, "uniform vec4 col;\n".toList),
   ("camera".toList, "uniform vec3 camera;\n".toList),
   ("light1".toList, "uniform vec3 light1;\n".toList),
   ("lightparams1".toList, "uniform vec2 lightparams1;\n".toList),
   ("bones".toList, "uniform vec4 bones[230];\n".toList),
   ("pointscale".toList, "uniform float pointscale;\n".toList)]

/-- The cubemap marker of a texture word: `cube` follows `tex`. -/
def texCube (t : Str) : Bool := "texcube".toList.isPrefixOf t

/-- The floating-point marker of a texture word: `f` follows `tex` or `texcube`. -/
def texFloat (t : Str) : Bool := (t.drop (if texCube t then 7 else 3)).head? = some 'f'

/-- The unit of a texture word: `atoi` of the text after the markers. -/
def texUnit (t : Str) : Int :=
  atoi (t.drop ((if texCube t then 7 else 3) + (if texFloat t then 1 else 0)))

/-- The declaration line of a texture word `t`: a sampler outside a compute body, a
layout-qualified image inside one; the declared name is the whole word. -/
def textureLine (isCompute : Bool) (t : Str) : Str :=
  if isCompute then
    "layout(binding = ".toList ++ to_string (texUnit t) ++ ", ".toList ++
      (if texFloat t then "rgba32f".toList else "rgba8".toList) ++ ") uniform ".toList ++
      (if texCube t then "imageCube".toList else "image2D".toList) ++
      " ".toList ++ t ++ ";\n".toList
  else
    "uniform ".toList ++
      (if texCube t then "samplerCube".toList else "sampler2D".toList) ++
      " ".toList ++ t ++ ";\n".toList

/-- The declaration line of an accepted `UNIFORMS` word: the fixed line of a predefined
name, the texture line of any other word. -/
def uniformText (isCompute : Bool) (t : Str) : Str :=
  match predefinedLines.lookup t with
  | some line => line
  | none => textureLine isCompute t

/-- The texts the `UNIFORMS` loop appends for the words `ts`, in order. -/
def uniformTexts (isCompute : Bool) : List Str → Str
  | [] => []
  | t :: ts => uniformText isCompute t ++ uniformTexts isCompute ts

/-! ## The line loop on the buffer -/

/-- How a run on the buffer ends: the result, the contents of the buffer at that moment,
and the number of rounds of the line loop. -/
structure BufferRun where
  result : Result
  buffer : Str
  rounds : Nat
  deriving DecidableEq, Repr

/-- The `for (;;)` loop of `ParseMaterialFile` with the writes to the buffer.  `done` is
the text before `start`, `p` the text from the cursor up to the terminator, `tail` the
terminator and what follows it, `n` the rounds so far.  In a round, `end` is at the first
newline of `p` or at the terminator (`eof`); `*end = 0` puts a terminator there; a `return`
or an exception inside the round leaves the buffer so; otherwise the loop breaks at `eof`,
or restores the newline (`*end = '\n'`) and goes on after it.  `none` when the fuel runs
out. -/
def bufferLoop (b : Backend) :
    Nat → World → PState → Str → Str → Str → Nat → Option BufferRun
  | 0, _, _, _, _, _, _ => none
  | fuel + 1, w, st, done, p, tail, n =>
    let line := p.takeWhile (fun c => c != '\n')
    let rest := p.dropWhile (fun c => c != '\n')
    let during :=
      if rest = [] then done ++ line ++ tail
      else done ++ line ++ '\x00' :: (rest.drop 1 ++ tail)
    match processLine b w st line with
    | Step.ret w1 e via => some ⟨⟨w1, Outcome.returned e via⟩, during, n + 1⟩
    | Step.thrown w1 m => some ⟨⟨w1, Outcome.thrown m⟩, during, n + 1⟩
    | Step.cont w1 st1 =>
      if rest = [] then some ⟨finishAtEnd b w1 st1, done ++ line ++ tail, n + 1⟩
      else bufferLoop b fuel w1 st1 (done ++ line ++ ['\n']) (rest.drop 1) tail (n + 1)

/-- `ParseMaterialFile(mbuf)` run on the buffer `mbuf` (its terminator is the first NUL, or
the end of the list). -/
def ParseMaterialFileBuf (b : Backend) (w : World) (mbuf : Str) : Option BufferRun :=
  bufferLoop b ((cstr mbuf).length + 1) w PState.init [] (cstr mbuf)
    (mbuf.drop (cstr mbuf).length) 0

/-! ## Scanner lemmas -/

theorem cstr_eq_self (s : Str) (h : '\x00' ∉ s) : cstr s = s := by
  unfold cstr
  rw [List.takeWhile_eq_self_iff]
  intro c hc
  have : c ≠ '\x00' := fun e => h (e ▸ hc)
  simpa using this

theorem splitLines_of_not_mem (l : Str) (h : '\n' ∉ l) : splitLines l = [l] := by
  induction l with
  | nil => rfl
  | cons c cs ih =>
    have hc : c ≠ '\n' := fun e => h (by simp [e])
    have hcs : '\n' ∉ cs := fun e => h (List.mem_cons_of_mem _ e)
    simp [splitLines, hc, ih hcs]

theorem splitLines_append (l rest : Str) (h : '\n' ∉ l) :
    splitLines (l ++ '\n' :: rest) = l :: splitLines rest := by
  induction l with
  | nil => simp [splitLines]
  | cons c cs ih =>
    have hc : c ≠ '\n' := fun e => h (by simp [e])
    have hcs : '\n' ∉ cs := fun e => h (List.mem_cons_of_mem _ e)
    simp [splitLines, hc, ih hcs]

theorem word_nil : word [] = ([], []) := rfl

theorem word_token (t : Str) (h : ∀ c ∈ t, isBlank c = false) : word t = (t, []) := by
  have h1 : t.dropWhile isBlank = t := by
    cases t with
    | nil => rfl
    | cons c cs => simp [List.dropWhile, h c (by simp)]
  have h2 : t.takeWhile (fun c => !isBlank c) = t := by
    rw [List.takeWhile_eq_self_iff]; intro c hc; simp [h c hc]
  have h3 : t.dropWhile (fun c => !isBlank c) = [] := by
    rw [List.dropWhile_eq_nil_iff]; intro c hc; simp [h c hc]
  simp [word, h1, h2, h3]

theorem word_token_append (t : Str) (c : Char) (r : Str) (ht : t ≠ [])
    (h : ∀ c ∈ t, isBlank c = false) (hc : isBlank c = true) :
    word (t ++ c :: r) = (t, c :: r) := by
  have h1 : (t ++ c :: r).dropWhile isBlank = t ++ c :: r := by
    cases t with
    | nil => exact absurd rfl ht
    | cons a as => simp [List.dropWhile, h a (by simp)]
  have h2 : ∀ (u : Str), (∀ x ∈ u, isBlank x = false) →
      (u ++ c :: r).takeWhile (fun c => !isBlank c) = u ∧
      (u ++ c :: r).dropWhile (fun c => !isBlank c) = c :: r := by
    intro u hu
    induction u with
    | nil => simp [List.takeWhile, List.dropWhile, hc]
    | cons a as ih =>
      have ha := hu a (by simp)
      have := ih (fun x hx => hu x (List.mem_cons_of_mem _ hx))
      simp [List.takeWhile, List.dropWhile, ha, this]
  simp [word, h1, h2 t h]

theorem word_blank_cons (c : Char) (p : Str) (hc : isBlank c = true) :
    word (c :: p) = word p := by
  simp [word, List.dropWhile, hc]

/-! ## The compile path -/

theorem finish_no_shader (b : Backend) (w : World) (st : PState) (h : st.shader = []) :
    finish b w st = FinishResult.done w st false := by
  simp [finish, h]

theorem Compile_accept (b : Backend) (w : World) (sh : Shader) (name vs ps : Str)
    (hb : b.acceptsAll) :
    Shader.Compile b w sh name vs ps =
      CompileResult.returned
        { w with calls := w.calls ++ [GLCall.compileShader Stage.vertex vs,
            GLCall.compileShader Stage.fragment ps,
            GLCall.linkProgram [(Stage.vertex, vs), (Stage.fragment, ps)]] }
        { sh with vs := some vs, ps := some ps } [] := by
  simp [Shader.Compile, CompileGLSLShader, Shader.Link, hb.1, hb.2]

theorem Compile_calls (b : Backend) (w : World) (sh : Shader) (name vs ps : Str) :
    ∃ rest, (Shader.Compile b w sh name vs ps).world.calls =
      w.calls ++ GLCall.compileShader Stage.vertex vs :: rest := by
  unfold Shader.Compile CompileGLSLShader Shader.Link
  by_cases hv : b.compileStatus Stage.vertex vs = true
  · by_cases hp : b.compileStatus Stage.fragment ps = true
    · by_cases hl : b.linkStatus [(Stage.vertex, vs), (Stage.fragment, ps)] = true
      · exact ⟨_, by simp [hv, hp, hl, CompileResult.world]; rfl⟩
      · exact ⟨_, by simp [hv, hp, hl, CompileResult.world]; rfl⟩
    · exact ⟨_, by simp [hv, hp, CompileResult.world]; rfl⟩
  · exact ⟨[], by simp [hv, CompileResult.world]⟩

theorem finish_graphics_accept (b : Backend) (w : World) (st : PState) (hb : b.acceptsAll)
    (hs : st.shader ≠ []) (hc : st.compute = []) :
    finish b w st =
      FinishResult.done
        { registry := w.registry.assign st.shader
            ⟨some (vertexSource b st), some (pixelSource b st), none⟩
          calls := w.calls ++ [GLCall.compileShader Stage.vertex (vertexSource b st),
            GLCall.compileShader Stage.fragment (pixelSource b st),
            GLCall.linkProgram [(Stage.vertex, vertexSource b st),
              (Stage.fragment, pixelSource b st)]]
          compiled := w.compiled ++ [(st.shader, [])] }
        { st with err := [], shader := [] } false := by
  simp [finish, finishCompiled, hs, hc, Compile_accept _ _ _ _ _ _ hb, Shader.new]

/-! ## The `err` local is empty while the loop runs -/

theorem finishCompiled_done_err (st st1 : PState) (r : CompileResult) (w1 : World)
    (h : finishCompiled st r = FinishResult.done w1 st1 false) : st1.err = [] := by
  unfold finishCompiled at h
  split at h
  · simp at h
  · split_ifs at h with hne
    · simp at h
    · simp only [FinishResult.done.injEq] at h
      rw [← h.2.1]
      simpa using hne

theorem finish_done_err (b : Backend) (w w1 : World) (st st1 : PState)
    (h : finish b w st = FinishResult.done w1 st1 false) (he : st.err = []) : st1.err = [] := by
  unfold finish at h
  split_ifs at h with hs
  all_goals first | exact finishCompiled_done_err _ _ _ _ h | (cases h; exact he)

theorem afterFinish_cont (r : FinishResult) (k : PState → PState) (w1 : World) (st1 : PState)
    (h : afterFinish r k = Step.cont w1 st1) :
    ∃ st0, r = FinishResult.done w1 st0 false ∧ st1 = k st0 := by
  unfold afterFinish at h
  split at h
  · simp at h
  · simp at h
  · simp only [Step.cont.injEq] at h
    exact ⟨_, by rw [h.1], h.2.symm⟩

theorem setDecl_err (st : PState) (d : Str) : (setDecl st d).err = st.err := by
  unfold setDecl; split_ifs <;> rfl

theorem appendAccum_err (st : PState) (t : Str) : (appendAccum st t).err = st.err := by
  unfold appendAccum; split <;> rfl

theorem inputsWord_err (st st1 : PState) (last : Str)
    (h : inputsWord st last = Except.ok st1) : st1.err = st.err := by
  simp only [inputsWord] at h
  split_ifs at h <;> cases h <;> rfl

theorem inputsLoop_err (fuel : Nat) (p : Str) (st st1 : PState)
    (h : inputsLoop fuel p st = Except.ok st1) : st1.err = st.err := by
  induction fuel generalizing p st with
  | zero => simp [inputsLoop] at h; rw [← h]
  | succ n ih =>
    unfold inputsLoop at h
    split_ifs at h
    · simp at h; rw [← h]
    · split at h
      · simp at h
      · rename_i st2 hw
        rw [ih _ _ h, inputsWord_err _ _ _ hw]

theorem uniformsWord_error (c : Bool) (decl last e : Str)
    (h : uniformsWord c decl last = Except.error e) :
    e = "unknown uniform: ".toList ++ last ∧ acceptedUniform last = false := by
  unfold uniformsWord at h
  by_cases h1 : last = "mvp".toList
  · rw [if_pos h1] at h; cases h
  rw [if_neg h1] at h
  by_cases h2 : last = "col".toList
  · rw [if_pos h2] at h; cases h
  rw [if_neg h2] at h
  by_cases h3 : last = "camera".toList
  · rw [if_pos h3] at h; cases h
  rw [if_neg h3] at h
  by_cases h4 : last = "light1".toList
  · rw [if_pos h4] at h; cases h
  rw [if_neg h4] at h
  by_cases h5 : last = "lightparams1".toList
  · rw [if_pos h5] at h; cases h
  rw [if_neg h5] at h
  by_cases h6 : last = "bones".toList
  · rw [if_pos h6] at h; cases h
  rw [if_neg h6] at h
  by_cases h7 : last = "pointscale".toList
  · rw [if_pos h7] at h; cases h
  rw [if_neg h7] at h
  by_cases h8 : "tex".toList.isPrefixOf last = true
  · rw [if_pos h8] at h; cases h
  rw [if_neg h8] at h
  cases h
  refine ⟨rfl, ?_⟩
  have hm : last ∉ predefinedUniforms := by
    intro hm
    simp only [predefinedUniforms, List.mem_cons, List.mem_singleton, List.not_mem_nil,
      or_false] at hm
    rcases hm with hm | hm | hm | hm | hm | hm | hm
    · exact h1 hm
    · exact h2 hm
    · exact h3 hm
    · exact h4 hm
    · exact h5 hm
    · exact h6 hm
    · exact h7 hm
  unfold acceptedUniform
  rw [Bool.eq_false_iff.2 h8, decide_eq_false hm]
  rfl

theorem uniformsWord_unknown (c : Bool) (decl last : Str)
    (h : acceptedUniform last = false) :
    uniformsWord c decl last = Except.error ("unknown uniform: ".toList ++ last) := by
  have hacc : last ∉ predefinedUniforms ∧ "tex".toList.isPrefixOf last = false := by
    unfold acceptedUniform at h
    rw [Bool.or_eq_false_iff] at h
    exact ⟨of_decide_eq_false h.1, h.2⟩
  have hk : ∀ k ∈ predefinedUniforms, ¬ last = k := fun k hm e => hacc.1 (e ▸ hm)
  unfold uniformsWord
  rw [if_neg (hk "mvp".toList (by decide)), if_neg (hk "col".toList (by decide)),
    if_neg (hk "camera".toList (by decide)), if_neg (hk "light1".toList (by decide)),
    if_neg (hk "lightparams1".toList (by decide)), if_neg (hk "bones".toList (by decide)),
    if_neg (hk "pointscale".toList (by decide)),
    if_neg (by rw [hacc.2]; exact Bool.false_ne_true)]

theorem uniformsWord_accepted (c : Bool) (decl last : Str)
    (h : acceptedUniform last = true) : ∃ d, uniformsWord c decl last = Except.ok d := by
  cases hr : uniformsWord c decl last with
  | ok d => exact ⟨d, rfl⟩
  | error e =>
    have := (uniformsWord_error c decl last e hr).2
    rw [h] at this; cases this

theorem uniformsWord_error_ne (c : Bool) (decl last e : Str)
    (h : uniformsWord c decl last = Except.error e) : e ≠ [] := by
  rw [(uniformsWord_error _ _ _ _ h).1]; simp

theorem uniformsLoop_error_ne (c : Bool) (fuel : Nat) (p decl e : Str)
    (h : uniformsLoop c fuel p decl = Except.error e) : e ≠ [] := by
  induction fuel generalizing p decl with
  | zero => simp [uniformsLoop] at h
  | succ n ih =>
    unfold uniformsLoop at h
    split_ifs at h
    split at h
    · rename_i e1 hw
      cases h
      exact uniformsWord_error_ne _ _ _ _ hw
    · exact ih _ _ h

theorem inputsWord_error_ne (st : PState) (last e : Str)
    (h : inputsWord st last = Except.error e) : e ≠ [] := by
  simp only [inputsWord] at h
  split_ifs at h <;> cases h <;> simp

theorem inputsLoop_error_ne (fuel : Nat) (p : Str) (st : PState) (e : Str)
    (h : inputsLoop fuel p st = Except.error e) : e ≠ [] := by
  induction fuel generalizing p st with
  | zero => simp [inputsLoop] at h
  | succ n ih =>
    unfold inputsLoop at h
    split_ifs at h
    split at h
    · rename_i e1 hw
      cases h
      exact inputsWord_error_ne _ _ _ hw
    · exact ih _ _ h

theorem inputsLoop_ok_err (p : Str) (st : PState) :
    (∃ e, inputsLoop (p.length + 1) p st = Except.error e) ∨
    (∃ st1, inputsLoop (p.length + 1) p st = Except.ok st1 ∧ st1.err = st.err) := by
  cases h : inputsLoop (p.length + 1) p st with
  | error e => exact Or.inl ⟨e, rfl⟩
  | ok st1 => exact Or.inr ⟨st1, rfl, inputsLoop_err _ _ _ _ h⟩

/-- The three shapes one iteration of the line loop can take: the locals change and the
world does not; a `finish()` call followed by updates of other locals than `err`; a
syntax error. -/
theorem processLine_cases (b : Backend) (w : World) (st : PState) (l : Str) :
    (∃ st1, processLine b w st l = Step.cont w st1 ∧ st1.err = st.err) ∨
    (∃ k : PState → PState, processLine b w st l = afterFinish (finish b w st) k ∧
      ∀ s, (k s).err = s.err) ∨
    (∃ e, processLine b w st l = Step.ret w e Exit.syntaxError ∧ e ≠ []) := by
  unfold processLine
  dsimp only
  by_cases h0 : (word l).1 = []
  · rw [if_pos h0]; exact Or.inl ⟨_, rfl, rfl⟩
  rw [if_neg h0]
  by_cases h1 : (word l).1 = "VERTEXFUNCTIONS".toList
  · rw [if_pos h1]; exact Or.inr (Or.inl ⟨_, rfl, fun _ => rfl⟩)
  rw [if_neg h1]
  by_cases h2 : (word l).1 = "PIXELFUNCTIONS".toList
  · rw [if_pos h2]; exact Or.inr (Or.inl ⟨_, rfl, fun _ => rfl⟩)
  rw [if_neg h2]
  by_cases h3 : (word l).1 = "COMPUTEFUNCTIONS".toList
  · rw [if_pos h3]; exact Or.inr (Or.inl ⟨_, rfl, fun _ => rfl⟩)
  rw [if_neg h3]
  by_cases h4 : (word l).1 = "VERTEX".toList
  · rw [if_pos h4]; exact Or.inl ⟨_, rfl, rfl⟩
  rw [if_neg h4]
  by_cases h5 : (word l).1 = "PIXEL".toList
  · rw [if_pos h5]; exact Or.inl ⟨_, rfl, rfl⟩
  rw [if_neg h5]
  by_cases h6 : (word l).1 = "COMPUTE".toList
  · rw [if_pos h6]; exact Or.inl ⟨_, rfl, rfl⟩
  rw [if_neg h6]
  by_cases h7 : (word l).1 = "SHADER".toList
  · rw [if_pos h7]; exact Or.inr (Or.inl ⟨_, rfl, fun _ => rfl⟩)
  rw [if_neg h7]
  by_cases h8 : (word l).1 = "UNIFORMS".toList
  · rw [if_pos h8]
    cases hu : uniformsLoop (decide (st.accum = Accum.compute)) ((word l).2.length + 1)
        (word l).2 (declOf st) with
    | error e =>
      refine Or.inr (Or.inr ⟨e, rfl, ?_⟩)
      exact uniformsLoop_error_ne _ _ _ _ _ hu
    | ok d => exact Or.inl ⟨_, rfl, setDecl_err _ _⟩
  rw [if_neg h8]
  by_cases h9 : (word l).1 = "UNIFORM".toList
  · rw [if_pos h9]
    by_cases hn : (word (word l).2).1 = [] ∨ (word (word (word l).2).2).1 = []
    · rw [if_pos hn]; exact Or.inr (Or.inr ⟨_, rfl, by simp⟩)
    · rw [if_neg hn]; exact Or.inl ⟨_, rfl, setDecl_err _ _⟩
  rw [if_neg h9]
  by_cases h10 : (word l).1 = "INPUTS".toList
  · rw [if_pos h10]
    cases hi : inputsLoop ((word l).2.length + 1) (word l).2 st with
    | error e =>
      refine Or.inr (Or.inr ⟨e, rfl, ?_⟩)
      exact inputsLoop_error_ne _ _ _ _ hi
    | ok st1 => exact Or.inl ⟨_, rfl, inputsLoop_err _ _ _ _ hi⟩
  rw [if_neg h10]
  by_cases h11 : (word l).1 = "LAYOUT".toList
  · rw [if_pos h11]; exact Or.inl ⟨_, rfl, rfl⟩
  rw [if_neg h11]
  by_cases h12 : st.accum = Accum.none
  · rw [if_pos h12]; exact Or.inr (Or.inr ⟨_, rfl, by simp⟩)
  · rw [if_neg h12]; exact Or.inl ⟨_, rfl, appendAccum_err _ _⟩

theorem processLine_cont_err (b : Backend) (w w1 : World) (st st1 : PState) (l : Str)
    (h : processLine b w st l = Step.cont w1 st1) (he : st.err = []) : st1.err = [] := by
  rcases processLine_cases b w st l with ⟨st2, h2, he2⟩ | ⟨k, h2, hk⟩ | ⟨e, h2, _⟩
  · rw [h2] at h; cases h; rw [he2]; exact he
  · rw [h2] at h
    obtain ⟨st0, h0, rfl⟩ := afterFinish_cont _ _ _ _ h
    rw [hk]; exact finish_done_err _ _ _ _ _ h0 he
  · rw [h2] at h; cases h

theorem lineLoop_cont_err (b : Backend) (ls : List Str) (w w1 : World) (st st1 : PState)
    (h : lineLoop b w st ls = Step.cont w1 st1) (he : st.err = []) : st1.err = [] := by
  induction ls generalizing w st with
  | nil => simp [lineLoop] at h; rw [← h.2]; exact he
  | cons l ls ih =>
    unfold lineLoop at h
    split at h
    · rename_i w2 st2 hp
      exact ih _ _ h (processLine_cont_err _ _ _ _ _ _ hp he)
    · rename_i r hr
      exact absurd h (hr w1 st1)

/-! ## Single lines -/

theorem lineLoop_cons_cont (b : Backend) (w w1 : World) (st st1 : PState) (l : Str)
    (ls : List Str) (h : processLine b w st l = Step.cont w1 st1) :
    lineLoop b w st (l :: ls) = lineLoop b w1 st1 ls := by
  simp [lineLoop, h]

theorem lineLoop_cons_ret (b : Backend) (w w1 : World) (st : PState) (l : Str)
    (ls : List Str) (e : Str) (via : Exit) (h : processLine b w st l = Step.ret w1 e via) :
    lineLoop b w st (l :: ls) = Step.ret w1 e via := by
  simp [lineLoop, h]

theorem lineLoop_append_cont (b : Backend) (pre post : List Str) (w w1 : World)
    (st st1 : PState) (h : lineLoop b w st pre = Step.cont w1 st1) :
    lineLoop b w st (pre ++ post) = lineLoop b w1 st1 post := by
  induction pre generalizing w st with
  | nil =>
    simp only [lineLoop, Step.cont.injEq] at h
    rw [← h.1, ← h.2]; rfl
  | cons l ls ih =>
    show lineLoop b w st (l :: (ls ++ post)) = _
    cases hr : processLine b w st l with
    | cont w2 st2 =>
      rw [lineLoop_cons_cont _ _ _ _ _ _ _ hr] at h ⊢
      exact ih _ _ h
    | ret w2 e via => simp [lineLoop, hr] at h
    | thrown w2 m => simp [lineLoop, hr] at h

theorem processLine_blank (b : Backend) (w : World) (st : PState) (l : Str)
    (h : (word l).1 = []) : processLine b w st l = Step.cont w st := by
  unfold processLine
  dsimp only
  rw [if_pos h]

theorem processLine_SHADER (b : Backend) (w : World) (st : PState) (l : Str)
    (h : (word l).1 = "SHADER".toList) :
    processLine b w st l = afterFinish (finish b w st) (fun s =>
      { s with shader := (word (word l).2).1, vdecl := [], pdecl := [], csdecl := [],
               vertex := [], pixel := [], compute := [], accum := Accum.none }) := by
  unfold processLine
  dsimp only
  rw [h]
  rfl

theorem processLine_VERTEX (b : Backend) (w : World) (st : PState) (l : Str)
    (h : (word l).1 = "VERTEX".toList) :
    processLine b w st l = Step.cont w { st with vertex := [], accum := Accum.vertex } := by
  unfold processLine
  dsimp only
  rw [h]
  rfl

theorem processLine_PIXEL (b : Backend) (w : World) (st : PState) (l : Str)
    (h : (word l).1 = "PIXEL".toList) :
    processLine b w st l = Step.cont w { st with pixel := [], accum := Accum.pixel } := by
  unfold processLine
  dsimp only
  rw [h]
  rfl

theorem processLine_COMPUTE (b : Backend) (w : World) (st : PState) (l : Str)
    (h : (word l).1 = "COMPUTE".toList) :
    processLine b w st l = Step.cont w { st with compute := [], accum := Accum.compute } := by
  unfold processLine
  dsimp only
  rw [h]
  rfl

theorem processLine_UNIFORMS (b : Backend) (w : World) (st : PState) (l : Str)
    (h : (word l).1 = "UNIFORMS".toList) :
    processLine b w st l =
      match uniformsLoop (decide (st.accum = Accum.compute)) ((word l).2.length + 1)
          (word l).2 (declOf st) with
      | Except.error e => Step.ret w e Exit.syntaxError
      | Except.ok d => Step.cont w (setDecl st d) := by
  unfold processLine
  dsimp only
  rw [h]
  rfl

/-- A line whose first word is non-empty and no keyword reaches the default branch. -/
theorem processLine_default (b : Backend) (w : World) (st : PState) (l : Str)
    (h0 : (word l).1 ≠ []) (hk : (word l).1 ∉ keywords) :
    processLine b w st l =
      if st.accum = Accum.none then
        Step.ret w ("GLSL code outside of FUNCTIONS/VERTEX/PIXEL block: ".toList ++ l)
          Exit.syntaxError
      else Step.cont w (appendAccum st (l ++ "\n".toList)) := by
  have hk1 : ∀ k ∈ keywords, ¬ (word l).1 = k := fun k hm e => hk (e ▸ hm)
  unfold processLine
  dsimp only
  rw [if_neg h0, if_neg (hk1 "VERTEXFUNCTIONS".toList (by decide)),
    if_neg (hk1 "PIXELFUNCTIONS".toList (by decide)),
    if_neg (hk1 "COMPUTEFUNCTIONS".toList (by decide)),
    if_neg (hk1 "VERTEX".toList (by decide)), if_neg (hk1 "PIXEL".toList (by decide)),
    if_neg (hk1 "COMPUTE".toList (by decide)), if_neg (hk1 "SHADER".toList (by decide)),
    if_neg (hk1 "UNIFORMS".toList (by decide)), if_neg (hk1 "UNIFORM".toList (by decide)),
    if_neg (hk1 "INPUTS".toList (by decide)), if_neg (hk1 "LAYOUT".toList (by decide))]

theorem isBodyLine_iff (l : Str) :
    isBodyLine l = true ↔
      '\n' ∉ l ∧ '\x00' ∉ l ∧ (word l).1 ≠ [] ∧ (word l).1 ∉ keywords := by
  simp [isBodyLine, and_assoc]

theorem processLine_body (b : Backend) (w : World) (st : PState) (l : Str)
    (hl : isBodyLine l = true) (ha : st.accum ≠ Accum.none) :
    processLine b w st l = Step.cont w (appendAccum st (l ++ "\n".toList)) := by
  obtain ⟨_, _, h0, hk⟩ := (isBodyLine_iff l).1 hl
  rw [processLine_default b w st l h0 hk, if_neg ha]

theorem isName_iff (s : Str) :
    isName s = true ↔
      s ≠ [] ∧ ∀ c ∈ s, isBlank c = false ∧ c ≠ '\n' ∧ c ≠ '\x00' := by
  simp [isName, and_assoc]

theorem word_after_keyword (k s : Str) (hk : k ≠ []) (hkb : ∀ c ∈ k, isBlank c = false)
    (hs : ∀ c ∈ s, isBlank c = false) :
    (word (k ++ ' ' :: s)).1 = k ∧ (word (word (k ++ ' ' :: s)).2).1 = s := by
  rw [word_token_append k ' ' s hk hkb (by decide)]
  refine ⟨rfl, ?_⟩
  show (word (' ' :: s)).1 = s
  rw [word_blank_cons ' ' s (by decide), word_token s hs]

theorem processLine_SHADER_name (b : Backend) (w : World) (st : PState) (s : Str)
    (hs : isName s = true) :
    processLine b w st ("SHADER".toList ++ ' ' :: s) =
      afterFinish (finish b w st) (fun x =>
        { x with shader := s, vdecl := [], pdecl := [], csdecl := [],
                 vertex := [], pixel := [], compute := [], accum := Accum.none }) := by
  obtain ⟨_, hc⟩ := (isName_iff s).1 hs
  obtain ⟨h1, h2⟩ := word_after_keyword "SHADER".toList s (by decide) (by decide)
    (fun c hm => (hc c hm).1)
  rw [processLine_SHADER b w st _ h1, h2]

/-! ## C1: a final `SHADER` block without body text -/

/-- C1, as stated, fails: the material `SHADER s` ends with a pending name `s` and the three
bodies empty, yet on a driver that accepts everything `ParseMaterialFile` submits a vertex
and a pixel source (each with an empty `main`) and registers a program under `s`. -/
theorem C1_counterexample :
    (∃ st, lineLoop acceptAll World.empty PState.init (splitLines (cstr "SHADER s".toList)) =
        Step.cont World.empty st ∧
      st.shader = "s".toList ∧ st.vertex = [] ∧ st.pixel = [] ∧ st.compute = []) ∧
    (ParseMaterialFile acceptAll World.empty "SHADER s".toList).world.calls =
      [GLCall.compileShader Stage.vertex "#version 130\nvoid main()\n\x7b\n\x7d\n".toList,
       GLCall.compileShader Stage.fragment "#version 130\nvoid main()\n\x7b\n\x7d\n".toList,
       GLCall.linkProgram
         [(Stage.vertex, "#version 130\nvoid main()\n\x7b\n\x7d\n".toList),
          (Stage.fragment, "#version 130\nvoid main()\n\x7b\n\x7d\n".toList)]] ∧
    LookupShader (ParseMaterialFile acceptAll World.empty "SHADER s".toList).world.registry
        "s".toList =
      some ⟨some "#version 130\nvoid main()\n\x7b\n\x7d\n".toList,
        some "#version 130\nvoid main()\n\x7b\n\x7d\n".toList, none⟩ := by
  refine ⟨⟨_, rfl, ?_⟩, ?_, ?_⟩ <;> decide

/-- C1, amended: when the line loop ends with the three bodies empty, the final `finish()`
looks only at the pending shader name.  With an empty name nothing is submitted, nothing
is registered and the empty string is returned.  With a non-empty name the block is
compiled as a vertex/pixel program whose `main` bodies are empty: the vertex source
header + vdecl + vfunctions + `void main()` with an empty body is submitted, and on a driver
that accepts every source and links, the program is registered under the name and the empty
string is returned. -/
theorem C1_final_block_without_body (b : Backend) (w w1 : World) (st : PState) (mbuf : Str)
    (hinit : lineLoop b w PState.init (splitLines (cstr mbuf)) = Step.cont w1 st)
    (hv : st.vertex = []) (hp : st.pixel = []) (hc : st.compute = []) :
    (st.shader = [] →
      ParseMaterialFile b w mbuf = ⟨w1, Outcome.returned [] Exit.endOfInput⟩) ∧
    (st.shader ≠ [] →
      ∃ rest, (ParseMaterialFile b w mbuf).world.calls =
        w1.calls ++ GLCall.compileShader Stage.vertex
          (versionHeader b ++ st.vdecl ++ st.vfunctions ++ mainOpen ++ mainClose) :: rest) ∧
    (st.shader ≠ [] → b.acceptsAll →
      ParseMaterialFile b w mbuf =
        ⟨{ registry := w1.registry.assign st.shader
             ⟨some (versionHeader b ++ st.vdecl ++ st.vfunctions ++ mainOpen ++ mainClose),
              some (versionHeader b ++ st.pdecl ++ st.pfunctions ++ mainOpen ++ mainClose),
              none⟩
           calls := w1.calls ++
             [GLCall.compileShader Stage.vertex
                (versionHeader b ++ st.vdecl ++ st.vfunctions ++ mainOpen ++ mainClose),
              GLCall.compileShader Stage.fragment
                (versionHeader b ++ st.pdecl ++ st.pfunctions ++ mainOpen ++ mainClose),
              GLCall.linkProgram
                [(Stage.vertex,
                  versionHeader b ++ st.vdecl ++ st.vfunctions ++ mainOpen ++ mainClose),
                 (Stage.fragment,
                  versionHeader b ++ st.pdecl ++ st.pfunctions ++ mainOpen ++ mainClose)]]
           compiled := w1.compiled ++ [(st.shader, [])] },
         Outcome.returned [] Exit.endOfInput⟩) := by
  have herr : st.err = [] := lineLoop_cont_err _ _ _ _ _ _ hinit rfl
  have hvs : vertexSource b st =
      versionHeader b ++ st.vdecl ++ st.vfunctions ++ mainOpen ++ mainClose := by
    simp [vertexSource, hv]
  have hps : pixelSource b st =
      versionHeader b ++ st.pdecl ++ st.pfunctions ++ mainOpen ++ mainClose := by
    simp [pixelSource, hp]
  refine ⟨?_, ?_, ?_⟩
  · intro hs
    simp [ParseMaterialFile, parseFrom, hinit, finishAtEnd, finish_no_shader _ _ _ hs, herr]
  · intro hs
    obtain ⟨rest, hr⟩ := Compile_calls b w1 Shader.new st.shader (vertexSource b st)
      (pixelSource b st)
    refine ⟨rest, ?_⟩
    rw [← hvs, ← hr]
    simp only [ParseMaterialFile, parseFrom, hinit, finishAtEnd, finish, hs, hc, ne_eq,
      not_false_eq_true, if_true, List.length_nil, not_true_eq_false, if_false]
    cases Shader.Compile b w1 Shader.new st.shader (vertexSource b st) (pixelSource b st) with
    | thrown w2 m => rfl
    | returned w2 sh e =>
      simp only [finishCompiled, CompileResult.world]
      split_ifs <;> rfl
  · intro hs hb
    rw [← hvs, ← hps]
    simp [ParseMaterialFile, parseFrom, hinit, finishAtEnd,
      finish_graphics_accept b w1 st hb hs hc]

/-- C1, witness: the amended statement at the materials `SHADER s` (pending name `s`) on
the accepting desktop driver. -/
theorem C1_final_block_without_body_witness :
    ∃ rest, (ParseMaterialFile acceptAll World.empty "SHADER s".toList).world.calls =
      World.empty.calls ++ GLCall.compileShader Stage.vertex
        (versionHeader acceptAll ++ [] ++ [] ++ mainOpen ++ mainClose) :: rest :=
  (C1_final_block_without_body acceptAll World.empty World.empty
    { PState.init with shader := "s".toList } "SHADER s".toList (by decide) rfl rfl rfl).2.1
    (by decide)

/-! ## C2: the vertex/pixel round trip -/

theorem shaderMaterial_lines (s X Y : Str) (hs : isName s = true)
    (hX : isBodyLine X = true) (hY : isBodyLine Y = true) :
    splitLines (cstr (shaderMaterial s X Y)) =
      ["SHADER".toList ++ ' ' :: s, "VERTEX".toList, X, "PIXEL".toList, Y] := by
  obtain ⟨_, hc⟩ := (isName_iff s).1 hs
  obtain ⟨hXn, hXz, _, _⟩ := (isBodyLine_iff X).1 hX
  obtain ⟨hYn, hYz, _, _⟩ := (isBodyLine_iff Y).1 hY
  have hsn : '\n' ∉ s := fun hm => (hc _ hm).2.1 rfl
  have hsz : '\x00' ∉ s := fun hm => (hc _ hm).2.2 rfl
  have hshape : shaderMaterial s X Y =
      ("SHADER".toList ++ ' ' :: s) ++ '\n' :: ("VERTEX".toList ++ '\n' ::
        (X ++ '\n' :: ("PIXEL".toList ++ '\n' :: Y))) := by
    simp [shaderMaterial]
  have hz : '\x00' ∉ shaderMaterial s X Y := by
    simp [shaderMaterial, hsz, hXz, hYz]
  rw [cstr_eq_self _ hz, hshape,
    splitLines_append _ _ (by simp [hsn]),
    splitLines_append _ _ (by decide),
    splitLines_append _ _ hXn,
    splitLines_append _ _ (by decide),
    splitLines_of_not_mem _ hYn]

theorem LookupShader_assign_self (r : Registry) (name : Str) (sh : Shader) :
    LookupShader (r.assign name sh) name = some sh := by
  simp [LookupShader, Registry.assign]

/-- C2: for a name `s` and body lines `X`, `Y`, on a driver that accepts every source and
links, parsing `SHADER s` / `VERTEX` / `X` / `PIXEL` / `Y` returns the empty string, makes
`LookupShader(s)` return a program (with a vertex and a pixel stage), and submits exactly
header + "void main()\n{\n" + X + "\n}\n" as vertex source and
header + "void main()\n{\n" + Y + "\n}\n" as pixel source. -/
theorem C2_vertex_pixel_roundtrip (b : Backend) (w : World) (s X Y : Str)
    (hs : isName s = true) (hX : isBodyLine X = true) (hY : isBodyLine Y = true)
    (hb : b.acceptsAll) :
    (ParseMaterialFile b w (shaderMaterial s X Y)).outcome =
      Outcome.returned [] Exit.endOfInput ∧
    LookupShader (ParseMaterialFile b w (shaderMaterial s X Y)).world.registry s =
      some ⟨some (mainAround (versionHeader b) X), some (mainAround (versionHeader b) Y),
        none⟩ ∧
    (ParseMaterialFile b w (shaderMaterial s X Y)).world.calls =
      w.calls ++
        [GLCall.compileShader Stage.vertex (mainAround (versionHeader b) X),
         GLCall.compileShader Stage.fragment (mainAround (versionHeader b) Y),
         GLCall.linkProgram [(Stage.vertex, mainAround (versionHeader b) X),
           (Stage.fragment, mainAround (versionHeader b) Y)]] ∧
    (∀ st : PState, st.shader ≠ [] → st.compute = [] →
      (finish b w st).world.calls = w.calls ++
        [GLCall.compileShader Stage.vertex
           (versionHeader b ++ st.vdecl ++ st.vfunctions ++ "void main()\n\x7b\n".toList ++
             st.vertex ++ "\x7d\n".toList),
         GLCall.compileShader Stage.fragment
           (versionHeader b ++ st.pdecl ++ st.pfunctions ++ "void main()\n\x7b\n".toList ++
             st.pixel ++ "\x7d\n".toList),
         GLCall.linkProgram
           [(Stage.vertex,
             versionHeader b ++ st.vdecl ++ st.vfunctions ++ "void main()\n\x7b\n".toList ++
               st.vertex ++ "\x7d\n".toList),
            (Stage.fragment,
             versionHeader b ++ st.pdecl ++ st.pfunctions ++ "void main()\n\x7b\n".toList ++
               st.pixel ++ "\x7d\n".toList)]]) := by
  have hne : s ≠ [] := ((isName_iff s).1 hs).1
  have h1 : processLine b w PState.init ("SHADER".toList ++ ' ' :: s) =
      Step.cont w (blockState s [] [] [] Accum.none) := by
    rw [processLine_SHADER_name b w _ s hs, finish_no_shader b w _ rfl]
    rfl
  have h2 : processLine b w (blockState s [] [] [] Accum.none) "VERTEX".toList =
      Step.cont w (blockState s [] [] [] Accum.vertex) :=
    processLine_VERTEX b w _ _ (by decide)
  have h3 : processLine b w (blockState s [] [] [] Accum.vertex) X =
      Step.cont w (blockState s (X ++ "\n".toList) [] [] Accum.vertex) := by
    rw [processLine_body b w _ X hX (by simp [blockState])]
    rfl
  have h4 : processLine b w (blockState s (X ++ "\n".toList) [] [] Accum.vertex)
      "PIXEL".toList = Step.cont w (blockState s (X ++ "\n".toList) [] [] Accum.pixel) :=
    processLine_PIXEL b w _ _ (by decide)
  have h5 : processLine b w (blockState s (X ++ "\n".toList) [] [] Accum.pixel) Y =
      Step.cont w (blockState s (X ++ "\n".toList) (Y ++ "\n".toList) [] Accum.pixel) := by
    rw [processLine_body b w _ Y hY (by simp [blockState])]
    rfl
  have hv : vertexSource b
      (blockState s (X ++ "\n".toList) (Y ++ "\n".toList) [] Accum.pixel) =
      mainAround (versionHeader b) X := by
    simp [vertexSource, mainAround, blockState, PState.init, mainOpen, mainClose]
  have hp : pixelSource b
      (blockState s (X ++ "\n".toList) (Y ++ "\n".toList) [] Accum.pixel) =
      mainAround (versionHeader b) Y := by
    simp [pixelSource, mainAround, blockState, PState.init, mainOpen, mainClose]
  have hrun : ParseMaterialFile b w (shaderMaterial s X Y) =
      ⟨{ registry := w.registry.assign s
           ⟨some (mainAround (versionHeader b) X), some (mainAround (versionHeader b) Y), none⟩
         calls := w.calls ++
           [GLCall.compileShader Stage.vertex (mainAround (versionHeader b) X),
            GLCall.compileShader Stage.fragment (mainAround (versionHeader b) Y),
            GLCall.linkProgram [(Stage.vertex, mainAround (versionHeader b) X),
              (Stage.fragment, mainAround (versionHeader b) Y)]]
         compiled := w.compiled ++ [(s, [])] },
       Outcome.returned [] Exit.endOfInput⟩ := by
    unfold ParseMaterialFile parseFrom
    rw [shaderMaterial_lines s X Y hs hX hY, lineLoop_cons_cont _ _ _ _ _ _ _ h1,
      lineLoop_cons_cont _ _ _ _ _ _ _ h2, lineLoop_cons_cont _ _ _ _ _ _ _ h3,
      lineLoop_cons_cont _ _ _ _ _ _ _ h4, lineLoop_cons_cont _ _ _ _ _ _ _ h5]
    simp only [lineLoop, finishAtEnd]
    rw [finish_graphics_accept b w _ hb hne rfl, hv, hp]
    rfl
  rw [hrun]
  refine ⟨rfl, LookupShader_assign_self _ _ _, rfl, ?_⟩
  intro st hst hcst
  rw [finish_graphics_accept b w st hb hst hcst]
  rfl

/-- C2, witness: the round trip for the shader `s` with bodies `gl_Position = apos;` and
`gl_FragColor = col;` on the accepting desktop driver. -/
theorem C2_vertex_pixel_roundtrip_witness :
    (ParseMaterialFile acceptAll World.empty
      (shaderMaterial "s".toList "  gl_Position = apos;".toList
        "  gl_FragColor = col;".toList)).world.calls =
      World.empty.calls ++
        [GLCall.compileShader Stage.vertex
           (mainAround (versionHeader acceptAll) "  gl_Position = apos;".toList),
         GLCall.compileShader Stage.fragment
           (mainAround (versionHeader acceptAll) "  gl_FragColor = col;".toList),
         GLCall.linkProgram
           [(Stage.vertex, mainAround (versionHeader acceptAll) "  gl_Position = apos;".toList),
            (Stage.fragment,
             mainAround (versionHeader acceptAll) "  gl_FragColor = col;".toList)]] :=
  (C2_vertex_pixel_roundtrip acceptAll World.empty "s".toList "  gl_Position = apos;".toList
    "  gl_FragColor = col;".toList (by decide) (by decide) (by decide)
    ⟨fun _ _ => rfl, fun _ => rfl⟩).2.2.1

/-! ## The word loops run over the words of the line -/

theorem inputsLoop_eq_inputsAll (fuel : Nat) (p : Str) (st : PState) :
    inputsLoop fuel p st = inputsAll st (tokensAux fuel p) := by
  induction fuel generalizing p st with
  | zero => rfl
  | succ n ih =>
    unfold inputsLoop tokensAux
    by_cases h : (word p).1 = []
    · rw [if_pos h, if_pos h]; rfl
    · rw [if_neg h, if_neg h]
      unfold inputsAll
      cases inputsWord st (word p).1 with
      | error e => rfl
      | ok st1 => exact ih _ _

theorem uniformsLoop_eq_uniformsAll (c : Bool) (fuel : Nat) (p decl : Str) :
    uniformsLoop c fuel p decl = uniformsAll c decl (tokensAux fuel p) := by
  induction fuel generalizing p decl with
  | zero => rfl
  | succ n ih =>
    unfold uniformsLoop tokensAux
    by_cases h : (word p).1 = []
    · rw [if_pos h, if_pos h]; rfl
    · rw [if_neg h, if_neg h]
      unfold uniformsAll
      cases uniformsWord c decl (word p).1 with
      | error e => rfl
      | ok d => exact ih _ _

theorem processLine_UNIFORMS_tokens (b : Backend) (w : World) (st : PState) (l : Str)
    (h : (word l).1 = "UNIFORMS".toList) :
    processLine b w st l =
      match uniformsAll (decide (st.accum = Accum.compute)) (declOf st)
          (tokens (word l).2) with
      | Except.error e => Step.ret w e Exit.syntaxError
      | Except.ok d => Step.cont w (setDecl st d) := by
  rw [processLine_UNIFORMS b w st l h, uniformsLoop_eq_uniformsAll]
  rfl

theorem ParseMaterialFile_ret_at (b : Backend) (w0 w w1 : World) (st : PState)
    (mbuf l e : Str) (via : Exit) (before after : List Str)
    (hsplit : splitLines (cstr mbuf) = before ++ l :: after)
    (hrun : lineLoop b w0 PState.init before = Step.cont w st)
    (hl : processLine b w st l = Step.ret w1 e via) :
    ParseMaterialFile b w0 mbuf = ⟨w1, Outcome.returned e via⟩ := by
  unfold ParseMaterialFile parseFrom
  rw [hsplit, lineLoop_append_cont b before (l :: after) w0 w PState.init st hrun,
    lineLoop_cons_ret _ _ _ _ _ _ _ _ hl]

/-! ## C3 and C4: the `INPUTS` words -/

theorem take_length_takeWhile (q : Char → Bool) (l : Str) :
    l.take (l.takeWhile q).length = l.takeWhile q := by
  induction l with
  | nil => rfl
  | cons c cs ih =>
    by_cases hq : q c = true
    · simp [List.takeWhile, hq, ih]
    · simp [List.takeWhile, hq]

theorem validInput_iff (tok : Str) :
    validInput tok = true ↔ ':' ∈ tok ∧ 1 ≤ inputCount tok ∧ inputCount tok ≤ 4 := by
  simp [validInput, and_assoc]

theorem inputsWord_valid (st : PState) (tok : Str) (h : validInput tok = true) :
    inputsWord st tok =
      if st.accum = Accum.vertex then
        Except.ok { st with vdecl := st.vdecl ++ ("attribute vec".toList ++
          to_string (inputCount tok) ++ " ".toList ++ inputName tok ++ ";\n".toList) }
      else
        Except.ok { st with
          vdecl := st.vdecl ++ ("varying vec".toList ++
            to_string (inputCount tok) ++ " ".toList ++ inputName tok ++ ";\n".toList)
          pdecl := st.pdecl ++ ("varying vec".toList ++
            to_string (inputCount tok) ++ " ".toList ++ inputName tok ++ ";\n".toList) } := by
  obtain ⟨hc, h1, h4⟩ := (validInput_iff tok).1 h
  have hr : ¬ (inputCount tok ≤ 0 ∨ inputCount tok > 4) := by omega
  simp only [inputsWord]
  rw [if_neg (by simpa using hc)]
  have hr1 : ¬ (atoi (List.drop ((List.takeWhile (fun c => c != ':') tok).length + 1) tok) ≤ 0 ∨
      atoi (List.drop ((List.takeWhile (fun c => c != ':') tok).length + 1) tok) > 4) := hr
  rw [if_neg hr1, take_length_takeWhile]
  by_cases hv : st.accum = Accum.vertex
  · rw [if_pos hv, if_pos hv]
    simp [inputCount, inputName]
  · rw [if_neg hv, if_neg hv]
    simp [inputCount, inputName]

theorem inputsAll_valid (st : PState) (pre : List Str)
    (hpre : ∀ t ∈ pre, validInput t = true) : ∃ st1, inputsAll st pre = Except.ok st1 := by
  induction pre generalizing st with
  | nil => exact ⟨st, rfl⟩
  | cons t ts ih =>
    have ht := hpre t (by simp)
    unfold inputsAll
    rw [inputsWord_valid st t ht]
    split_ifs
    · exact ih _ (fun x hx => hpre x (List.mem_cons_of_mem _ hx))
    · exact ih _ (fun x hx => hpre x (List.mem_cons_of_mem _ hx))

/-- A number that fits an `int` is what `atoi` returns. -/
theorem atoi_of_int (s : Str) (h1 : -2147483648 ≤ strtolValue s)
    (h2 : strtolValue s < 2147483648) : atoi s = strtolValue s := by
  unfold atoi strtol toInt32
  rw [if_neg (by omega), if_neg (by omega)]
  omega

theorem uniformsAll_accepted (c : Bool) (decl : Str) (pre : List Str)
    (hpre : ∀ t ∈ pre, acceptedUniform t = true) :
    ∃ d, uniformsAll c decl pre = Except.ok d := by
  induction pre generalizing decl with
  | nil => exact ⟨decl, rfl⟩
  | cons t ts ih =>
    obtain ⟨d, hd⟩ := uniformsWord_accepted c decl t (hpre t (by simp))
    unfold uniformsAll
    rw [hd]
    exact ih _ (fun x hx => hpre x (List.mem_cons_of_mem _ hx))

theorem uniformsAll_first_unknown (c : Bool) (decl : Str) (pre post : List Str) (tok : Str)
    (hpre : ∀ t ∈ pre, acceptedUniform t = true) (hbad : acceptedUniform tok = false) :
    uniformsAll c decl (pre ++ tok :: post) =
      Except.error ("unknown uniform: ".toList ++ tok) := by
  induction pre generalizing decl with
  | nil =>
    show uniformsAll c decl (tok :: post) = _
    unfold uniformsAll
    rw [uniformsWord_unknown c decl tok hbad]
  | cons t ts ih =>
    obtain ⟨d, hd⟩ := uniformsWord_accepted c decl t (hpre t (by simp))
    show uniformsAll c decl (t :: (ts ++ tok :: post)) = _
    unfold uniformsAll
    rw [hd]
    exact ih _ (fun x hx => hpre x (List.mem_cons_of_mem _ hx))

theorem uniforms_line_unknown (b : Backend) (w : World) (st : PState) (l : Str)
    (pre post : List Str) (tok : Str)
    (hk : (word l).1 = "UNIFORMS".toList) (ht : tokens (word l).2 = pre ++ tok :: post)
    (hpre : ∀ t ∈ pre, acceptedUniform t = true) (hbad : acceptedUniform tok = false) :
    processLine b w st l =
      Step.ret w ("unknown uniform: ".toList ++ tok) Exit.syntaxError := by
  rw [processLine_UNIFORMS_tokens b w st l hk, ht,
    uniformsAll_first_unknown _ _ pre post tok hpre hbad]

/-- A word that begins with `tex` makes the `UNIFORMS` loop append its texture line. -/
theorem uniformsWord_texture (c : Bool) (decl t : Str)
    (h : "tex".toList.isPrefixOf t = true) :
    uniformsWord c decl t = Except.ok (decl ++ textureLine c t) := by
  obtain ⟨r, rfl⟩ := List.isPrefixOf_iff_prefix.1 h
  have hk : ∀ k ∈ predefinedUniforms, ¬ "tex".toList ++ r = k := by
    intro k hm e
    have hm1 : k ∈ predefinedUniforms := hm
    simp only [predefinedUniforms, List.mem_cons, List.mem_singleton, List.not_mem_nil,
      or_false] at hm1
    rcases hm1 with rfl | rfl | rfl | rfl | rfl | rfl | rfl <;> simp at e
  unfold uniformsWord
  rw [if_neg (hk "mvp".toList (by decide)), if_neg (hk "col".toList (by decide)),
    if_neg (hk "camera".toList (by decide)), if_neg (hk "light1".toList (by decide)),
    if_neg (hk "lightparams1".toList (by decide)), if_neg (hk "bones".toList (by decide)),
    if_neg (hk "pointscale".toList (by decide)), if_pos h]
  by_cases hc : "cube".toList.isPrefixOf r = true
  · obtain ⟨q, rfl⟩ := List.isPrefixOf_iff_prefix.1 hc
    by_cases hf : q.head? = some 'f'
    · cases c <;>
        simp [textureLine, texUnit, texFloat, texCube, List.isPrefixOf, hf, List.append_assoc]
    · cases c <;>
        simp [textureLine, texUnit, texFloat, texCube, List.isPrefixOf, hf, List.append_assoc]
  · have hc2 : List.isPrefixOf ['c', 'u', 'b', 'e'] r = false := Bool.eq_false_iff.2 hc
    by_cases hf : r.head? = some 'f'
    · cases c <;>
        simp [textureLine, texUnit, texFloat, texCube, List.isPrefixOf, hc2, hf,
          List.append_assoc]
    · cases c <;>
        simp [textureLine, texUnit, texFloat, texCube, List.isPrefixOf, hc2, hf,
          List.append_assoc]

/-- C5, as stated, fails: `texture` is none of the seven predefined names and no instance
of the texture pattern (nothing after `tex` is a unit index), yet `UNIFORMS texture` is no
error: the handler declares a 2D sampler named `texture` and the parse returns the empty
string. -/
theorem C5_counterexample :
    "texture".toList ∉ predefinedUniforms ∧
    specTexturePattern "texture".toList = false ∧
    tokens (word "UNIFORMS texture".toList).2 = ["texture".toList] ∧
    lineLoop acceptAll World.empty PState.init
        (splitLines (cstr "UNIFORMS texture".toList)) =
      Step.cont World.empty
        { PState.init with pdecl := "uniform sampler2D texture;\n".toList } ∧
    ParseMaterialFile acceptAll World.empty "UNIFORMS texture".toList =
      ⟨World.empty, Outcome.returned [] Exit.endOfInput⟩ := by
  refine ⟨?_, ?_, ?_, ?_, ?_⟩ <;> decide

/-- C5, amended: when the line loop reaches a `UNIFORMS` line, the first word on it that
is neither one of the seven predefined names nor begins with `tex` makes
`ParseMaterialFile` return at once with the message "unknown uniform: " followed by the
word (non-empty, containing the word); every word that begins with `tex` is accepted,
whatever follows the prefix, and appends its texture line, a declaration named by the
whole word.  In particular `UNIFORMS bogus` fails with "unknown uniform: bogus". -/
theorem C5_unknown_uniform (b : Backend) (w0 w : World) (st : PState) (mbuf l : Str)
    (before after : List Str) (pre post : List Str) (tok : Str)
    (hsplit : splitLines (cstr mbuf) = before ++ l :: after)
    (hrun : lineLoop b w0 PState.init before = Step.cont w st)
    (hk : (word l).1 = "UNIFORMS".toList) (ht : tokens (word l).2 = pre ++ tok :: post)
    (hpre : ∀ t ∈ pre, acceptedUniform t = true) (hbad : acceptedUniform tok = false) :
    processLine b w st l =
      Step.ret w ("unknown uniform: ".toList ++ tok) Exit.syntaxError ∧
    ParseMaterialFile b w0 mbuf =
      ⟨w, Outcome.returned ("unknown uniform: ".toList ++ tok) Exit.syntaxError⟩ ∧
    "unknown uniform: ".toList ++ tok ≠ [] ∧
    tok <:+: "unknown uniform: ".toList ++ tok ∧
    (∀ c decl t, "tex".toList.isPrefixOf t = true →
      uniformsWord c decl t = Except.ok (decl ++ textureLine c t)) ∧
    ParseMaterialFile b w0 "UNIFORMS bogus".toList =
      ⟨w0, Outcome.returned "unknown uniform: bogus".toList Exit.syntaxError⟩ := by
  have hp := uniforms_line_unknown b w st l pre post tok hk ht hpre hbad
  refine ⟨hp, ?_, by simp, (List.suffix_append _ _).isInfix, ?_, ?_⟩
  · exact ParseMaterialFile_ret_at b w0 w w st mbuf l _ _ before after hsplit hrun hp
  · intro c decl t htex
    exact uniformsWord_texture c decl t htex
  · have hb := uniforms_line_unknown b w0 PState.init "UNIFORMS bogus".toList [] []
      "bogus".toList (by decide) (by decide) (by decide) (by decide)
    exact ParseMaterialFile_ret_at b w0 w0 w0 PState.init "UNIFORMS bogus".toList
      "UNIFORMS bogus".toList _ _ [] [] (by decide) rfl hb

/-- C5, witness: in the block `s` the line `UNIFORMS mvp tex0 bogus col` is rejected at
the word `bogus`, its first unknown one. -/
theorem C5_unknown_uniform_witness :
    ParseMaterialFile acceptAll World.empty
        "SHADER s\nUNIFORMS mvp tex0 bogus col\nVERTEX".toList =
      ⟨World.empty,
        Outcome.returned ("unknown uniform: ".toList ++ "bogus".toList) Exit.syntaxError⟩ :=
  (C5_unknown_uniform acceptAll World.empty World.empty
    (blockState "s".toList [] [] [] Accum.none)
    "SHADER s\nUNIFORMS mvp tex0 bogus col\nVERTEX".toList
    "UNIFORMS mvp tex0 bogus col".toList ["SHADER s".toList] ["VERTEX".toList]
    ["mvp".toList, "tex0".toList] ["col".toList] "bogus".toList (by decide) (by decide)
    (by decide) (by decide) (by decide) (by decide)).2.1

/-! ## Decimal numerals -/

theorem digitChar_isDigit (n : Nat) (h : n < 10) :
    (Nat.digitChar n).isDigit = true ∧ (Nat.digitChar n).toNat - 48 = n := by
  interval_cases n <;> exact ⟨by decide, by decide⟩

theorem toDigitsCore_isDigit (fuel n : Nat) (ds : Str) (hds : ∀ c ∈ ds, c.isDigit = true) :
    ∀ c ∈ Nat.toDigitsCore 10 fuel n ds, c.isDigit = true := by
  induction fuel generalizing n ds with
  | zero => simpa [Nat.toDigitsCore] using hds
  | succ f ih =>
    have hd := (digitChar_isDigit (n % 10) (Nat.mod_lt _ (by decide))).1
    have hds1 : ∀ c ∈ Nat.digitChar (n % 10) :: ds, c.isDigit = true := by
      intro c hc
      rcases List.mem_cons.1 hc with rfl | hc
      · exact hd
      · exact hds c hc
    unfold Nat.toDigitsCore
    dsimp only
    split_ifs
    · exact hds1
    · exact ih _ _ hds1

theorem toDigitsCore_suffix (fuel n : Nat) (ds : Str) :
    ds <:+ Nat.toDigitsCore 10 fuel n ds := by
  induction fuel generalizing n ds with
  | zero => exact List.suffix_refl _
  | succ f ih =>
    unfold Nat.toDigitsCore
    dsimp only
    split_ifs
    · exact List.suffix_cons _ _
    · exact (List.suffix_cons _ _).trans (ih _ _)

theorem atoiDigits_toDigitsCore (fuel n : Nat) (ds : Str) (h : n < fuel) :
    atoiDigits 0 (Nat.toDigitsCore 10 fuel n ds) = atoiDigits n ds := by
  induction fuel generalizing n ds with
  | zero => omega
  | succ f ih =>
    obtain ⟨hd, hv⟩ := digitChar_isDigit (n % 10) (Nat.mod_lt _ (by decide))
    unfold Nat.toDigitsCore
    dsimp only
    split_ifs with h0
    · have hn : n % 10 = n := by omega
      rw [hn] at hd hv ⊢
      simp [atoiDigits, hd, hv]
    · rw [ih (n / 10) _ (by omega)]
      have hn : n / 10 * 10 + n % 10 = n := by omega
      simp [atoiDigits, hd, hv, hn]

theorem toDigits_isDigit (k : Nat) : ∀ c ∈ Nat.toDigits 10 k, c.isDigit = true :=
  toDigitsCore_isDigit _ _ _ (by simp)

theorem toDigits_cons (k : Nat) :
    ∃ d ds, Nat.toDigits 10 k = d :: ds ∧ d.isDigit = true := by
  have hne : Nat.toDigits 10 k ≠ [] := by
    unfold Nat.toDigits Nat.toDigitsCore
    dsimp only
    split_ifs
    · simp
    · intro h
      have := toDigitsCore_suffix k (k / 10) [Nat.digitChar (k % 10)]
      rw [h] at this
      simp at this
  cases hD : Nat.toDigits 10 k with
  | nil => exact absurd hD hne
  | cons d ds => exact ⟨d, ds, rfl, toDigits_isDigit k d (by rw [hD]; simp)⟩

theorem atoiDigits_toDigits (k : Nat) : atoiDigits 0 (Nat.toDigits 10 k) = k := by
  unfold Nat.toDigits
  rw [atoiDigits_toDigitsCore _ _ _ (Nat.lt_succ_self k)]
  rfl

theorem isDigit_facts (c : Char) (h : c.isDigit = true) :
    c ≠ 'c' ∧ c ≠ 'f' ∧ c ≠ '-' ∧ c ≠ '+' ∧ isspace c = false ∧ isBlank c = false := by
  have hv : 48 ≤ c.val.toNat ∧ c.val.toNat ≤ 57 := by
    simp only [Char.isDigit, Bool.and_eq_true, decide_eq_true_eq] at h
    exact ⟨h.1, h.2⟩
  have key : ∀ x : Char, (x.val.toNat < 48 ∨ 57 < x.val.toNat) → c ≠ x := by
    intro x hx e
    rw [e] at hv
    omega
  have e1 := key 'c' (by decide)
  have e2 := key 'f' (by decide)
  have e3 := key '-' (by decide)
  have e4 := key '+' (by decide)
  have e5 := key ' ' (by decide)
  have e6 := key '\t' (by decide)
  have e7 := key '\n' (by decide)
  have e8 := key '\x0b' (by decide)
  have e9 := key '\x0c' (by decide)
  have e10 := key '\r' (by decide)
  refine ⟨e1, e2, e3, e4, ?_, ?_⟩
  · simp [isspace, e5, e6, e7, e8, e9, e10]
  · simp [isBlank, e5, e6, e10]

theorem toInt32_of_lt (k : Nat) (h : k < 2147483648) : toInt32 (k : Int) = k := by
  unfold toInt32
  omega

theorem strtolValue_toDigits (k : Nat) : strtolValue (Nat.toDigits 10 k) = k := by
  obtain ⟨d, ds, hD, hd⟩ := toDigits_cons k
  obtain ⟨_, _, hm, hp, hsp, _⟩ := isDigit_facts d hd
  have hval := atoiDigits_toDigits k
  rw [hD] at hval
  unfold strtolValue
  rw [hD]
  simp only [List.dropWhile, hsp, List.head?]
  rw [if_neg (by simpa using hm), if_neg (by simpa using hp), hval]

theorem atoi_toDigits (k : Nat) (h : k < 2147483648) : atoi (Nat.toDigits 10 k) = k := by
  have hv := strtolValue_toDigits k
  rw [atoi_of_int _ (by omega) (by omega), hv]

theorem to_string_natCast (k : Nat) : to_string (k : Int) = Nat.toDigits 10 k := by
  unfold to_string
  rw [if_neg (by omega)]
  simp

/-! ## C6: texture uniforms -/

theorem tokens_single (tok : Str) (hne : tok ≠ []) (hb : ∀ c ∈ tok, isBlank c = false) :
    tokens (' ' :: tok) = [tok] := by
  have hw : word (' ' :: tok) = (tok, []) := by
    rw [word_blank_cons ' ' tok (by decide), word_token tok hb]
  show tokensAux ((tok.length + 1) + 1) (' ' :: tok) = [tok]
  unfold tokensAux
  rw [hw]
  dsimp only
  rw [if_neg hne]
  unfold tokensAux
  rw [word_nil]
  rfl

theorem processLine_UNIFORMS_single (b : Backend) (w : World) (st : PState) (tok : Str)
    (hne : tok ≠ []) (hb : ∀ c ∈ tok, isBlank c = false) :
    processLine b w st ("UNIFORMS".toList ++ ' ' :: tok) =
      match uniformsWord (decide (st.accum = Accum.compute)) (declOf st) tok with
      | Except.error e => Step.ret w e Exit.syntaxError
      | Except.ok d => Step.cont w (setDecl st d) := by
  have hw : word ("UNIFORMS".toList ++ ' ' :: tok) = ("UNIFORMS".toList, ' ' :: tok) :=
    word_token_append _ _ _ (by decide) (by decide) (by decide)
  rw [processLine_UNIFORMS_tokens b w st _ (by rw [hw]), hw]
  dsimp only
  rw [tokens_single tok hne hb]
  unfold uniformsAll
  cases uniformsWord (decide (st.accum = Accum.compute)) (declOf st) tok with
  | error e => rfl
  | ok d => rfl

theorem uniformsWord_tex (decl : Str) (k : Nat) :
    uniformsWord false decl ("tex".toList ++ Nat.toDigits 10 k) =
      Except.ok (decl ++ ("uniform sampler2D tex".toList ++ Nat.toDigits 10 k ++
        ";\n".toList)) := by
  obtain ⟨d, ds, hD, hd⟩ := toDigits_cons k
  obtain ⟨hc, hf, _⟩ := isDigit_facts d hd
  rw [hD]
  simp [uniformsWord, List.isPrefixOf, hc, hf, Ne.symm hc, Ne.symm hf]

theorem uniformsWord_texcube (decl : Str) (k : Nat) :
    uniformsWord false decl ("texcube".toList ++ Nat.toDigits 10 k) =
      Except.ok (decl ++ ("uniform samplerCube texcube".toList ++ Nat.toDigits 10 k ++
        ";\n".toList)) := by
  obtain ⟨d, ds, hD, hd⟩ := toDigits_cons k
  obtain ⟨hc, hf, _⟩ := isDigit_facts d hd
  rw [hD]
  simp [uniformsWord, List.isPrefixOf, hc, hf, Ne.symm hc, Ne.symm hf]

theorem uniformsWord_texf_compute (decl : Str) (k : Nat) (hk : k < 2147483648) :
    uniformsWord true decl ("texf".toList ++ Nat.toDigits 10 k) =
      Except.ok (decl ++ ("layout(binding = ".toList ++ Nat.toDigits 10 k ++
        ", rgba32f) uniform image2D texf".toList ++ Nat.toDigits 10 k ++ ";\n".toList)) := by
  have ha := atoi_toDigits k hk
  have hs := to_string_natCast k
  obtain ⟨d, ds, hD, hd⟩ := toDigits_cons k
  obtain ⟨hc, hf, _⟩ := isDigit_facts d hd
  rw [hD] at ha hs ⊢
  simp [uniformsWord, List.isPrefixOf, hc, hf, Ne.symm hc, Ne.symm hf, ha, hs]

theorem uniformsWord_tex_compute (decl : Str) (k : Nat) (hk : k < 2147483648) :
    uniformsWord true decl ("tex".toList ++ Nat.toDigits 10 k) =
      Except.ok (decl ++ ("layout(binding = ".toList ++ Nat.toDigits 10 k ++
        ", rgba8) uniform image2D tex".toList ++ Nat.toDigits 10 k ++ ";\n".toList)) := by
  have ha := atoi_toDigits k hk
  have hs := to_string_natCast k
  obtain ⟨d, ds, hD, hd⟩ := toDigits_cons k
  obtain ⟨hc, hf, _⟩ := isDigit_facts d hd
  rw [hD] at ha hs ⊢
  simp [uniformsWord, List.isPrefixOf, hc, hf, Ne.symm hc, Ne.symm hf, ha, hs]

theorem texToken_ok (pre : Str) (k : Nat) (hpre : ∀ c ∈ pre, isBlank c = false) :
    pre ++ Nat.toDigits 10 k ≠ [] ∧ ∀ c ∈ pre ++ Nat.toDigits 10 k, isBlank c = false := by
  obtain ⟨d, ds, hD, _⟩ := toDigits_cons k
  refine ⟨by rw [hD]; simp, ?_⟩
  intro c hc
  rcases List.mem_append.1 hc with h | h
  · exact hpre c h
  · exact (isDigit_facts c (toDigits_isDigit k c h)).2.2.2.2.2

/-- C6, as stated, fails for a unit index that is no `int`: inside a compute body
`UNIFORMS texf2147483648` declares binding -2147483648, not 2147483648; and whatever `int`
the unit is, its decimal form is not 2147483648. -/
theorem C6_counterexample :
    processLine acceptAll World.empty (blockState "c".toList [] [] [] Accum.compute)
        ("UNIFORMS texf".toList ++ Nat.toDigits 10 2147483648) =
      Step.cont World.empty
        { blockState "c".toList [] [] [] Accum.compute with
          csdecl :=
            "layout(binding = -2147483648, rgba32f) uniform image2D texf2147483648;\n".toList } ∧
    "layout(binding = -2147483648, rgba32f) uniform image2D texf2147483648;\n".toList ≠
      "layout(binding = ".toList ++ Nat.toDigits 10 2147483648 ++
        ", rgba32f) uniform image2D texf".toList ++ Nat.toDigits 10 2147483648 ++
        ";\n".toList ∧
    (∀ unit : Int, -2147483648 ≤ unit → unit < 2147483648 →
      to_string unit ≠ Nat.toDigits 10 2147483648) := by
  refine ⟨by decide, by decide, ?_⟩
  intro unit h1 h2 heq
  unfold to_string at heq
  split_ifs at heq with hneg
  · have hd : Nat.toDigits 10 2147483648 = "2147483648".toList := by decide
    rw [hd] at heq
    simp at heq
  · have hv := congrArg (atoiDigits 0) heq
    rw [atoiDigits_toDigits, atoiDigits_toDigits] at hv
    omega

/-- C6, amended: outside a compute body, `UNIFORMS tex<k>` appends exactly
"uniform sampler2D tex<k>;\n" and `UNIFORMS texcube<k>` appends exactly
"uniform samplerCube texcube<k>;\n" to the selected declaration buffer, for every unit
index k; inside a compute body, for every unit index k below 2^31 (the values of an
`int`), `UNIFORMS texf<k>` appends exactly
"layout(binding = <k>, rgba32f) uniform image2D texf<k>;\n" and `UNIFORMS tex<k>` appends the
same with rgba8, to the compute declaration buffer.  The declared name is the full word. -/
theorem C6_texture_uniforms (b : Backend) (w : World) (st : PState) (k : Nat) :
    (st.accum ≠ Accum.compute →
      processLine b w st ("UNIFORMS tex".toList ++ Nat.toDigits 10 k) =
        Step.cont w (setDecl st (declOf st ++
          ("uniform sampler2D tex".toList ++ Nat.toDigits 10 k ++ ";\n".toList)))) ∧
    (st.accum ≠ Accum.compute →
      processLine b w st ("UNIFORMS texcube".toList ++ Nat.toDigits 10 k) =
        Step.cont w (setDecl st (declOf st ++
          ("uniform samplerCube texcube".toList ++ Nat.toDigits 10 k ++ ";\n".toList)))) ∧
    (st.accum = Accum.compute → k < 2147483648 →
      processLine b w st ("UNIFORMS texf".toList ++ Nat.toDigits 10 k) =
        Step.cont w { st with csdecl := st.csdecl ++
          ("layout(binding = ".toList ++ Nat.toDigits 10 k ++
            ", rgba32f) uniform image2D texf".toList ++ Nat.toDigits 10 k ++ ";\n".toList) }) ∧
    (st.accum = Accum.compute → k < 2147483648 →
      processLine b w st ("UNIFORMS tex".toList ++ Nat.toDigits 10 k) =
        Step.cont w { st with csdecl := st.csdecl ++
          ("layout(binding = ".toList ++ Nat.toDigits 10 k ++
            ", rgba8) uniform image2D tex".toList ++ Nat.toDigits 10 k ++ ";\n".toList) }) := by
  have e1 : "UNIFORMS tex".toList ++ Nat.toDigits 10 k =
      "UNIFORMS".toList ++ ' ' :: ("tex".toList ++ Nat.toDigits 10 k) := rfl
  have e2 : "UNIFORMS texcube".toList ++ Nat.toDigits 10 k =
      "UNIFORMS".toList ++ ' ' :: ("texcube".toList ++ Nat.toDigits 10 k) := rfl
  have e3 : "UNIFORMS texf".toList ++ Nat.toDigits 10 k =
      "UNIFORMS".toList ++ ' ' :: ("texf".toList ++ Nat.toDigits 10 k) := rfl
  obtain ⟨n1, b1⟩ := texToken_ok "tex".toList k (by decide)
  obtain ⟨n2, b2⟩ := texToken_ok "texcube".toList k (by decide)
  obtain ⟨n3, b3⟩ := texToken_ok "texf".toList k (by decide)
  refine ⟨?_, ?_, ?_, ?_⟩
  · intro ha
    rw [e1, processLine_UNIFORMS_single b w st _ n1 b1, decide_eq_false ha,
      uniformsWord_tex]
  · intro ha
    rw [e2, processLine_UNIFORMS_single b w st _ n2 b2, decide_eq_false ha,
      uniformsWord_texcube]
  · intro ha hk
    rw [e3, processLine_UNIFORMS_single b w st _ n3 b3, decide_eq_true ha,
      uniformsWord_texf_compute _ _ hk]
    simp [setDecl, declOf, ha]
  · intro ha hk
    rw [e1, processLine_UNIFORMS_single b w st _ n1 b1, decide_eq_true ha,
      uniformsWord_tex_compute _ _ hk]
    simp [setDecl, declOf, ha]

/-- C6, witness: `UNIFORMS texf0` inside a compute body. -/
theorem C6_texture_uniforms_witness :
    processLine acceptAll World.empty (blockState "c".toList [] [] [] Accum.compute)
        ("UNIFORMS texf".toList ++ Nat.toDigits 10 0) =
      Step.cont World.empty
        { blockState "c".toList [] [] [] Accum.compute with
          csdecl := (blockState "c".toList [] [] [] Accum.compute).csdecl ++
            ("layout(binding = ".toList ++ Nat.toDigits 10 0 ++
              ", rgba32f) uniform image2D texf".toList ++ Nat.toDigits 10 0 ++
              ";\n".toList) } :=
  (C6_texture_uniforms acceptAll World.empty (blockState "c".toList [] [] [] Accum.compute)
    0).2.2.1 (by decide) (by decide)

/-! ## C7: compute programs without compute support -/

theorem splitLines_joinLines (a : Str) (body : List Str) (ha : '\n' ∉ a)
    (hb : ∀ l ∈ body, '\n' ∉ l) : splitLines (a ++ joinLines body) = a :: body := by
  induction body generalizing a with
  | nil => simpa [joinLines] using splitLines_of_not_mem a ha
  | cons l ls ih =>
    show splitLines (a ++ '\n' :: (l ++ joinLines ls)) = _
    rw [splitLines_append _ _ ha, ih l (hb l (by simp))
      (fun x hx => hb x (List.mem_cons_of_mem _ hx))]

theorem not_mem_joinLines (c : Char) (body : List Str) (hc : c ≠ '\n')
    (hb : ∀ l ∈ body, c ∉ l) : c ∉ joinLines body := by
  induction body with
  | nil => simp [joinLines]
  | cons l ls ih =>
    simp only [joinLines, List.mem_cons, List.mem_append, not_or]
    exact ⟨⟨hc, hb l (by simp)⟩, ih (fun x hx => hb x (List.mem_cons_of_mem _ hx))⟩

theorem appendAccum_accum (st : PState) (t : Str) : (appendAccum st t).accum = st.accum := by
  unfold appendAccum; split <;> simp_all

theorem lineLoop_body (b : Backend) (w : World) (st : PState) (ls : List Str)
    (hl : ∀ l ∈ ls, isBodyLine l = true) (ha : st.accum ≠ Accum.none) :
    lineLoop b w st ls = Step.cont w (appendLines st ls) := by
  induction ls generalizing st with
  | nil => rfl
  | cons l ls ih =>
    rw [lineLoop_cons_cont _ _ _ _ _ _ _ (processLine_body b w st l (hl l (by simp)) ha)]
    exact ih _ (fun x hx => hl x (List.mem_cons_of_mem _ hx))
      (by rw [appendAccum_accum]; exact ha)

theorem appendLines_compute (st : PState) (ls : List Str) (ha : st.accum = Accum.compute) :
    (appendLines st ls).shader = st.shader ∧
    st.compute.length ≤ (appendLines st ls).compute.length ∧
    (ls ≠ [] → (appendLines st ls).compute ≠ []) := by
  induction ls generalizing st with
  | nil => exact ⟨rfl, le_refl _, fun h => absurd rfl h⟩
  | cons l ls ih =>
    have hst : appendAccum st (l ++ "\n".toList) =
        { st with compute := st.compute ++ (l ++ "\n".toList) } := by
      unfold appendAccum; rw [ha]
    obtain ⟨h1, h2, _⟩ := ih (appendAccum st (l ++ "\n".toList))
      (by rw [appendAccum_accum]; exact ha)
    rw [hst] at h1 h2
    refine ⟨?_, ?_, ?_⟩
    · show (appendLines (appendAccum st (l ++ "\n".toList)) ls).shader = _
      rw [hst]; exact h1
    · show _ ≤ (appendLines (appendAccum st (l ++ "\n".toList)) ls).compute.length
      rw [hst]
      simp only [List.length_append] at h2
      omega
    · intro _
      show (appendLines (appendAccum st (l ++ "\n".toList)) ls).compute ≠ []
      rw [hst]
      intro hnil
      rw [hnil] at h2
      simp at h2

theorem CompileCompute_unsupported (b : Backend) (w : World) (sh : Shader) (name cs : Str)
    (hp : b.platform ≠ Platform.desktop) :
    Shader.CompileCompute b w sh name cs =
      CompileResult.returned w sh "compute shaders not supported".toList := by
  unfold Shader.CompileCompute
  cases hb : b.platform with
  | es2 => rfl
  | apple c0 c2 c3 => rfl
  | desktop => exact absurd hb hp

theorem finish_compute_unsupported (b : Backend) (w : World) (st : PState)
    (hp : b.platform ≠ Platform.desktop) (hs : st.shader ≠ []) (hc : st.compute ≠ []) :
    finish b w st =
      FinishResult.done
        { w with compiled := w.compiled ++
            [(st.shader, "compute shaders not supported".toList)] }
        { st with err := "compute shaders not supported".toList } true := by
  have hl : st.compute.length ≠ 0 := by
    intro h; exact hc (List.length_eq_zero.1 h)
  unfold finish
  rw [if_pos hs, if_pos hl, CompileCompute_unsupported b w _ _ _ hp]
  rfl

/-- C7: on a build without compute support, the material `SHADER c` / `COMPUTE` / body
(one or more body lines) makes `ParseMaterialFile` return exactly
"compute shaders not supported"; no call reaches the driver and the registry is as
before. -/
theorem C7_compute_unsupported (b : Backend) (w : World) (c : Str) (body : List Str)
    (hp : b.platform ≠ Platform.desktop) (hc : isName c = true) (hne : body ≠ [])
    (hbody : ∀ l ∈ body, isBodyLine l = true) :
    (ParseMaterialFile b w (computeMaterial c body)).outcome =
      Outcome.returned "compute shaders not supported".toList Exit.endOfInput ∧
    (ParseMaterialFile b w (computeMaterial c body)).world.calls = w.calls ∧
    (ParseMaterialFile b w (computeMaterial c body)).world.registry = w.registry ∧
    (LookupShader w.registry c = none →
      LookupShader (ParseMaterialFile b w (computeMaterial c body)).world.registry c =
        none) := by
  obtain ⟨hcne, hcc⟩ := (isName_iff c).1 hc
  have hcn : '\n' ∉ c := fun hm => (hcc _ hm).2.1 rfl
  have hcz : '\x00' ∉ c := fun hm => (hcc _ hm).2.2 rfl
  have hbn : ∀ l ∈ body, '\n' ∉ l := fun l hl => ((isBodyLine_iff l).1 (hbody l hl)).1
  have hbz : ∀ l ∈ body, '\x00' ∉ l := fun l hl => ((isBodyLine_iff l).1 (hbody l hl)).2.1
  have hshape : computeMaterial c body =
      ("SHADER".toList ++ ' ' :: c) ++ '\n' :: ("COMPUTE".toList ++ joinLines body) := by
    simp [computeMaterial]
  have hz : '\x00' ∉ computeMaterial c body := by
    have := not_mem_joinLines '\x00' body (by decide) hbz
    simp [computeMaterial, hcz, this]
  have hlines : splitLines (cstr (computeMaterial c body)) =
      ("SHADER".toList ++ ' ' :: c) :: "COMPUTE".toList :: body := by
    rw [cstr_eq_self _ hz, hshape, splitLines_append _ _ (by simp [hcn]),
      splitLines_joinLines _ _ (by decide) hbn]
  have h1 : processLine b w PState.init ("SHADER".toList ++ ' ' :: c) =
      Step.cont w (blockState c [] [] [] Accum.none) := by
    rw [processLine_SHADER_name b w _ c hc, finish_no_shader b w _ rfl]
    rfl
  have h2 : processLine b w (blockState c [] [] [] Accum.none) "COMPUTE".toList =
      Step.cont w (blockState c [] [] [] Accum.compute) :=
    processLine_COMPUTE b w _ _ (by decide)
  obtain ⟨hsh, _, hcomp⟩ := appendLines_compute (blockState c [] [] [] Accum.compute) body rfl
  have hrun : ParseMaterialFile b w (computeMaterial c body) =
      ⟨{ w with compiled := w.compiled ++ [(c, "compute shaders not supported".toList)] },
       Outcome.returned "compute shaders not supported".toList Exit.endOfInput⟩ := by
    unfold ParseMaterialFile parseFrom
    rw [hlines, lineLoop_cons_cont _ _ _ _ _ _ _ h1, lineLoop_cons_cont _ _ _ _ _ _ _ h2,
      lineLoop_body b w _ body hbody (by simp [blockState])]
    simp only [finishAtEnd]
    rw [finish_compute_unsupported b w _ hp (by rw [hsh]; exact hcne) (hcomp hne), hsh]
    rfl
  rw [hrun]
  exact ⟨rfl, rfl, rfl, fun h => h⟩

/-- C7, witness: a two-line compute body on the ES2 build. -/
theorem C7_compute_unsupported_witness :
    (ParseMaterialFile acceptAllES2 World.empty
      (computeMaterial "c".toList ["  x = 1;".toList, "  y = 2;".toList])).outcome =
      Outcome.returned "compute shaders not supported".toList Exit.endOfInput :=
  (C7_compute_unsupported acceptAllES2 World.empty "c".toList
    ["  x = 1;".toList, "  y = 2;".toList] (by decide) (by decide) (by decide)
    (by decide)).1

/-! ## C8: registering a name twice -/

theorem LookupShader_assign_other (r : Registry) (name n : Str) (sh : Shader)
    (h : n ≠ name) : LookupShader (r.assign name sh) n = LookupShader r n := by
  have hne : (name == n) = false := by simpa using Ne.symm h
  unfold LookupShader Registry.assign
  rw [List.find?_cons, hne]
  dsimp only
  induction r with
  | nil => rfl
  | cons e es ih =>
    by_cases he : e.1 = name
    · have h1 : (e.1 != name) = false := by simp [he]
      have h2 : (e.1 == n) = false := by simpa [he] using Ne.symm h
      rw [List.filter_cons, h1, List.find?_cons, h2]
      simpa using ih
    · have h1 : (e.1 != name) = true := by simpa using he
      rw [List.filter_cons, h1]
      simp only [if_true, List.find?_cons]
      cases (e.1 == n) with
      | true => rfl
      | false => simpa using ih

theorem filter_assign_self (r : Registry) (name : Str) (sh : Shader) :
    (r.assign name sh).filter (fun e => e.1 == name) = [(name, sh)] := by
  unfold Registry.assign
  rw [List.filter_cons]
  simp only [beq_self_eq_true, if_true, List.cons.injEq, true_and]
  rw [List.filter_filter, List.filter_eq_nil_iff]
  intro e _
  by_cases he : e.1 = name <;> simp [he]

theorem Compile_returned_nil (b : Backend) (w w1 : World) (sh sh1 : Shader)
    (name vs ps : Str)
    (h : Shader.Compile b w sh name vs ps = CompileResult.returned w1 sh1 []) :
    sh1 = { sh with vs := some vs, ps := some ps } := by
  unfold Shader.Compile CompileGLSLShader Shader.Link at h
  by_cases hv : b.compileStatus Stage.vertex vs = true
  · by_cases hp : b.compileStatus Stage.fragment ps = true
    · by_cases hl : b.linkStatus [(Stage.vertex, vs), (Stage.fragment, ps)] = true
      · simp [hv, hp, hl] at h
        exact h.2.symm
      · simp [hv, hp, hl] at h
    · simp [hv, hp] at h
  · simp [hv] at h

theorem CompileCompute_returned_nil (b : Backend) (w w1 : World) (sh sh1 : Shader)
    (name cs : Str)
    (h : Shader.CompileCompute b w sh name cs = CompileResult.returned w1 sh1 []) :
    sh1 = { sh with cs := some cs } := by
  unfold Shader.CompileCompute at h
  cases hb : b.platform with
  | es2 => rw [hb] at h; simp at h
  | apple c0 c2 c3 => rw [hb] at h; simp at h
  | desktop =>
    rw [hb] at h
    unfold CompileGLSLShader Shader.Link at h
    by_cases hc : b.compileStatus Stage.compute cs = true
    · by_cases hl : b.linkStatus [(Stage.compute, cs)] = true
      · simp [hc, hl] at h
        exact h.2.symm
      · simp [hc, hl] at h
    · simp [hc] at h

theorem finishCompiled_done_false (st st1 : PState) (r : CompileResult) (w1 : World)
    (h : finishCompiled st r = FinishResult.done w1 st1 false) :
    ∃ w0 sh, r = CompileResult.returned w0 sh [] ∧
      w1.registry = w0.registry.assign st.shader sh := by
  unfold finishCompiled at h
  cases r with
  | thrown w0 m => simp at h
  | returned w0 sh e =>
    by_cases he : e = []
    · subst he
      simp at h
      exact ⟨w0, sh, rfl, by rw [← h.1]⟩
    · simp [he] at h

theorem Compile_registry (b : Backend) (w : World) (sh : Shader) (name vs ps : Str) :
    (Shader.Compile b w sh name vs ps).world.registry = w.registry := by
  unfold Shader.Compile CompileGLSLShader Shader.Link
  by_cases hv : b.compileStatus Stage.vertex vs = true
  · by_cases hp : b.compileStatus Stage.fragment ps = true
    · by_cases hl : b.linkStatus [(Stage.vertex, vs), (Stage.fragment, ps)] = true
      · simp [hv, hp, hl, CompileResult.world]
      · simp [hv, hp, hl, CompileResult.world]
    · simp [hv, hp, CompileResult.world]
  · simp [hv, CompileResult.world]

theorem CompileCompute_registry (b : Backend) (w : World) (sh : Shader) (name cs : Str) :
    (Shader.CompileCompute b w sh name cs).world.registry = w.registry := by
  unfold Shader.CompileCompute
  cases hb : b.platform with
  | es2 => rfl
  | apple c0 c2 c3 => rfl
  | desktop =>
    unfold CompileGLSLShader Shader.Link
    by_cases hc : b.compileStatus Stage.compute cs = true
    · by_cases hl : b.linkStatus [(Stage.compute, cs)] = true
      · simp [hc, hl, CompileResult.world]
      · simp [hc, hl, CompileResult.world]
    · simp [hc, CompileResult.world]

/-- A `finish()` that returns `false` with a pending name has registered the program built
from the current locals under that name. -/
theorem finish_registers (b : Backend) (w w1 : World) (st st1 : PState)
    (hs : st.shader ≠ []) (h : finish b w st = FinishResult.done w1 st1 false) :
    w1.registry = w.registry.assign st.shader (programOf b st) := by
  unfold finish at h
  rw [if_pos hs] at h
  obtain ⟨w0, sh, hr, hreg⟩ := finishCompiled_done_false _ _ _ _ h
  by_cases hc : st.compute.length ≠ 0
  · rw [if_pos hc] at hr
    have hw := CompileCompute_registry b w Shader.new st.shader (computeSource st)
    rw [hr] at hw
    rw [hreg, CompileCompute_returned_nil _ _ _ _ _ _ _ hr]
    simp only [CompileResult.world] at hw
    rw [hw]
    simp [programOf, hc, Shader.new]
  · rw [if_neg hc] at hr
    have hw := Compile_registry b w Shader.new st.shader (vertexSource b st)
      (pixelSource b st)
    rw [hr] at hw
    rw [hreg, Compile_returned_nil _ _ _ _ _ _ _ _ hr]
    simp only [CompileResult.world] at hw
    rw [hw]
    simp [programOf, hc, Shader.new]

theorem splitLines_ne_nil (a : Str) : splitLines a ≠ [] := by
  induction a with
  | nil => simp [splitLines]
  | cons c cs ih =>
    unfold splitLines
    split_ifs
    · simp
    · cases h : splitLines cs with
      | nil => simp
      | cons l ls => simp

theorem splitLines_newline (a rest : Str) :
    splitLines (a ++ '\n' :: rest) = splitLines a ++ splitLines rest := by
  induction a with
  | nil => simp [splitLines]
  | cons c cs ih =>
    by_cases hc : c = '\n'
    · simp [splitLines, hc, ih]
    · cases h : splitLines cs with
      | nil => exact absurd h (splitLines_ne_nil cs)
      | cons l ls =>
        have h2 : splitLines (cs ++ '\n' :: rest) = l :: (ls ++ splitLines rest) := by
          rw [ih, h]; rfl
        simp [splitLines, hc, h, h2]

theorem shaderMaterial_no_nul (s X Y : Str) (hs : isName s = true)
    (hX : isBodyLine X = true) (hY : isBodyLine Y = true) :
    '\x00' ∉ shaderMaterial s X Y := by
  obtain ⟨_, hc⟩ := (isName_iff s).1 hs
  obtain ⟨_, hXz, _, _⟩ := (isBodyLine_iff X).1 hX
  obtain ⟨_, hYz, _, _⟩ := (isBodyLine_iff Y).1 hY
  have hsz : '\x00' ∉ s := fun hm => (hc _ hm).2.2 rfl
  simp [shaderMaterial, hsz, hXz, hYz]

theorem twoBlockMaterial_lines (s X1 Y1 X2 Y2 : Str) (hs : isName s = true)
    (hX1 : isBodyLine X1 = true) (hY1 : isBodyLine Y1 = true)
    (hX2 : isBodyLine X2 = true) (hY2 : isBodyLine Y2 = true) :
    splitLines (cstr (twoBlockMaterial s X1 Y1 X2 Y2)) =
      ["SHADER".toList ++ ' ' :: s, "VERTEX".toList, X1, "PIXEL".toList, Y1,
       "SHADER".toList ++ ' ' :: s, "VERTEX".toList, X2, "PIXEL".toList, Y2] := by
  have h1 := shaderMaterial_lines s X1 Y1 hs hX1 hY1
  have h2 := shaderMaterial_lines s X2 Y2 hs hX2 hY2
  have z1 := shaderMaterial_no_nul s X1 Y1 hs hX1 hY1
  have z2 := shaderMaterial_no_nul s X2 Y2 hs hX2 hY2
  rw [cstr_eq_self _ z1] at h1
  rw [cstr_eq_self _ z2] at h2
  have hz : '\x00' ∉ twoBlockMaterial s X1 Y1 X2 Y2 := by
    simp [twoBlockMaterial, z1, z2]
  rw [cstr_eq_self _ hz]
  unfold twoBlockMaterial
  rw [splitLines_newline, h1, h2]
  rfl

theorem block_sources (b : Backend) (s X Y : Str) (a : Accum) :
    vertexSource b (blockState s (X ++ "\n".toList) (Y ++ "\n".toList) [] a) =
      mainAround (versionHeader b) X ∧
    pixelSource b (blockState s (X ++ "\n".toList) (Y ++ "\n".toList) [] a) =
      mainAround (versionHeader b) Y := by
  constructor <;>
    simp [vertexSource, pixelSource, mainAround, blockState, PState.init, mainOpen, mainClose]

theorem lineLoop_block (b : Backend) (w : World) (s X Y : Str) (rest : List Str)
    (hX : isBodyLine X = true) (hY : isBodyLine Y = true) :
    lineLoop b w (blockState s [] [] [] Accum.none)
        ("VERTEX".toList :: X :: "PIXEL".toList :: Y :: rest) =
      lineLoop b w (blockState s (X ++ "\n".toList) (Y ++ "\n".toList) [] Accum.pixel)
        rest := by
  have h2 : processLine b w (blockState s [] [] [] Accum.none) "VERTEX".toList =
      Step.cont w (blockState s [] [] [] Accum.vertex) :=
    processLine_VERTEX b w _ _ (by decide)
  have h3 : processLine b w (blockState s [] [] [] Accum.vertex) X =
      Step.cont w (blockState s (X ++ "\n".toList) [] [] Accum.vertex) := by
    rw [processLine_body b w _ X hX (by simp [blockState])]
    rfl
  have h4 : processLine b w (blockState s (X ++ "\n".toList) [] [] Accum.vertex)
      "PIXEL".toList = Step.cont w (blockState s (X ++ "\n".toList) [] [] Accum.pixel) :=
    processLine_PIXEL b w _ _ (by decide)
  have h5 : processLine b w (blockState s (X ++ "\n".toList) [] [] Accum.pixel) Y =
      Step.cont w (blockState s (X ++ "\n".toList) (Y ++ "\n".toList) [] Accum.pixel) := by
    rw [processLine_body b w _ Y hY (by simp [blockState])]
    rfl
  rw [lineLoop_cons_cont _ _ _ _ _ _ _ h2, lineLoop_cons_cont _ _ _ _ _ _ _ h3,
    lineLoop_cons_cont _ _ _ _ _ _ _ h4, lineLoop_cons_cont _ _ _ _ _ _ _ h5]

theorem finish_block_accept (b : Backend) (w : World) (s X Y : Str) (a : Accum)
    (hb : b.acceptsAll) (hs : s ≠ []) :
    finish b w (blockState s (X ++ "\n".toList) (Y ++ "\n".toList) [] a) =
      FinishResult.done (registerBlock b w s X Y)
        { blockState s (X ++ "\n".toList) (Y ++ "\n".toList) [] a with
          err := [], shader := [] } false := by
  rw [finish_graphics_accept b w _ hb hs rfl, (block_sources b s X Y a).1,
    (block_sources b s X Y a).2]
  rfl

/-- C8: a `finish()` that succeeds for a pending name leaves exactly one registry entry
for that name, holding the program built from the block just finished, whatever was
registered under the name before; `LookupShader` returns that program and the entries
under other names are as before.  In particular, after a material with two blocks named
`s` (on a driver that accepts everything) `LookupShader(s)` is the program of the second
block. -/
theorem C8_reregistration (b : Backend) (w w1 : World) (st st1 : PState)
    (hs : st.shader ≠ []) (h : finish b w st = FinishResult.done w1 st1 false) :
    w1.registry.filter (fun e => e.1 == st.shader) = [(st.shader, programOf b st)] ∧
    LookupShader w1.registry st.shader = some (programOf b st) ∧
    (∀ n, n ≠ st.shader → LookupShader w1.registry n = LookupShader w.registry n) ∧
    (∀ s X1 Y1 X2 Y2, isName s = true → isBodyLine X1 = true → isBodyLine Y1 = true →
      isBodyLine X2 = true → isBodyLine Y2 = true → b.acceptsAll →
      (ParseMaterialFile b w (twoBlockMaterial s X1 Y1 X2 Y2)).world.registry.filter
          (fun e => e.1 == s) =
        [(s, ⟨some (mainAround (versionHeader b) X2),
              some (mainAround (versionHeader b) Y2), none⟩)] ∧
      LookupShader (ParseMaterialFile b w (twoBlockMaterial s X1 Y1 X2 Y2)).world.registry s =
        some ⟨some (mainAround (versionHeader b) X2),
              some (mainAround (versionHeader b) Y2), none⟩) := by
  have hreg := finish_registers b w w1 st st1 hs h
  refine ⟨?_, ?_, ?_, ?_⟩
  · rw [hreg]; exact filter_assign_self _ _ _
  · rw [hreg]; exact LookupShader_assign_self _ _ _
  · intro n hn
    rw [hreg]; exact LookupShader_assign_other _ _ _ _ hn
  · intro s X1 Y1 X2 Y2 hsn hX1 hY1 hX2 hY2 hb
    have hne : s ≠ [] := ((isName_iff s).1 hsn).1
    have h1 : processLine b w PState.init ("SHADER".toList ++ ' ' :: s) =
        Step.cont w (blockState s [] [] [] Accum.none) := by
      rw [processLine_SHADER_name b w _ s hsn, finish_no_shader b w _ rfl]
      rfl
    have h6 : processLine b w
        (blockState s (X1 ++ "\n".toList) (Y1 ++ "\n".toList) [] Accum.pixel)
        ("SHADER".toList ++ ' ' :: s) =
        Step.cont (registerBlock b w s X1 Y1) (blockState s [] [] [] Accum.none) := by
      rw [processLine_SHADER_name b w _ s hsn, finish_block_accept b w s X1 Y1 _ hb hne]
      rfl
    have hrun : ParseMaterialFile b w (twoBlockMaterial s X1 Y1 X2 Y2) =
        ⟨registerBlock b (registerBlock b w s X1 Y1) s X2 Y2,
         Outcome.returned [] Exit.endOfInput⟩ := by
      unfold ParseMaterialFile parseFrom
      rw [twoBlockMaterial_lines s X1 Y1 X2 Y2 hsn hX1 hY1 hX2 hY2,
        lineLoop_cons_cont _ _ _ _ _ _ _ h1, lineLoop_block b w s X1 Y1 _ hX1 hY1,
        lineLoop_cons_cont _ _ _ _ _ _ _ h6, lineLoop_block b _ s X2 Y2 _ hX2 hY2]
      simp only [lineLoop, finishAtEnd]
      rw [finish_block_accept b _ s X2 Y2 Accum.pixel hb hne]
    rw [hrun]
    exact ⟨filter_assign_self _ _ _, LookupShader_assign_self _ _ _⟩


/-- C8, witness: the block `s` is finished in a world where `s` is already registered (by
a first parse); the lookup then gives the program of the second block. -/
theorem C8_reregistration_witness :
    LookupShader
        (registerBlock acceptAll
          (ParseMaterialFile acceptAll World.empty
            (shaderMaterial "s".toList "a".toList "b".toList)).world
          "s".toList "c".toList "d".toList).registry
        (blockState "s".toList "c\n".toList "d\n".toList [] Accum.pixel).shader =
      some (programOf acceptAll
        (blockState "s".toList "c\n".toList "d\n".toList [] Accum.pixel)) :=
  (C8_reregistration acceptAll
    (ParseMaterialFile acceptAll World.empty
      (shaderMaterial "s".toList "a".toList "b".toList)).world
    (registerBlock acceptAll
      (ParseMaterialFile acceptAll World.empty
        (shaderMaterial "s".toList "a".toList "b".toList)).world
      "s".toList "c".toList "d".toList)
    (blockState "s".toList "c\n".toList "d\n".toList [] Accum.pixel)
    { blockState "s".toList "c\n".toList "d\n".toList [] Accum.pixel with shader := [] }
    (by decide) (by decide)).2.1

/-! ## C9: the registry only grows -/

theorem registered_assign (r : Registry) (name n : Str) (sh : Shader)
    (h : LookupShader r n ≠ none) : LookupShader (r.assign name sh) n ≠ none := by
  by_cases hn : n = name
  · subst hn; rw [LookupShader_assign_self]; simp
  · rw [LookupShader_assign_other _ _ _ _ hn]; exact h

theorem finishCompiled_mono (st : PState) (r : CompileResult) (n : Str)
    (h : registered r.world n) : registered (finishCompiled st r).world n := by
  unfold finishCompiled
  cases r with
  | thrown w0 m => exact h
  | returned w0 sh e =>
    dsimp only
    split_ifs
    · exact h
    · exact registered_assign _ _ _ _ h

theorem finish_mono (b : Backend) (w : World) (st : PState) (n : Str)
    (h : registered w n) : registered (finish b w st).world n := by
  unfold finish
  split_ifs
  · apply finishCompiled_mono
    unfold registered
    rw [CompileCompute_registry]; exact h
  · apply finishCompiled_mono
    unfold registered
    rw [Compile_registry]; exact h
  · exact h

theorem afterFinish_world (r : FinishResult) (k : PState → PState) :
    (afterFinish r k).world = r.world := by
  unfold afterFinish
  split <;> rfl

theorem processLine_mono (b : Backend) (w : World) (st : PState) (l : Str) (n : Str)
    (h : registered w n) : registered (processLine b w st l).world n := by
  rcases processLine_cases b w st l with ⟨st2, h2, _⟩ | ⟨k, h2, _⟩ | ⟨e, h2, _⟩
  · rw [h2]; exact h
  · rw [h2, afterFinish_world]; exact finish_mono b w st n h
  · rw [h2]; exact h

theorem lineLoop_mono (b : Backend) (ls : List Str) (w : World) (st : PState) (n : Str)
    (h : registered w n) : registered (lineLoop b w st ls).world n := by
  induction ls generalizing w st with
  | nil => exact h
  | cons l ls ih =>
    have hp := processLine_mono b w st l n h
    unfold lineLoop
    cases hr : processLine b w st l with
    | cont w1 st1 => rw [hr] at hp; exact ih _ _ hp
    | ret w1 e via => rw [hr] at hp; exact hp
    | thrown w1 m => rw [hr] at hp; exact hp

theorem parseFrom_mono (b : Backend) (ls : List Str) (w : World) (st : PState) (n : Str)
    (h : registered w n) : registered (parseFrom b w st ls).world n := by
  have hl := lineLoop_mono b ls w st n h
  unfold parseFrom
  cases hr : lineLoop b w st ls with
  | cont w1 st1 =>
    rw [hr] at hl
    have hf := finish_mono b w1 st1 n hl
    show registered (finishAtEnd b w1 st1).world n
    unfold finishAtEnd
    cases hfin : finish b w1 st1 with
    | done w2 st2 f => rw [hfin] at hf; exact hf
    | thrown w2 m => rw [hfin] at hf; exact hf
  | ret w1 e via => rw [hr] at hl; exact hl
  | thrown w1 m => rw [hr] at hl; exact hl

/-- C9: a name registered before `ParseMaterialFile` is called, or registered at any point
of the line loop (after any number of lines), is still registered when the function ends,
whether it returns the empty string or an error message. -/
theorem C9_registry_survives (b : Backend) (w : World) (mbuf : Str) (n : Str) :
    (registered w n → registered (ParseMaterialFile b w mbuf).world n) ∧
    (∀ pre post w1 st1, splitLines (cstr mbuf) = pre ++ post →
      lineLoop b w PState.init pre = Step.cont w1 st1 → registered w1 n →
      registered (ParseMaterialFile b w mbuf).world n) := by
  refine ⟨fun h => parseFrom_mono b _ w _ n h, ?_⟩
  intro pre post w1 st1 hsplit hpre hreg
  have h2 := parseFrom_mono b post w1 st1 n hreg
  unfold ParseMaterialFile parseFrom
  unfold parseFrom at h2
  rw [hsplit, lineLoop_append_cont b pre post w w1 PState.init st1 hpre]
  exact h2

/-- C9, witness: the block `s` is registered by the second `SHADER` line and stays
registered although the last line is a syntax error. -/
theorem C9_registry_survives_witness :
    registered (ParseMaterialFile acceptAll World.empty
      "SHADER s\nVERTEX\na\nPIXEL\nb\nSHADER t\nUNIFORMS bogus".toList).world "s".toList :=
  (C9_registry_survives acceptAll World.empty
    "SHADER s\nVERTEX\na\nPIXEL\nb\nSHADER t\nUNIFORMS bogus".toList "s".toList).2
    ["SHADER s".toList, "VERTEX".toList, "a".toList, "PIXEL".toList, "b".toList,
      "SHADER t".toList]
    ["UNIFORMS bogus".toList]
    (registerBlock acceptAll World.empty "s".toList "a".toList "b".toList)
    (blockState "t".toList [] [] [] Accum.none)
    (by decide) (by decide) (by unfold registered; decide)

/-! ## C10: the returned string -/

theorem Compile_compiled (b : Backend) (w : World) (sh : Shader) (name vs ps : Str) :
    (Shader.Compile b w sh name vs ps).world.compiled = w.compiled := by
  unfold Shader.Compile CompileGLSLShader Shader.Link
  by_cases hv : b.compileStatus Stage.vertex vs = true
  · by_cases hp : b.compileStatus Stage.fragment ps = true
    · by_cases hl : b.linkStatus [(Stage.vertex, vs), (Stage.fragment, ps)] = true
      · simp [hv, hp, hl, CompileResult.world]
      · simp [hv, hp, hl, CompileResult.world]
    · simp [hv, hp, CompileResult.world]
  · simp [hv, CompileResult.world]

theorem CompileCompute_compiled (b : Backend) (w : World) (sh : Shader) (name cs : Str) :
    (Shader.CompileCompute b w sh name cs).world.compiled = w.compiled := by
  unfold Shader.CompileCompute
  cases hb : b.platform with
  | es2 => rfl
  | apple c0 c2 c3 => rfl
  | desktop =>
    unfold CompileGLSLShader Shader.Link
    by_cases hc : b.compileStatus Stage.compute cs = true
    · by_cases hl : b.linkStatus [(Stage.compute, cs)] = true
      · simp [hc, hl, CompileResult.world]
      · simp [hc, hl, CompileResult.world]
    · simp [hc, CompileResult.world]

theorem cleanExt_refl (w : World) : cleanExt w w := ⟨[], by simp, by simp⟩

theorem cleanExt_trans (w w1 w2 : World) (h1 : cleanExt w w1) (h2 : cleanExt w1 w2) :
    cleanExt w w2 := by
  obtain ⟨n1, e1, c1⟩ := h1
  obtain ⟨n2, e2, c2⟩ := h2
  refine ⟨n1 ++ n2, by rw [e2, e1, List.append_assoc], ?_⟩
  intro x hx
  rcases List.mem_append.1 hx with h | h
  · exact c1 x h
  · exact c2 x h

theorem cleanExt_dirtyExt (w w1 w2 : World) (e : Str) (h1 : cleanExt w w1)
    (h2 : dirtyExt w1 w2 e) : dirtyExt w w2 e := by
  obtain ⟨n1, e1, _⟩ := h1
  obtain ⟨hne, n2, e2, x, hx, hxe⟩ := h2
  exact ⟨hne, n1 ++ n2, by rw [e2, e1, List.append_assoc], x,
    List.mem_append.2 (Or.inr hx), hxe⟩

theorem finishCompiled_spec (w : World) (st : PState) (r : CompileResult)
    (hr : r.world.compiled = w.compiled) : FinishSpec w (finishCompiled st r) := by
  unfold finishCompiled
  cases r with
  | thrown w0 m => exact trivial
  | returned w0 sh e =>
    have hw : w0.compiled = w.compiled := hr
    dsimp only
    by_cases he : e = []
    · rw [if_neg (by simpa using he)]
      refine ⟨[(st.shader, e)], by simp [hw], ?_⟩
      intro x hx
      simp only [List.mem_singleton] at hx
      rw [hx]; exact he
    · rw [if_pos he]
      exact ⟨he, [(st.shader, e)], by simp [hw], (st.shader, e), by simp, rfl⟩

theorem finish_spec (b : Backend) (w : World) (st : PState) :
    FinishSpec w (finish b w st) := by
  unfold finish
  split_ifs
  · exact finishCompiled_spec w st _ (CompileCompute_compiled _ _ _ _ _)
  · exact finishCompiled_spec w st _ (Compile_compiled _ _ _ _ _ _)
  · exact cleanExt_refl w

theorem afterFinish_spec (w : World) (r : FinishResult) (k : PState → PState)
    (h : FinishSpec w r) : StepSpec w (afterFinish r k) := by
  unfold afterFinish
  cases r with
  | thrown w1 m => exact trivial
  | done w1 st1 f =>
    cases f with
    | true => exact h
    | false => exact h

theorem processLine_spec (b : Backend) (w : World) (st : PState) (l : Str) :
    StepSpec w (processLine b w st l) := by
  rcases processLine_cases b w st l with ⟨st2, h2, _⟩ | ⟨k, h2, _⟩ | ⟨e, h2, he⟩
  · rw [h2]; exact cleanExt_refl w
  · rw [h2]; exact afterFinish_spec w _ k (finish_spec b w st)
  · rw [h2]; exact ⟨cleanExt_refl w, he⟩

theorem StepSpec_trans (w w1 : World) (s : Step) (h1 : cleanExt w w1) (h2 : StepSpec w1 s) :
    StepSpec w s := by
  cases s with
  | cont w2 st2 => exact cleanExt_trans w w1 w2 h1 h2
  | thrown w2 m => exact trivial
  | ret w2 e via =>
    cases via with
    | syntaxError => exact ⟨cleanExt_trans w w1 w2 h1 h2.1, h2.2⟩
    | compileError => exact cleanExt_dirtyExt w w1 w2 e h1 h2
    | endOfInput => exact h2

theorem lineLoop_spec (b : Backend) (ls : List Str) (w : World) (st : PState) :
    StepSpec w (lineLoop b w st ls) := by
  induction ls generalizing w st with
  | nil => exact cleanExt_refl w
  | cons l ls ih =>
    have hp := processLine_spec b w st l
    cases hr : processLine b w st l with
    | cont w1 st1 =>
      rw [hr] at hp
      rw [lineLoop_cons_cont _ _ _ _ _ _ _ hr]
      exact StepSpec_trans w w1 _ hp (ih w1 st1)
    | ret w1 e via =>
      rw [hr] at hp
      rw [lineLoop_cons_ret _ _ _ _ _ _ _ _ hr]
      exact hp
    | thrown w1 m =>
      simp only [lineLoop, hr]
      exact trivial

theorem dirtyExt_not_clean (w w1 : World) (e : Str) (h : dirtyExt w w1 e) (new : List (Str × Str))
    (hn : w1.compiled = w.compiled ++ new) : ¬ ∀ x ∈ new, x.2 = [] := by
  obtain ⟨hne, n2, e2, x, hx, hxe⟩ := h
  have : new = n2 := List.append_cancel_left (hn.symm.trans e2)
  subst this
  intro hall
  exact hne (hxe ▸ hall x hx)

theorem cleanExt_all (w w1 : World) (h : cleanExt w w1) (new : List (Str × Str))
    (hn : w1.compiled = w.compiled ++ new) : ∀ x ∈ new, x.2 = [] := by
  obtain ⟨n2, e2, hall⟩ := h
  have : new = n2 := List.append_cancel_left (hn.symm.trans e2)
  subst this
  exact hall

/-- C10: when `ParseMaterialFile` returns, the string it returns is empty if and only if
it did not leave through a syntax error and every `Shader::Compile` call it made returned
the empty string; in particular every syntax error and every failed compilation gives a
non-empty string. -/
theorem C10_error_string (b : Backend) (w : World) (mbuf : Str) (e : Str) (via : Exit)
    (h : (ParseMaterialFile b w mbuf).outcome = Outcome.returned e via) :
    ∃ new, (ParseMaterialFile b w mbuf).world.compiled = w.compiled ++ new ∧
      (e = [] ↔ (via ≠ Exit.syntaxError ∧ ∀ x ∈ new, x.2 = [])) := by
  have hs := lineLoop_spec b (splitLines (cstr mbuf)) w PState.init
  unfold ParseMaterialFile parseFrom at h ⊢
  cases hr : lineLoop b w PState.init (splitLines (cstr mbuf)) with
  | cont w1 st1 =>
    rw [hr] at hs h
    have herr := lineLoop_cont_err b _ w w1 PState.init st1 hr rfl
    have hf := finish_spec b w1 st1
    simp only [finishAtEnd] at h ⊢
    cases hfin : finish b w1 st1 with
    | thrown w2 m => rw [hfin] at h; simp at h
    | done w2 st2 f =>
      rw [hfin] at h hf
      simp only [Outcome.returned.injEq] at h
      obtain ⟨he, hvia⟩ := h
      subst he hvia
      cases f with
      | false =>
        have hc := cleanExt_trans w w1 w2 hs hf
        obtain ⟨new, hnew, hall⟩ := hc
        have he0 := finish_done_err b w1 w2 st1 st2 hfin herr
        exact ⟨new, hnew, fun _ => ⟨by simp, hall⟩, fun _ => he0⟩
      | true =>
        have hd := cleanExt_dirtyExt w w1 w2 _ hs hf
        obtain ⟨hne, new, hnew, x, hx, hxe⟩ := hd
        refine ⟨new, hnew, ?_⟩
        constructor
        · intro h0; exact absurd h0 hne
        · intro hall
          exact absurd (hxe ▸ hall.2 x hx) hne
  | thrown w1 m => rw [hr] at h; simp at h
  | ret w1 e1 via1 =>
    rw [hr] at hs h
    simp only [Outcome.returned.injEq] at h
    obtain ⟨he, hvia⟩ := h
    subst he hvia
    cases via1 with
    | syntaxError =>
      obtain ⟨⟨new, hnew, _⟩, hne⟩ := hs
      exact ⟨new, hnew, by simp [hne]⟩
    | compileError =>
      obtain ⟨hne, new, hnew, x, hx, hxe⟩ := hs
      refine ⟨new, hnew, ?_⟩
      constructor
      · intro h0; exact absurd h0 hne
      · intro hall
        exact absurd (hxe ▸ hall.2 x hx) hne
    | endOfInput => exact absurd hs (by simp [StepSpec])

/-- C10, witness: a rejected vertex stage gives a non-empty string (the log here is
`bad`). -/
theorem C10_error_string_witness :
    ∃ new, (ParseMaterialFile rejectAll World.empty
        (shaderMaterial "s".toList "a".toList "b".toList)).world.compiled =
        World.empty.compiled ++ new ∧
      (sampleVertexError = [] ↔
        (Exit.endOfInput ≠ Exit.syntaxError ∧ ∀ x ∈ new, x.2 = [])) :=
  C10_error_string rejectAll World.empty (shaderMaterial "s".toList "a".toList "b".toList)
    sampleVertexError Exit.endOfInput (by decide)

/-! ## C11: a rejected stage -/

theorem processLine_finishing (b : Backend) (w : World) (st : PState) (l : Str)
    (h : finishingLine l) :
    ∃ k : PState → PState, processLine b w st l = afterFinish (finish b w st) k := by
  rcases h with h | h | h | h
  · exact ⟨_, processLine_SHADER b w st l h⟩
  · refine ⟨fun s => { s with vfunctions := [], accum := Accum.vfunctions }, ?_⟩
    unfold processLine; dsimp only; rw [h]; rfl
  · refine ⟨fun s => { s with pfunctions := [], accum := Accum.pfunctions }, ?_⟩
    unfold processLine; dsimp only; rw [h]; rfl
  · refine ⟨fun s => { s with cfunctions := [], accum := Accum.cfunctions }, ?_⟩
    unfold processLine; dsimp only; rw [h]; rfl

theorem finish_vertex_rejected (b : Backend) (w : World) (st : PState)
    (hs : st.shader ≠ []) (hc : st.compute = [])
    (hv : b.compileStatus Stage.vertex (vertexSource b st) = false) :
    finish b w st =
      FinishResult.done
        (rejectedWorld w [GLCall.compileShader Stage.vertex (vertexSource b st)] st.shader
          (vertexError b st))
        { st with err := vertexError b st } true := by
  simp [finish, finishCompiled, Shader.Compile, CompileGLSLShader, hs, hc, hv,
    rejectedWorld, vertexError]

theorem finish_pixel_rejected (b : Backend) (w : World) (st : PState)
    (hs : st.shader ≠ []) (hc : st.compute = [])
    (hv : b.compileStatus Stage.vertex (vertexSource b st) = true)
    (hp : b.compileStatus Stage.fragment (pixelSource b st) = false) :
    finish b w st =
      FinishResult.done
        (rejectedWorld w [GLCall.compileShader Stage.vertex (vertexSource b st),
          GLCall.compileShader Stage.fragment (pixelSource b st)] st.shader
          (pixelError b st))
        { st with err := pixelError b st } true := by
  simp [finish, finishCompiled, Shader.Compile, CompileGLSLShader, hs, hc, hv, hp,
    rejectedWorld, pixelError]

theorem finish_compute_rejected (b : Backend) (w : World) (st : PState)
    (hs : st.shader ≠ []) (hc : st.compute ≠ []) (hd : b.platform = Platform.desktop)
    (hv : b.compileStatus Stage.compute (computeSource st) = false) :
    finish b w st =
      FinishResult.done
        (rejectedWorld w [GLCall.compileShader Stage.compute (computeSource st)] st.shader
          (computeError b st))
        { st with err := computeError b st } true := by
  simp [finish, finishCompiled, Shader.CompileCompute, CompileGLSLShader, hs, hc, hd, hv,
    rejectedWorld, computeError]

theorem finish_failed_registry (b : Backend) (w w1 : World) (st st1 : PState)
    (h : finish b w st = FinishResult.done w1 st1 true) : w1.registry = w.registry := by
  unfold finish at h
  have key : ∀ r : CompileResult, r.world.registry = w.registry →
      finishCompiled st r = FinishResult.done w1 st1 true → w1.registry = w.registry := by
    intro r hr hf
    unfold finishCompiled at hf
    cases r with
    | thrown w0 m => simp at hf
    | returned w0 sh e =>
      by_cases he : e = []
      · simp [he] at hf
      · simp [he] at hf
        rw [← hf.1]; exact hr
  split_ifs at h
  · exact key _ (CompileCompute_registry _ _ _ _ _) h
  · exact key _ (Compile_registry _ _ _ _ _ _) h
  · simp at h

/-- C11: when the driver rejects a stage of the pending shader, `Shader::Compile` returns
"couldn't compile <stage> shader: " + name + "\n" + the `GLSLError` text; `finish` then
returns `true` with the registry as before.  After a rejected vertex stage the only driver
call is the vertex compilation (no pixel stage, no link).  The message is non-empty,
contains the name and ends with the formatted diagnostic.  `ParseMaterialFile` returns
that message from the line that called `finish` (the lines after it are not read) or from
the final `finish()`. -/
theorem C11_stage_rejected (b : Backend) (w0 w : World) (st : PState) (mbuf l : Str)
    (before after : List Str) (hs : st.shader ≠ [])
    (hrun : lineLoop b w0 PState.init before = Step.cont w st) :
    (st.compute = [] → b.compileStatus Stage.vertex (vertexSource b st) = false →
      finish b w st = FinishResult.done
        (rejectedWorld w [GLCall.compileShader Stage.vertex (vertexSource b st)] st.shader
          (vertexError b st))
        { st with err := vertexError b st } true) ∧
    (st.compute = [] → b.compileStatus Stage.vertex (vertexSource b st) = true →
      b.compileStatus Stage.fragment (pixelSource b st) = false →
      finish b w st = FinishResult.done
        (rejectedWorld w [GLCall.compileShader Stage.vertex (vertexSource b st),
          GLCall.compileShader Stage.fragment (pixelSource b st)] st.shader
          (pixelError b st))
        { st with err := pixelError b st } true) ∧
    (st.compute ≠ [] → b.platform = Platform.desktop →
      b.compileStatus Stage.compute (computeSource st) = false →
      finish b w st = FinishResult.done
        (rejectedWorld w [GLCall.compileShader Stage.compute (computeSource st)] st.shader
          (computeError b st))
        { st with err := computeError b st } true) ∧
    (vertexError b st ≠ [] ∧ st.shader <:+: vertexError b st ∧
      GLSLError (b.shaderInfoLog Stage.vertex (vertexSource b st))
        (some (vertexSource b st)) <:+ vertexError b st) ∧
    (pixelError b st ≠ [] ∧ st.shader <:+: pixelError b st ∧
      GLSLError (b.shaderInfoLog Stage.fragment (pixelSource b st))
        (some (pixelSource b st)) <:+ pixelError b st) ∧
    (computeError b st ≠ [] ∧ st.shader <:+: computeError b st ∧
      GLSLError (b.shaderInfoLog Stage.compute (computeSource st))
        (some (computeSource st)) <:+ computeError b st) ∧
    (∀ w1 st1, finish b w st = FinishResult.done w1 st1 true →
      w1.registry = w.registry ∧
      (splitLines (cstr mbuf) = before →
        ParseMaterialFile b w0 mbuf = ⟨w1, Outcome.returned st1.err Exit.endOfInput⟩) ∧
      (splitLines (cstr mbuf) = before ++ l :: after → finishingLine l →
        ParseMaterialFile b w0 mbuf = ⟨w1, Outcome.returned st1.err Exit.compileError⟩)) := by
  refine ⟨finish_vertex_rejected b w st hs, finish_pixel_rejected b w st hs,
    finish_compute_rejected b w st hs, ?_, ?_, ?_, ?_⟩
  · refine ⟨by simp [vertexError], ?_, List.suffix_append _ _⟩
    unfold vertexError
    exact (List.infix_append _ _ _).trans (List.prefix_append _ _).isInfix
  · refine ⟨by simp [pixelError], ?_, List.suffix_append _ _⟩
    unfold pixelError
    exact (List.infix_append _ _ _).trans (List.prefix_append _ _).isInfix
  · refine ⟨by simp [computeError], ?_, List.suffix_append _ _⟩
    unfold computeError
    exact (List.infix_append _ _ _).trans (List.prefix_append _ _).isInfix
  · intro w1 st1 hf
    refine ⟨finish_failed_registry b w w1 st st1 hf, ?_, ?_⟩
    · intro hsplit
      unfold ParseMaterialFile parseFrom
      rw [hsplit, hrun]
      simp only [finishAtEnd, hf]
    · intro hsplit hl
      obtain ⟨k, hk⟩ := processLine_finishing b w st l hl
      have hp : processLine b w st l = Step.ret w1 st1.err Exit.compileError := by
        rw [hk, hf]; rfl
      exact ParseMaterialFile_ret_at b w0 w w1 st mbuf l _ _ before after hsplit hrun hp

/-- C11, witness: the driver rejects the vertex stage of `s` when the line `SHADER t`
finishes the block; the line after it is not read (it would be a syntax error). -/
theorem C11_stage_rejected_witness :
    ParseMaterialFile rejectAll World.empty
        "SHADER s\nVERTEX\na\nPIXEL\nb\nSHADER t\nbogus".toList =
      ⟨rejectedWorld World.empty
          [GLCall.compileShader Stage.vertex
            (vertexSource rejectAll (blockState "s".toList "a\n".toList "b\n".toList []
              Accum.pixel))]
          "s".toList sampleVertexError,
        Outcome.returned
          ({ blockState "s".toList "a\n".toList "b\n".toList [] Accum.pixel with
             err := sampleVertexError } : PState).err
          Exit.compileError⟩ :=
  ((C11_stage_rejected rejectAll World.empty World.empty
    (blockState "s".toList "a\n".toList "b\n".toList [] Accum.pixel)
    "SHADER s\nVERTEX\na\nPIXEL\nb\nSHADER t\nbogus".toList "SHADER t".toList
    ["SHADER s".toList, "VERTEX".toList, "a".toList, "PIXEL".toList, "b".toList]
    ["bogus".toList] (by decide) (by decide)).2.2.2.2.2.2
    (rejectedWorld World.empty
      [GLCall.compileShader Stage.vertex
        (vertexSource rejectAll (blockState "s".toList "a\n".toList "b\n".toList []
          Accum.pixel))]
      "s".toList sampleVertexError)
    { blockState "s".toList "a\n".toList "b\n".toList [] Accum.pixel with
      err := sampleVertexError }
    (by decide)).2.2 (by decide) (Or.inl (by decide))

/-! ## C12: the diagnostic text -/

theorem split_at_newline (s : Str) (h : '\n' ∈ s) :
    s = s.takeWhile (fun c => c != '\n') ++
      '\n' :: (s.dropWhile (fun c => c != '\n')).drop 1 ∧
    '\n' ∉ s.takeWhile (fun c => c != '\n') ∧
    ((s.dropWhile (fun c => c != '\n')).drop 1).length < s.length := by
  induction s with
  | nil => simp at h
  | cons c cs ih =>
    by_cases hc : c = '\n'
    · subst hc
      simp [List.takeWhile, List.dropWhile]
    · have hm : '\n' ∈ cs := by
        rcases List.mem_cons.1 h with e | e
        · exact absurd e.symm hc
        · exact e
      obtain ⟨h1, h2, h3⟩ := ih hm
      have hne : (c != '\n') = true := by simpa using hc
      refine ⟨?_, ?_, ?_⟩
      · simp only [List.takeWhile, List.dropWhile, hne, List.cons_append]
        rw [← h1]
      · simp only [List.takeWhile, hne, List.mem_cons, not_or]
        exact ⟨fun e => hc e.symm, h2⟩
      · simp only [List.dropWhile, hne, List.length_cons]
        omega

theorem splitLines_at_newline (s : Str) (h : '\n' ∈ s) :
    splitLines s = s.takeWhile (fun c => c != '\n') ::
      splitLines ((s.dropWhile (fun c => c != '\n')).drop 1) := by
  obtain ⟨h1, h2, _⟩ := split_at_newline s h
  conv_lhs => rw [h1]
  exact splitLines_append _ _ h2

theorem GLSLErrorLoop_eq (fuel i : Nat) (source err : Str) (h : source.length < fuel) :
    GLSLErrorLoop fuel i source err = err ++ numberedFrom i (splitLines source) := by
  induction fuel generalizing i source err with
  | zero => omega
  | succ n ih =>
    unfold GLSLErrorLoop
    by_cases hn : '\n' ∈ source
    · rw [if_pos hn, splitLines_at_newline source hn]
      obtain ⟨_, _, h3⟩ := split_at_newline source hn
      rw [ih _ _ _ (by omega)]
      simp [numberedFrom, List.append_assoc]
    · rw [if_neg hn, splitLines_of_not_mem source hn]
      simp [numberedFrom, List.append_assoc]

theorem numberedFrom_eq_foldr (i : Nat) (ps : List Str) :
    numberedFrom i ps =
      ((List.range' (i + 1) ps.length).zip ps).foldr
        (fun kp acc => to_string (kp.1 : Int) ++ ": ".toList ++ kp.2 ++ "\n".toList ++ acc)
        [] := by
  induction ps generalizing i with
  | nil => rfl
  | cons q qs ih =>
    simp only [numberedFrom, List.length_cons, List.range'_succ, List.zip_cons_cons,
      List.foldr_cons]
    rw [ih (i + 1)]

theorem splitLines_pieces (s : Str) :
    ∃ q qs, splitLines s = q :: qs ∧ s = q ++ joinLines qs ∧
      ∀ x ∈ q :: qs, '\n' ∉ x := by
  induction s with
  | nil => exact ⟨[], [], rfl, rfl, by simp⟩
  | cons c cs ih =>
    obtain ⟨q, qs, h1, h2, h3⟩ := ih
    by_cases hc : c = '\n'
    · subst hc
      refine ⟨[], q :: qs, by simp [splitLines, h1], ?_, ?_⟩
      · show '\n' :: cs = [] ++ ('\n' :: q ++ joinLines qs)
        rw [h2]; rfl
      · intro x hx
        rcases List.mem_cons.1 hx with e | e
        · rw [e]; simp
        · exact h3 x e
    · refine ⟨c :: q, qs, by simp [splitLines, hc, h1], by rw [h2]; rfl, ?_⟩
      intro x hx
      rcases List.mem_cons.1 hx with e | e
      · rw [e]
        simp only [List.mem_cons, not_or]
        exact ⟨fun e => hc e.symm, h3 q (by simp)⟩
      · exact h3 x (List.mem_cons_of_mem _ e)

/-- C12: for a non-empty log, the message of `GLSLError` is "GLSL " followed by "ERROR: ",
the log text and the numbered source "1: p1\n2: p2\n ... n: pn\n", where p1 .. pn are the
pieces of the source between its newlines (they contain no newline and give the source
back when joined by newlines).  The loop as written in `GLSLError` produces that text. -/
theorem C12_diagnostic_format (log src : Str) (hlog : log ≠ []) :
    GLSLError log (some src) =
      "GLSL ".toList ++ ("ERROR: ".toList ++ log ++ specNumberedLines (splitLines src)) ∧
    GLSLErrorLoop (src.length + 1) 0 src ("GLSL ERROR: ".toList ++ log) =
      GLSLError log (some src) ∧
    (∃ q qs, splitLines src = q :: qs ∧ src = q ++ joinLines qs ∧
      ∀ x ∈ q :: qs, '\n' ∉ x) := by
  have hlen : log.length + 1 > 1 := by
    have := List.length_pos.2 hlog
    omega
  have hE : GLSLError log (some src) =
      "GLSL ERROR: ".toList ++ log ++ numberedFrom 0 (splitLines src) := by
    unfold GLSLError
    rw [if_pos hlen]
  refine ⟨?_, ?_, splitLines_pieces src⟩
  · rw [hE, numberedFrom_eq_foldr]
    simp [specNumberedLines, List.append_assoc]
  · rw [hE, GLSLErrorLoop_eq _ _ _ _ (Nat.lt_succ_self _)]

/-- C12, witness: the log `bad` and a source of two lines. -/
theorem C12_diagnostic_format_witness :
    GLSLError "bad".toList (some "a\nb".toList) =
      "GLSL ".toList ++ ("ERROR: ".toList ++ "bad".toList ++
        specNumberedLines (splitLines "a\nb".toList)) :=
  (C12_diagnostic_format "bad".toList "a\nb".toList (by decide)).1

/-! ## C13: the stages of a registered program -/

/-- A relation between worlds that is reflexive, transitive and holds across `finish`
holds across the whole parse. -/
theorem parseFrom_rel (b : Backend) (R : World → World → Prop) (hrefl : ∀ w, R w w)
    (htrans : ∀ w1 w2 w3, R w1 w2 → R w2 w3 → R w1 w3)
    (hfin : ∀ w st, R w (finish b w st).world) (ls : List Str) (w : World) (st : PState) :
    R w (parseFrom b w st ls).world := by
  have hline : ∀ w st l, R w (processLine b w st l).world := by
    intro w st l
    rcases processLine_cases b w st l with ⟨st2, h2, _⟩ | ⟨k, h2, _⟩ | ⟨e, h2, _⟩
    · rw [h2]; exact hrefl w
    · rw [h2, afterFinish_world]; exact hfin w st
    · rw [h2]; exact hrefl w
  have hloop : ∀ ls w st, R w (lineLoop b w st ls).world := by
    intro ls
    induction ls with
    | nil => intro w st; exact hrefl w
    | cons l ls ih =>
      intro w st
      have hp := hline w st l
      cases hr : processLine b w st l with
      | cont w1 st1 =>
        rw [hr] at hp
        rw [lineLoop_cons_cont _ _ _ _ _ _ _ hr]
        exact htrans _ _ _ hp (ih w1 st1)
      | ret w1 e via =>
        rw [hr] at hp
        rw [lineLoop_cons_ret _ _ _ _ _ _ _ _ hr]
        exact hp
      | thrown w1 m =>
        rw [hr] at hp
        simp only [lineLoop, hr]
        exact hp
  have hl := hloop ls w st
  unfold parseFrom
  cases hr : lineLoop b w st ls with
  | cont w1 st1 =>
    rw [hr] at hl
    have hf := hfin w1 st1
    show R w (finishAtEnd b w1 st1).world
    unfold finishAtEnd
    cases hfi : finish b w1 st1 with
    | done w2 st2 f => rw [hfi] at hf; exact htrans _ _ _ hl hf
    | thrown w2 m => rw [hfi] at hf; exact htrans _ _ _ hl hf
  | ret w1 e via => rw [hr] at hl; exact hl
  | thrown w1 m => rw [hr] at hl; exact hl

theorem Compile_built (b : Backend) (w w1 : World) (sh1 : Shader) (name vs ps : Str)
    (h : Shader.Compile b w Shader.new name vs ps = CompileResult.returned w1 sh1 []) :
    builtBy b sh1 := by
  unfold Shader.Compile CompileGLSLShader Shader.Link at h
  by_cases hv : b.compileStatus Stage.vertex vs = true
  · by_cases hp : b.compileStatus Stage.fragment ps = true
    · by_cases hl : b.linkStatus [(Stage.vertex, vs), (Stage.fragment, ps)] = true
      · simp [hv, hp, hl] at h
        exact Or.inl ⟨vs, ps, by rw [← h.2]; rfl, hv, hp, hl⟩
      · simp [hv, hp, hl] at h
    · simp [hv, hp] at h
  · simp [hv] at h

theorem CompileCompute_built (b : Backend) (w w1 : World) (sh1 : Shader) (name cs : Str)
    (h : Shader.CompileCompute b w Shader.new name cs = CompileResult.returned w1 sh1 []) :
    builtBy b sh1 := by
  unfold Shader.CompileCompute at h
  cases hb : b.platform with
  | es2 => rw [hb] at h; simp at h
  | apple c0 c2 c3 => rw [hb] at h; simp at h
  | desktop =>
    rw [hb] at h
    unfold CompileGLSLShader Shader.Link at h
    by_cases hc : b.compileStatus Stage.compute cs = true
    · by_cases hl : b.linkStatus [(Stage.compute, cs)] = true
      · simp [hc, hl] at h
        exact Or.inr ⟨cs, by rw [← h.2]; rfl, hb, hc, hl⟩
      · simp [hc, hl] at h
    · simp [hc] at h

theorem mem_assign (r : Registry) (name : Str) (sh : Shader) (e : Str × Shader)
    (h : e ∈ r.assign name sh) : e = (name, sh) ∨ e ∈ r := by
  unfold Registry.assign at h
  rcases List.mem_cons.1 h with h | h
  · exact Or.inl h
  · exact Or.inr (List.mem_filter.1 h).1

theorem finishCompiled_shaped (b : Backend) (w : World) (st : PState) (r : CompileResult)
    (hr : r.world.registry = w.registry)
    (hb : ∀ w0 sh, r = CompileResult.returned w0 sh [] → builtBy b sh) :
    shapedExt b w (finishCompiled st r).world := by
  unfold finishCompiled
  cases r with
  | thrown w0 m =>
    intro e he
    have hw : w0.registry = w.registry := hr
    exact Or.inl (hw ▸ he)
  | returned w0 sh e0 =>
    have hw : w0.registry = w.registry := hr
    dsimp only
    by_cases he0 : e0 = []
    · rw [if_neg (by simpa using he0)]
      intro e he
      rcases mem_assign _ _ _ _ he with h | h
      · exact Or.inr (by rw [h]; exact hb w0 sh (by rw [he0]))
      · exact Or.inl (hw ▸ h)
    · rw [if_pos he0]
      intro e he
      exact Or.inl (hw ▸ he)

theorem finish_shaped (b : Backend) (w : World) (st : PState) :
    shapedExt b w (finish b w st).world := by
  unfold finish
  split_ifs
  · exact finishCompiled_shaped b w st _ (CompileCompute_registry _ _ _ _ _)
      (fun w0 sh h => CompileCompute_built b w w0 sh _ _ h)
  · exact finishCompiled_shaped b w st _ (Compile_registry _ _ _ _ _ _)
      (fun w0 sh h => Compile_built b w w0 sh _ _ _ h)
  · intro e he; exact Or.inl he

theorem shapedExt_trans (b : Backend) (w1 w2 w3 : World) (h1 : shapedExt b w1 w2)
    (h2 : shapedExt b w2 w3) : shapedExt b w1 w3 := by
  intro e he
  rcases h2 e he with h | h
  · exact h1 e h
  · exact Or.inr h

theorem CompileCompute_calls (b : Backend) (w : World) (sh : Shader) (name cs : Str) :
    ∃ extra, (Shader.CompileCompute b w sh name cs).world.calls = w.calls ++ extra ∧
      ∀ c ∈ extra, c = GLCall.compileShader Stage.compute cs ∨
        c = GLCall.linkProgram [(Stage.compute, cs)] := by
  unfold Shader.CompileCompute
  cases hb : b.platform with
  | es2 => exact ⟨[], by simp [CompileResult.world], by simp⟩
  | apple c0 c2 c3 => exact ⟨[], by simp [CompileResult.world], by simp⟩
  | desktop =>
    unfold CompileGLSLShader Shader.Link
    by_cases hc : b.compileStatus Stage.compute cs = true
    · by_cases hl : b.linkStatus [(Stage.compute, cs)] = true
      · exact ⟨[GLCall.compileShader Stage.compute cs,
          GLCall.linkProgram [(Stage.compute, cs)]],
          by simp [hc, hl, CompileResult.world], by simp⟩
      · exact ⟨[GLCall.compileShader Stage.compute cs,
          GLCall.linkProgram [(Stage.compute, cs)]],
          by simp [hc, hl, CompileResult.world], by simp⟩
    · exact ⟨[GLCall.compileShader Stage.compute cs],
        by simp [hc, CompileResult.world], by simp⟩

theorem finishCompiled_calls (st : PState) (r : CompileResult) :
    (finishCompiled st r).world.calls = r.world.calls := by
  unfold finishCompiled
  cases r with
  | thrown w0 m => rfl
  | returned w0 sh e =>
    dsimp only
    split_ifs <;> rfl

/-- C13: every registry entry after `ParseMaterialFile` is an entry from before the call
or holds a program built from exactly one of the two stage sets: a compiled vertex stage
and a compiled pixel stage without a compute stage, or a compiled compute stage without a
vertex or pixel stage (never both sets, never no stage).  When the compute body is
non-empty, `finish` submits only the compute source: the vertex and pixel bodies are not
compiled. -/
theorem C13_stage_shape (b : Backend) (w : World) (mbuf : Str) :
    (∀ e ∈ (ParseMaterialFile b w mbuf).world.registry,
      e ∈ w.registry ∨ builtBy b e.2) ∧
    (∀ sh, builtBy b sh →
      (sh.vs ≠ none ∧ sh.ps ≠ none ∧ sh.cs = none) ∨
      (sh.vs = none ∧ sh.ps = none ∧ sh.cs ≠ none)) ∧
    (∀ w1 st, st.compute ≠ [] →
      ∃ extra, (finish b w1 st).world.calls = w1.calls ++ extra ∧
        ∀ c ∈ extra, c = GLCall.compileShader Stage.compute (computeSource st) ∨
          c = GLCall.linkProgram [(Stage.compute, computeSource st)]) := by
  refine ⟨?_, ?_, ?_⟩
  · exact parseFrom_rel b (shapedExt b) (fun w e he => Or.inl he) (shapedExt_trans b)
      (finish_shaped b) _ w PState.init
  · intro sh h
    rcases h with ⟨v, p, rfl, _⟩ | ⟨c, rfl, _⟩
    · exact Or.inl ⟨by simp, by simp, rfl⟩
    · exact Or.inr ⟨rfl, rfl, by simp⟩
  · intro w1 st hc
    have hl : st.compute.length ≠ 0 := fun h => hc (List.length_eq_zero.1 h)
    unfold finish
    by_cases hs : st.shader ≠ []
    · rw [if_pos hs, if_pos hl, finishCompiled_calls]
      exact CompileCompute_calls b w1 _ _ _
    · rw [if_neg hs]
      exact ⟨[], by simp [FinishResult.world], by simp⟩

/-- C13, witness: the program registered for the material `SHADER s` / `VERTEX` / `a` /
`PIXEL` / `b` has a vertex and a pixel stage. -/
theorem C13_stage_shape_witness :
    (("s".toList, (⟨some (mainAround (versionHeader acceptAll) "a".toList),
        some (mainAround (versionHeader acceptAll) "b".toList), none⟩ : Shader)) ∈
        World.empty.registry) ∨
      builtBy acceptAll (("s".toList,
        (⟨some (mainAround (versionHeader acceptAll) "a".toList),
          some (mainAround (versionHeader acceptAll) "b".toList), none⟩ : Shader)).2) :=
  (C13_stage_shape acceptAll World.empty
    (shaderMaterial "s".toList "a".toList "b".toList)).1
    ("s".toList, ⟨some (mainAround (versionHeader acceptAll) "a".toList),
      some (mainAround (versionHeader acceptAll) "b".toList), none⟩) (by decide)

/-! ## C14: the generic uniform setter -/

/-- C14, as stated, fails: with the location found (0) and a component arity of 5,
`SetUniform` returns `false`, so the result is not "whether the location was found". -/
theorem C14_counterexample :
    (0 : Int) ≤ (fun _ : Str => (0 : Int)) "col".toList ∧
    Shader.SetUniform (fun _ => 0) "col".toList () 5 1 = (false, []) := by
  decide

/-- C14, amended: `SetUniform` returns `true` exactly when the location lookup succeeds and
the component arity is in 1..4, and then it issues the one write
`glUniform<arity>fv(loc, elements, val)`; when the arity is outside 1..4, or the lookup
fails, it returns `false` and issues no write. -/
theorem C14_set_uniform {V : Type} (getLocation : Str → Int) (name : Str) (val : V)
    (components elements : Int) :
    ((Shader.SetUniform getLocation name val components elements).1 = true ↔
      (0 ≤ getLocation name ∧ 1 ≤ components ∧ components ≤ 4)) ∧
    ((components < 1 ∨ 4 < components) →
      Shader.SetUniform getLocation name val components elements = (false, [])) ∧
    (getLocation name < 0 →
      Shader.SetUniform getLocation name val components elements = (false, [])) ∧
    (0 ≤ getLocation name → 1 ≤ components → components ≤ 4 →
      Shader.SetUniform getLocation name val components elements =
        (true, [⟨components.toNat, getLocation name, elements, val⟩])) := by
  unfold Shader.SetUniform
  by_cases hl : getLocation name < 0
  · simp only [if_pos hl]
    refine ⟨?_, fun _ => trivial, fun _ => trivial, fun h => by omega⟩
    constructor
    · intro h; cases h
    · intro h; omega
  · simp only [if_neg hl]
    by_cases h1 : components = 1
    · subst h1; simp; omega
    by_cases h2 : components = 2
    · subst h2; simp; omega
    by_cases h3 : components = 3
    · subst h3; simp; omega
    by_cases h4 : components = 4
    · subst h4; simp; omega
    simp only [if_neg h1, if_neg h2, if_neg h3, if_neg h4]
    refine ⟨?_, fun _ => trivial, fun h => absurd h hl, fun _ ha hb => by omega⟩
    constructor
    · intro h; cases h
    · intro h; omega

/-- C14, witness: a found location and three components. -/
theorem C14_set_uniform_witness :
    Shader.SetUniform (fun _ => 7) "light1".toList () 3 1 =
      (true, [⟨(3 : Int).toNat, (fun _ : Str => (7 : Int)) "light1".toList, 1, ()⟩]) :=
  (C14_set_uniform (fun _ => 7) "light1".toList () 3 1).2.2.2 (by decide) (by decide)
    (by decide)

/-! ## C15: code outside of a block -/

/-- C15: when the line loop reaches, with no accumulator active, a line whose first word
is non-empty and none of the keywords, `ParseMaterialFile` returns at once
"GLSL code outside of FUNCTIONS/VERTEX/PIXEL block: " followed by the line; the world is
as before the line.  No accumulator is active initially, nor after a `SHADER` line. -/
theorem C15_code_outside_block (b : Backend) (w0 w : World) (st : PState) (mbuf l : Str)
    (before after : List Str)
    (hsplit : splitLines (cstr mbuf) = before ++ l :: after)
    (hrun : lineLoop b w0 PState.init before = Step.cont w st)
    (h0 : (word l).1 ≠ []) (hk : (word l).1 ∉ keywords) (ha : st.accum = Accum.none) :
    processLine b w st l =
      Step.ret w ("GLSL code outside of FUNCTIONS/VERTEX/PIXEL block: ".toList ++ l)
        Exit.syntaxError ∧
    ParseMaterialFile b w0 mbuf =
      ⟨w, Outcome.returned
        ("GLSL code outside of FUNCTIONS/VERTEX/PIXEL block: ".toList ++ l)
        Exit.syntaxError⟩ ∧
    "GLSL code outside of FUNCTIONS/VERTEX/PIXEL block: ".toList ++ l ≠ [] ∧
    l <:+: "GLSL code outside of FUNCTIONS/VERTEX/PIXEL block: ".toList ++ l ∧
    PState.init.accum = Accum.none ∧
    (∀ w2 st2 l2 w3 st3, (word l2).1 = "SHADER".toList →
      processLine b w2 st2 l2 = Step.cont w3 st3 → st3.accum = Accum.none) := by
  have hp : processLine b w st l =
      Step.ret w ("GLSL code outside of FUNCTIONS/VERTEX/PIXEL block: ".toList ++ l)
        Exit.syntaxError := by
    rw [processLine_default b w st l h0 hk, if_pos ha]
  refine ⟨hp, ?_, by simp, (List.suffix_append _ _).isInfix, rfl, ?_⟩
  · exact ParseMaterialFile_ret_at b w0 w w st mbuf l _ _ before after hsplit hrun hp
  · intro w2 st2 l2 w3 st3 hs hc
    rw [processLine_SHADER b w2 st2 l2 hs] at hc
    obtain ⟨st0, _, rfl⟩ := afterFinish_cont _ _ _ _ hc
    rfl

/-- C15, witness: after `SHADER s` the line `vertex` (lower case, so no keyword) is code
outside of a block. -/
theorem C15_code_outside_block_witness :
    ParseMaterialFile acceptAll World.empty "SHADER s\nvertex\nVERTEX".toList =
      ⟨World.empty, Outcome.returned
        ("GLSL code outside of FUNCTIONS/VERTEX/PIXEL block: ".toList ++ "vertex".toList)
        Exit.syntaxError⟩ :=
  (C15_code_outside_block acceptAll World.empty World.empty
    (blockState "s".toList [] [] [] Accum.none) "SHADER s\nvertex\nVERTEX".toList
    "vertex".toList ["SHADER s".toList] ["VERTEX".toList] (by decide) (by decide)
    (by decide) (by decide) (by decide)).2.1

/-! ## C17: body lines -/

theorem appendAccum_nil (st : PState) : appendAccum st [] = st := by
  unfold appendAccum
  split <;> simp

theorem appendAccum_append (st : PState) (a c : Str) :
    appendAccum (appendAccum st a) c = appendAccum st (a ++ c) := by
  cases h : st.accum <;> simp [appendAccum, h, List.append_assoc]

theorem lineLoop_bodyText (b : Backend) (w : World) (st : PState) (ls : List Str)
    (hk : ∀ x ∈ ls, (word x).1 ∉ keywords) (ha : st.accum ≠ Accum.none) :
    lineLoop b w st ls = Step.cont w (appendAccum st (bodyText ls)) := by
  induction ls generalizing st with
  | nil => simp [lineLoop, bodyText, appendAccum_nil]
  | cons x xs ih =>
    have hx := hk x (by simp)
    have hxs : ∀ y ∈ xs, (word y).1 ∉ keywords := fun y hy => hk y (List.mem_cons_of_mem _ hy)
    unfold bodyText
    by_cases h0 : (word x).1 = []
    · rw [if_pos h0, lineLoop_cons_cont _ _ _ _ _ _ _ (processLine_blank b w st x h0)]
      exact ih st hxs ha
    · rw [if_neg h0]
      have hp : processLine b w st x = Step.cont w (appendAccum st (x ++ "\n".toList)) := by
        rw [processLine_default b w st x h0 hx, if_neg ha]
      rw [lineLoop_cons_cont _ _ _ _ _ _ _ hp,
        ih _ hxs (by rw [appendAccum_accum]; exact ha), appendAccum_append]

/-- C17: with an accumulator active, a line whose first word is non-empty and no keyword
makes the loop go on with the raw line and one newline appended to the active accumulator
and everything else (the other accumulators, the declaration buffers, the pending name,
`accum`, the world) unchanged.  Consequently, after a `VERTEX`, `PIXEL` or `COMPUTE` line,
lines that are blank or body text leave in the body the non-blank ones, in order, each
followed by a newline. -/
theorem C17_body_line (b : Backend) (w : World) (st : PState) (l : Str)
    (h0 : (word l).1 ≠ []) (hk : (word l).1 ∉ keywords) (ha : st.accum ≠ Accum.none) :
    processLine b w st l = Step.cont w (appendAccum st (l ++ "\n".toList)) ∧
    (st.accum = Accum.vfunctions → appendAccum st (l ++ "\n".toList) =
      { st with vfunctions := st.vfunctions ++ (l ++ "\n".toList) }) ∧
    (st.accum = Accum.pfunctions → appendAccum st (l ++ "\n".toList) =
      { st with pfunctions := st.pfunctions ++ (l ++ "\n".toList) }) ∧
    (st.accum = Accum.cfunctions → appendAccum st (l ++ "\n".toList) =
      { st with cfunctions := st.cfunctions ++ (l ++ "\n".toList) }) ∧
    (st.accum = Accum.vertex → appendAccum st (l ++ "\n".toList) =
      { st with vertex := st.vertex ++ (l ++ "\n".toList) }) ∧
    (st.accum = Accum.pixel → appendAccum st (l ++ "\n".toList) =
      { st with pixel := st.pixel ++ (l ++ "\n".toList) }) ∧
    (st.accum = Accum.compute → appendAccum st (l ++ "\n".toList) =
      { st with compute := st.compute ++ (l ++ "\n".toList) }) ∧
    (∀ ls : List Str, (∀ x ∈ ls, (word x).1 ∉ keywords) →
      lineLoop b w st ls = Step.cont w (appendAccum st (bodyText ls)) ∧
      lineLoop b w st ("VERTEX".toList :: ls) =
        Step.cont w { st with vertex := bodyText ls, accum := Accum.vertex } ∧
      lineLoop b w st ("PIXEL".toList :: ls) =
        Step.cont w { st with pixel := bodyText ls, accum := Accum.pixel } ∧
      lineLoop b w st ("COMPUTE".toList :: ls) =
        Step.cont w { st with compute := bodyText ls, accum := Accum.compute }) := by
  refine ⟨?_, ?_, ?_, ?_, ?_, ?_, ?_, ?_⟩
  · rw [processLine_default b w st l h0 hk, if_neg ha]
  · intro h; unfold appendAccum; rw [h]
  · intro h; unfold appendAccum; rw [h]
  · intro h; unfold appendAccum; rw [h]
  · intro h; unfold appendAccum; rw [h]
  · intro h; unfold appendAccum; rw [h]
  · intro h; unfold appendAccum; rw [h]
  · intro ls hls
    refine ⟨lineLoop_bodyText b w st ls hls ha, ?_, ?_, ?_⟩
    · rw [lineLoop_cons_cont _ _ _ _ _ _ _ (processLine_VERTEX b w st _ (by decide)),
        lineLoop_bodyText b w _ ls hls (by simp)]
      simp [appendAccum]
    · rw [lineLoop_cons_cont _ _ _ _ _ _ _ (processLine_PIXEL b w st _ (by decide)),
        lineLoop_bodyText b w _ ls hls (by simp)]
      simp [appendAccum]
    · rw [lineLoop_cons_cont _ _ _ _ _ _ _ (processLine_COMPUTE b w st _ (by decide)),
        lineLoop_bodyText b w _ ls hls (by simp)]
      simp [appendAccum]

/-- C17, witness: a line with leading blanks and a trailing carriage return, in a vertex
body. -/
theorem C17_body_line_witness :
    processLine acceptAll World.empty (blockState "s".toList [] [] [] Accum.vertex)
        "  gl_Position = apos;\r".toList =
      Step.cont World.empty
        (appendAccum (blockState "s".toList [] [] [] Accum.vertex)
          ("  gl_Position = apos;\r".toList ++ "\n".toList)) :=
  (C17_body_line acceptAll World.empty (blockState "s".toList [] [] [] Accum.vertex)
    "  gl_Position = apos;\r".toList (by decide) (by decide) (by decide)).1

/-! ## C18: where declarations go -/

theorem uniformsWord_decl (c : Bool) (decl t : Str) :
    uniformsWord c decl t =
      match uniformsWord c [] t with
      | Except.ok d => Except.ok (decl ++ d)
      | Except.error e => Except.error e := by
  unfold uniformsWord
  by_cases h1 : t = "mvp".toList
  · simp only [if_pos h1]; rfl
  simp only [if_neg h1]
  by_cases h2 : t = "col".toList
  · simp only [if_pos h2]; rfl
  simp only [if_neg h2]
  by_cases h3 : t = "camera".toList
  · simp only [if_pos h3]; rfl
  simp only [if_neg h3]
  by_cases h4 : t = "light1".toList
  · simp only [if_pos h4]; rfl
  simp only [if_neg h4]
  by_cases h5 : t = "lightparams1".toList
  · simp only [if_pos h5]; rfl
  simp only [if_neg h5]
  by_cases h6 : t = "bones".toList
  · simp only [if_pos h6]; rfl
  simp only [if_neg h6]
  by_cases h7 : t = "pointscale".toList
  · simp only [if_pos h7]; rfl
  simp only [if_neg h7]
  by_cases h8 : "tex".toList.isPrefixOf t = true
  · simp only [if_pos h8]
    cases c <;> simp [List.append_assoc]
  · simp only [if_neg h8]

theorem uniformText_texture (c : Bool) (t : Str) (h : t ∉ predefinedUniforms) :
    uniformText c t = textureLine c t := by
  have hne : ∀ k ∈ predefinedUniforms, (t == k) = false :=
    fun k hm => beq_eq_false_iff_ne.2 (fun e => h (e ▸ hm))
  unfold uniformText predefinedLines
  simp only [List.lookup, hne "mvp".toList (by decide), hne "col".toList (by decide),
    hne "camera".toList (by decide), hne "light1".toList (by decide),
    hne "lightparams1".toList (by decide), hne "bones".toList (by decide),
    hne "pointscale".toList (by decide)]

theorem uniformsWord_text (c : Bool) (decl t : Str) (h : acceptedUniform t = true) :
    uniformsWord c decl t = Except.ok (decl ++ uniformText c t) := by
  by_cases hp : t ∈ predefinedUniforms
  · simp only [predefinedUniforms, List.mem_cons, List.mem_singleton, List.not_mem_nil,
      or_false] at hp
    rcases hp with rfl | rfl | rfl | rfl | rfl | rfl | rfl <;> rfl
  · have htex : "tex".toList.isPrefixOf t = true := by
      unfold acceptedUniform at h
      rw [decide_eq_false hp, Bool.false_or] at h
      exact h
    rw [uniformsWord_texture c decl t htex, uniformText_texture c t hp]

theorem uniformsAll_texts (c : Bool) (decl : Str) (ts : List Str)
    (h : ∀ t ∈ ts, acceptedUniform t = true) :
    uniformsAll c decl ts = Except.ok (decl ++ uniformTexts c ts) := by
  induction ts generalizing decl with
  | nil => simp [uniformsAll, uniformTexts]
  | cons t ts ih =>
    unfold uniformsAll
    rw [uniformsWord_text c decl t (h t (by simp))]
    dsimp only
    rw [ih _ (fun x hx => h x (List.mem_cons_of_mem _ hx))]
    simp [uniformTexts, List.append_assoc]

/-- C18: a `UNIFORMS` line whose words are all accepted appends the declaration lines of
its words, in order, and a `UNIFORM type name` line appends "uniform type name;\n", to the
buffer `decl` refers to: the compute declarations when the compute body is active, the
vertex declarations when the vertex body is active, and the pixel declarations in every
other state; the other two buffers and all other locals are unchanged.  The declaration
line of a word is the fixed line of a predefined name (the seven lines are spelled out)
and the texture line of any other accepted word. -/
theorem C18_declaration_routing (b : Backend) (w : World) (st : PState) (l : Str) :
    ((word l).1 = "UNIFORMS".toList →
      (∀ t ∈ tokens (word l).2, acceptedUniform t = true) →
      processLine b w st l = Step.cont w (setDecl st (declOf st ++
        uniformTexts (decide (st.accum = Accum.compute)) (tokens (word l).2)))) ∧
    (∀ c, uniformTexts c ["mvp".toList, "col".toList, "camera".toList, "light1".toList,
        "lightparams1".toList, "bones".toList, "pointscale".toList] =
      ("uniform mat4 mvp;\nuniform vec4 col;\nuniform vec3 camera;\n".toList ++
        "uniform vec3 light1;\nuniform vec2 lightparams1;\n".toList ++
        "uniform vec4 bones[230];\nuniform float pointscale;\n".toList)) ∧
    (∀ c t, t ∉ predefinedUniforms → uniformText c t = textureLine c t) ∧
    ((word l).1 = "UNIFORM".toList → (word (word l).2).1 ≠ [] →
      (word (word (word l).2).2).1 ≠ [] →
      processLine b w st l = Step.cont w (setDecl st (declOf st ++
        ("uniform ".toList ++ (word (word l).2).1 ++ " ".toList ++
          (word (word (word l).2).2).1 ++ ";\n".toList)))) ∧
    (∀ d, st.accum = Accum.compute →
      declOf st = st.csdecl ∧ setDecl st d = { st with csdecl := d }) ∧
    (∀ d, st.accum = Accum.vertex →
      declOf st = st.vdecl ∧ setDecl st d = { st with vdecl := d }) ∧
    (∀ d, st.accum ≠ Accum.compute → st.accum ≠ Accum.vertex →
      declOf st = st.pdecl ∧ setDecl st d = { st with pdecl := d }) := by
  refine ⟨?_, fun c => rfl, uniformText_texture, ?_, ?_, ?_, ?_⟩
  · intro hk hacc
    rw [processLine_UNIFORMS_tokens b w st l hk, uniformsAll_texts _ _ _ hacc]
  · intro hk ht hn
    unfold processLine
    dsimp only
    rw [hk]
    have hor : ¬ ((word (word l).2).1 = [] ∨ (word (word (word l).2).2).1 = []) := by
      intro h; rcases h with h | h
      · exact ht h
      · exact hn h
    simp only [if_neg hor]
    rfl
  · intro d ha
    simp [declOf, setDecl, ha]
  · intro d ha
    simp [declOf, setDecl, ha]
  · intro d hc hv
    simp [declOf, setDecl, hc, hv]

/-- C18, witness: `UNIFORMS mvp tex0` inside a vertex body appends the two lines to the
vertex declarations. -/
theorem C18_declaration_routing_witness :
    processLine acceptAll World.empty (blockState "s".toList [] [] [] Accum.vertex)
        "UNIFORMS mvp tex0".toList =
      Step.cont World.empty
        { blockState "s".toList [] [] [] Accum.vertex with
          vdecl := "uniform mat4 mvp;\nuniform sampler2D tex0;\n".toList } :=
  (C18_declaration_routing acceptAll World.empty
    (blockState "s".toList [] [] [] Accum.vertex) "UNIFORMS mvp tex0".toList).1
    (by decide) (by decide)

/-! ## C19: the section keywords -/

theorem finishCompiled_frame (st st1 : PState) (r : CompileResult) (w1 : World) (f : Bool)
    (h : finishCompiled st r = FinishResult.done w1 st1 f) :
    ∃ e s, st1 = { st with err := e, shader := s } := by
  unfold finishCompiled at h
  cases r with
  | thrown w0 m => simp at h
  | returned w0 sh e =>
    by_cases he : e = []
    · simp [he] at h
      exact ⟨[], [], h.2.1.symm⟩
    · simp [he] at h
      exact ⟨e, st.shader, h.2.1.symm⟩

theorem finish_frame (b : Backend) (w w1 : World) (st st1 : PState) (f : Bool)
    (h : finish b w st = FinishResult.done w1 st1 f) :
    ∃ e s, st1 = { st with err := e, shader := s } := by
  unfold finish at h
  split_ifs at h
  · exact finishCompiled_frame _ _ _ _ _ h
  · exact finishCompiled_frame _ _ _ _ _ h
  · simp at h
    exact ⟨st.err, st.shader, h.2.1.symm⟩

/-- C19: a `SHADER <name>` line first calls `finish()` (returning its error if it fails);
then the three bodies and the three declaration buffers are empty, the pending name is
<name>, no accumulator is active and the three functions accumulators are as before the
line.  A `VERTEX`, `PIXEL` or `COMPUTE` line clears and activates its own body and changes
nothing else: the world (driver calls, registry) and all other locals are as before. -/
theorem C19_section_keywords (b : Backend) (w : World) (st : PState) (l : Str) :
    ((word l).1 = "SHADER".toList →
      processLine b w st l = afterFinish (finish b w st) (fun s =>
        { s with shader := (word (word l).2).1, vdecl := [], pdecl := [], csdecl := [],
                 vertex := [], pixel := [], compute := [], accum := Accum.none })) ∧
    (∀ w1 st1, (word l).1 = "SHADER".toList → processLine b w st l = Step.cont w1 st1 →
      (∃ st0, finish b w st = FinishResult.done w1 st0 false) ∧
      st1.shader = (word (word l).2).1 ∧
      st1.vertex = [] ∧ st1.pixel = [] ∧ st1.compute = [] ∧
      st1.vdecl = [] ∧ st1.pdecl = [] ∧ st1.csdecl = [] ∧ st1.accum = Accum.none ∧
      st1.vfunctions = st.vfunctions ∧ st1.pfunctions = st.pfunctions ∧
      st1.cfunctions = st.cfunctions) ∧
    ((word l).1 = "VERTEX".toList →
      processLine b w st l = Step.cont w { st with vertex := [], accum := Accum.vertex }) ∧
    ((word l).1 = "PIXEL".toList →
      processLine b w st l = Step.cont w { st with pixel := [], accum := Accum.pixel }) ∧
    ((word l).1 = "COMPUTE".toList →
      processLine b w st l =
        Step.cont w { st with compute := [], accum := Accum.compute }) := by
  refine ⟨processLine_SHADER b w st l, ?_, processLine_VERTEX b w st l,
    processLine_PIXEL b w st l, processLine_COMPUTE b w st l⟩
  intro w1 st1 hs hc
  rw [processLine_SHADER b w st l hs] at hc
  obtain ⟨st0, hf, rfl⟩ := afterFinish_cont _ _ _ _ hc
  obtain ⟨e, s0, rfl⟩ := finish_frame b w w1 st st0 false hf
  exact ⟨⟨_, hf⟩, rfl, rfl, rfl, rfl, rfl, rfl, rfl, rfl, rfl, rfl, rfl⟩

/-- C19, witness: a second `SHADER` line finishes the block `s` and starts the block `t`
with empty bodies. -/
theorem C19_section_keywords_witness :
    (∃ st0, finish acceptAll World.empty
        (blockState "s".toList "a\n".toList "b\n".toList [] Accum.pixel) =
        FinishResult.done (registerBlock acceptAll World.empty "s".toList "a".toList
          "b".toList) st0 false) ∧
      (blockState "t".toList [] [] [] Accum.none).shader =
        (word (word "SHADER t".toList).2).1 :=
  ⟨((C19_section_keywords acceptAll World.empty
      (blockState "s".toList "a\n".toList "b\n".toList [] Accum.pixel)
      "SHADER t".toList).2.1
      (registerBlock acceptAll World.empty "s".toList "a".toList "b".toList)
      (blockState "t".toList [] [] [] Accum.none) (by decide) (by decide)).1,
   ((C19_section_keywords acceptAll World.empty
      (blockState "s".toList "a\n".toList "b\n".toList [] Accum.pixel)
      "SHADER t".toList).2.1
      (registerBlock acceptAll World.empty "s".toList "a".toList "b".toList)
      (blockState "t".toList [] [] [] Accum.none) (by decide) (by decide)).2.1⟩

/-! ## The buffer run and the run over the lines -/

theorem parseFrom_cons (b : Backend) (w : World) (st : PState) (l : Str) (ls : List Str) :
    parseFrom b w st (l :: ls) =
      match processLine b w st l with
      | Step.cont w1 st1 => parseFrom b w1 st1 ls
      | Step.ret w1 e via => ⟨w1, Outcome.returned e via⟩
      | Step.thrown w1 m => ⟨w1, Outcome.thrown m⟩ := by
  unfold parseFrom
  cases h : processLine b w st l with
  | cont w1 st1 => rw [lineLoop_cons_cont _ _ _ _ _ _ _ h]
  | ret w1 e via => rw [lineLoop_cons_ret _ _ _ _ _ _ _ _ h]
  | thrown w1 m => simp [lineLoop, h]

theorem parseFrom_nil (b : Backend) (w : World) (st : PState) :
    parseFrom b w st [] = finishAtEnd b w st := rfl

theorem no_newline_split (p : Str) (h : '\n' ∉ p) :
    p.takeWhile (fun c => c != '\n') = p ∧ p.dropWhile (fun c => c != '\n') = [] := by
  have hall : ∀ x ∈ p, (x != '\n') = true := by
    intro x hx
    have : x ≠ '\n' := fun e => h (e ▸ hx)
    simpa using this
  exact ⟨List.takeWhile_eq_self_iff.2 hall, List.dropWhile_eq_nil_iff.2 hall⟩

theorem newline_rest_ne_nil (p : Str) (h : '\n' ∈ p) :
    p.dropWhile (fun c => c != '\n') ≠ [] := by
  intro hnil
  have hall := List.dropWhile_eq_nil_iff.1 hnil
  have := hall '\n' h
  simp at this

/-- With fuel above the length of the text, the buffer run ends, with the result of the
run over the lines, after at least one and at most as many rounds as there are lines. -/
theorem bufferLoop_result (b : Backend) (fuel : Nat) (w : World) (st : PState)
    (done p tail : Str) (n : Nat) (h : p.length < fuel) :
    ∃ r, bufferLoop b fuel w st done p tail n = some r ∧
      r.result = parseFrom b w st (splitLines p) ∧
      n < r.rounds ∧ r.rounds ≤ n + (splitLines p).length := by
  induction fuel generalizing w st done p n with
  | zero => omega
  | succ f ih =>
    unfold bufferLoop
    dsimp only
    by_cases hn : '\n' ∈ p
    · have hrest := newline_rest_ne_nil p hn
      obtain ⟨_, _, hlt⟩ := split_at_newline p hn
      rw [splitLines_at_newline p hn, parseFrom_cons]
      cases hp : processLine b w st (p.takeWhile (fun c => c != '\n')) with
      | ret w1 e via =>
        exact ⟨_, rfl, rfl, by simp, by simp⟩
      | thrown w1 m =>
        exact ⟨_, rfl, rfl, by simp, by simp⟩
      | cont w1 st1 =>
        simp only [if_neg hrest]
        obtain ⟨r, hr, hres, h1, h2⟩ := ih w1 st1
          (done ++ p.takeWhile (fun c => c != '\n') ++ ['\n'])
          ((p.dropWhile (fun c => c != '\n')).drop 1) (n + 1) (by omega)
        refine ⟨r, hr, hres, by omega, ?_⟩
        simp only [List.length_cons]
        omega
    · obtain ⟨htw, hdw⟩ := no_newline_split p hn
      rw [splitLines_of_not_mem p hn, parseFrom_cons, htw, hdw]
      cases hp : processLine b w st p with
      | ret w1 e via => exact ⟨_, rfl, rfl, by simp, by simp⟩
      | thrown w1 m => exact ⟨_, rfl, rfl, by simp, by simp⟩
      | cont w1 st1 =>
        simp only [if_true]
        exact ⟨_, rfl, rfl, by simp, by simp⟩

theorem bufferLoop_fuel (b : Backend) (f1 f2 : Nat) (w : World) (st : PState)
    (done p tail : Str) (n : Nat) (h1 : p.length < f1) (h2 : p.length < f2) :
    bufferLoop b f1 w st done p tail n = bufferLoop b f2 w st done p tail n := by
  induction f1 generalizing f2 w st done p n with
  | zero => omega
  | succ a ih =>
    cases f2 with
    | zero => omega
    | succ c =>
      unfold bufferLoop
      dsimp only
      cases hp : processLine b w st (p.takeWhile (fun c => c != '\n')) with
      | ret w1 e via => rfl
      | thrown w1 m => rfl
      | cont w1 st1 =>
        dsimp only
        by_cases hr : p.dropWhile (fun c => c != '\n') = []
        · simp only [if_pos hr]
        · simp only [if_neg hr]
          have hn : '\n' ∈ p := by
            by_contra hcon
            exact hr (no_newline_split p hcon).2
          obtain ⟨_, _, hlt⟩ := split_at_newline p hn
          exact ih c w1 st1 _ _ (n + 1) (by omega) (by omega)

theorem splitLines_length (p : Str) : (splitLines p).length = p.count '\n' + 1 := by
  induction p with
  | nil => rfl
  | cons c cs ih =>
    by_cases hc : c = '\n'
    · subst hc
      simp [splitLines, ih]
    · have hcount : (c :: cs).count '\n' = cs.count '\n' := by
        rw [List.count_cons]
        simp [hc]
      cases h : splitLines cs with
      | nil => exact absurd h (splitLines_ne_nil cs)
      | cons l ls =>
        rw [h] at ih
        simp only [splitLines, hc, if_false, h, hcount]
        simpa using ih

/-! ## C16: the buffer after the parse -/

theorem processLine_not_endOfInput (b : Backend) (w w1 : World) (st : PState) (l e : Str) :
    processLine b w st l ≠ Step.ret w1 e Exit.endOfInput := by
  intro h
  have hs := processLine_spec b w st l
  rw [h] at hs
  exact hs

/-- The buffer when the run ends: either it is as before, or the function left inside a
round that was not the last one (not through the final `return err;`) and the newline that
ended the line of that round is a terminator. -/
theorem bufferLoop_buffer (b : Backend) (fuel : Nat) (w : World) (st : PState)
    (done p tail : Str) (n : Nat) (r : BufferRun)
    (h : bufferLoop b fuel w st done p tail n = some r) :
    r.buffer = done ++ p ++ tail ∨
    ∃ a c, p = a ++ '\n' :: c ∧ r.buffer = done ++ a ++ '\x00' :: (c ++ tail) ∧
      ∀ e, r.result.outcome ≠ Outcome.returned e Exit.endOfInput := by
  induction fuel generalizing w st done p n with
  | zero => simp [bufferLoop] at h
  | succ f ih =>
    unfold bufferLoop at h
    dsimp only at h
    by_cases hn : '\n' ∈ p
    · have hrest := newline_rest_ne_nil p hn
      obtain ⟨hsplit, _, _⟩ := split_at_newline p hn
      simp only [if_neg hrest] at h
      cases hp : processLine b w st (p.takeWhile (fun c => c != '\n')) with
      | ret w1 e via =>
        rw [hp] at h
        simp only [Option.some.injEq] at h
        subst h
        refine Or.inr ⟨_, _, hsplit, rfl, ?_⟩
        intro e1 he1
        simp only [Outcome.returned.injEq] at he1
        rw [he1.2] at hp
        exact processLine_not_endOfInput b w w1 st _ e hp
      | thrown w1 m =>
        rw [hp] at h
        simp only [Option.some.injEq] at h
        subst h
        exact Or.inr ⟨_, _, hsplit, rfl, fun e1 he1 => by simp at he1⟩
      | cont w1 st1 =>
        rw [hp] at h
        dsimp only at h
        rcases ih w1 st1 _ _ (n + 1) h with hb | ⟨a, c, hac, hb, hout⟩
        · left
          rw [hb]
          conv_rhs => rw [hsplit]
          simp [List.append_assoc]
        · right
          refine ⟨p.takeWhile (fun c => c != '\n') ++ '\n' :: a, c, ?_, ?_, hout⟩
          · conv_lhs => rw [hsplit, hac]
            simp [List.append_assoc]
          · rw [hb]
            simp [List.append_assoc]
    · obtain ⟨htw, hdw⟩ := no_newline_split p hn
      rw [htw, hdw] at h
      simp only [if_true] at h
      cases hp : processLine b w st p with
      | ret w1 e via =>
        rw [hp] at h
        simp only [Option.some.injEq] at h
        subst h; exact Or.inl rfl
      | thrown w1 m =>
        rw [hp] at h
        simp only [Option.some.injEq] at h
        subst h; exact Or.inl rfl
      | cont w1 st1 =>
        rw [hp] at h
        simp only [Option.some.injEq] at h
        subst h; exact Or.inl rfl

theorem cstr_append_drop (mbuf : Str) : cstr mbuf ++ mbuf.drop (cstr mbuf).length = mbuf := by
  unfold cstr
  induction mbuf with
  | nil => rfl
  | cons c cs ih =>
    by_cases hc : (c != '\x00') = true
    · simp only [List.takeWhile, hc, List.length_cons, List.drop_succ_cons, List.cons_append]
      rw [ih]
    · simp [List.takeWhile, hc]

/-- When `ParseMaterialFile` leaves through the final `return err;`, the buffer is as it
was before the call. -/
theorem buffer_restored_at_end (b : Backend) (w : World) (mbuf : Str) (r : BufferRun)
    (e : Str) (h : ParseMaterialFileBuf b w mbuf = some r)
    (he : r.result.outcome = Outcome.returned e Exit.endOfInput) : r.buffer = mbuf := by
  unfold ParseMaterialFileBuf at h
  rcases bufferLoop_buffer b _ w PState.init [] _ _ 0 r h with hb | ⟨a, c, _, _, hout⟩
  · rw [hb]
    simpa using cstr_append_drop mbuf
  · exact absurd he (hout e)

/-- C16 fails on the code: for the buffer `SHADER s` / `UNIFORMS bogus` / `VERTEX` the
function returns "unknown uniform: bogus" from the second round, and the newline after
`bogus`, overwritten by `*end = 0`, is still a terminator: the buffer is not as before the
call. -/
theorem C16_buffer_not_restored :
    ParseMaterialFileBuf acceptAll World.empty "SHADER s\nUNIFORMS bogus\nVERTEX".toList =
      some ⟨⟨World.empty,
          Outcome.returned "unknown uniform: bogus".toList Exit.syntaxError⟩,
        "SHADER s\nUNIFORMS bogus\x00VERTEX".toList, 2⟩ ∧
    "SHADER s\nUNIFORMS bogus\x00VERTEX".toList ≠
      "SHADER s\nUNIFORMS bogus\nVERTEX".toList := by
  constructor <;> decide

/-! ## The word loops end before their fuel does -/

theorem word_length (p : Str) : (word p).1.length + (word p).2.length ≤ p.length := by
  have h1 : (p.dropWhile isBlank).length ≤ p.length :=
    (List.dropWhile_sublist isBlank).length_le
  have h2 := congrArg List.length
    (List.takeWhile_append_dropWhile (fun c => !isBlank c) (p.dropWhile isBlank))
  simp only [List.length_append] at h2
  simp only [word]
  omega

theorem word_rest_lt (p : Str) (h : (word p).1 ≠ []) : (word p).2.length < p.length := by
  have h1 := word_length p
  have h2 : 0 < (word p).1.length := List.length_pos.2 h
  omega

/-- Any fuel above the length of the rest of the line gives the same words: the loops
reach the empty word before the fuel runs out. -/
theorem tokensAux_fuel (f1 f2 : Nat) (p : Str) (h1 : p.length < f1) (h2 : p.length < f2) :
    tokensAux f1 p = tokensAux f2 p := by
  induction f1 generalizing f2 p with
  | zero => omega
  | succ n ih =>
    cases f2 with
    | zero => omega
    | succ m =>
      unfold tokensAux
      by_cases hw : (word p).1 = []
      · rw [if_pos hw, if_pos hw]
      · rw [if_neg hw, if_neg hw]
        have hlt := word_rest_lt p hw
        rw [ih m (word p).2 (by omega) (by omega)]

theorem inputsLoop_fuel (fuel : Nat) (p : Str) (st : PState) (h : p.length < fuel) :
    inputsLoop fuel p st = inputsLoop (p.length + 1) p st := by
  rw [inputsLoop_eq_inputsAll, inputsLoop_eq_inputsAll,
    tokensAux_fuel fuel (p.length + 1) p h (Nat.lt_succ_self _)]

theorem uniformsLoop_fuel (c : Bool) (fuel : Nat) (p decl : Str) (h : p.length < fuel) :
    uniformsLoop c fuel p decl = uniformsLoop c (p.length + 1) p decl := by
  rw [uniformsLoop_eq_uniformsAll, uniformsLoop_eq_uniformsAll,
    tokensAux_fuel fuel (p.length + 1) p h (Nat.lt_succ_self _)]

/-! ## C20: scanner progress and bounds -/

theorem word_cursor_suffix (p : Str) : (word p).2 <:+ p :=
  (List.dropWhile_suffix _).trans (List.dropWhile_suffix _)

theorem word_within (p : Str) : (word p).1 <:+: p :=
  (List.takeWhile_prefix _).isInfix.trans (List.dropWhile_suffix _).isInfix

theorem word_no_blank (p : Str) (c : Char) (h : c ∈ (word p).1) : isBlank c = false := by
  have h1 := List.mem_takeWhile_imp h
  simpa using h1

theorem tokensAux_within (fuel : Nat) (p t : Str) (h : t ∈ tokensAux fuel p) :
    t <:+: p ∧ ∀ c ∈ t, isBlank c = false := by
  induction fuel generalizing p with
  | zero => simp [tokensAux] at h
  | succ f ih =>
    unfold tokensAux at h
    by_cases hw : (word p).1 = []
    · rw [if_pos hw] at h
      simp at h
    · rw [if_neg hw] at h
      rcases List.mem_cons.1 h with rfl | ht
      · exact ⟨word_within p, fun c hc => word_no_blank p c hc⟩
      · obtain ⟨h1, h2⟩ := ih (word p).2 ht
        exact ⟨h1.trans (word_cursor_suffix p).isInfix, h2⟩

theorem splitLines_no_newline (s l : Str) (h : l ∈ splitLines s) : '\n' ∉ l := by
  obtain ⟨q, qs, hq, _, hall⟩ := splitLines_pieces s
  rw [hq] at h
  exact hall l h

/-- One round of the buffer run that goes on: the next round starts at the character after
the newline that ended this round's line. -/
theorem bufferLoop_next (b : Backend) (fuel : Nat) (w w1 : World) (st st1 : PState)
    (done p tail : Str) (n : Nat) (hn : '\n' ∈ p)
    (hp : processLine b w st (p.takeWhile (fun c => c != '\n')) = Step.cont w1 st1) :
    bufferLoop b (fuel + 1) w st done p tail n =
      bufferLoop b fuel w1 st1 (done ++ p.takeWhile (fun c => c != '\n') ++ ['\n'])
        ((p.dropWhile (fun c => c != '\n')).drop 1) tail (n + 1) := by
  conv_lhs => unfold bufferLoop
  dsimp only
  rw [hp]
  dsimp only
  rw [if_neg (newline_rest_ne_nil p hn)]

/-- C20: scanner progress and bounds.  For every buffer the run of `ParseMaterialFile` over
the buffer ends (the fuel of the model, the length of the text plus one, is enough, and
any larger fuel gives the same run) with the result of `ParseMaterialFile`, after at least
one and at most (number of newlines before the terminator) + 1 rounds of the line loop; a
round that goes on hands the next round the text strictly after the newline that ended its
line; and on a line of the buffer, from any cursor within the line, `word` leaves the
cursor within the line and returns a piece of the line without blank, tab, carriage return
or newline, as do the word loops. -/
theorem C20_scanner_progress (b : Backend) (w : World) (mbuf : Str) :
    (∃ r, ParseMaterialFileBuf b w mbuf = some r ∧
      r.result = ParseMaterialFile b w mbuf ∧
      1 ≤ r.rounds ∧ r.rounds ≤ (cstr mbuf).count '\n' + 1) ∧
    (∀ fuel, (cstr mbuf).length < fuel →
      bufferLoop b fuel w PState.init [] (cstr mbuf) (mbuf.drop (cstr mbuf).length) 0 =
        ParseMaterialFileBuf b w mbuf) ∧
    (∀ fuel w0 st done p tail n w1 st1, '\n' ∈ p →
      processLine b w0 st (p.takeWhile (fun c => c != '\n')) = Step.cont w1 st1 →
      ∃ line next, p = line ++ '\n' :: next ∧ '\n' ∉ line ∧ next.length < p.length ∧
        bufferLoop b (fuel + 1) w0 st done p tail n =
          bufferLoop b fuel w1 st1 (done ++ line ++ ['\n']) next tail (n + 1)) ∧
    (∀ l ∈ splitLines (cstr mbuf), ∀ p, p <:+ l →
      (word p).2 <:+ l ∧ (word p).1 <:+: l ∧
      (∀ c ∈ (word p).1, c ≠ ' ' ∧ c ≠ '\t' ∧ c ≠ '\r' ∧ c ≠ '\n') ∧
      (∀ fuel, p.length < fuel → tokensAux fuel p = tokens p) ∧
      ∀ t ∈ tokens p, t <:+: l ∧ ∀ c ∈ t, c ≠ ' ' ∧ c ≠ '\t' ∧ c ≠ '\r' ∧ c ≠ '\n') := by
  have hchar : ∀ (l t : Str), '\n' ∉ l → t <:+: l → (∀ c ∈ t, isBlank c = false) →
      ∀ c ∈ t, c ≠ ' ' ∧ c ≠ '\t' ∧ c ≠ '\r' ∧ c ≠ '\n' := by
    intro l t hl ht hb c hc
    have h1 := hb c hc
    simp only [isBlank, Bool.or_eq_false_iff, beq_eq_false_iff_ne, ne_eq] at h1
    refine ⟨h1.1.1, h1.1.2, h1.2, ?_⟩
    intro hcn
    exact hl (hcn ▸ ht.subset hc)
  refine ⟨?_, ?_, ?_, ?_⟩
  · obtain ⟨r, hr, hres, h1, h2⟩ := bufferLoop_result b ((cstr mbuf).length + 1) w
      PState.init [] (cstr mbuf) (mbuf.drop (cstr mbuf).length) 0 (Nat.lt_succ_self _)
    refine ⟨r, hr, hres, h1, ?_⟩
    rw [splitLines_length] at h2
    omega
  · intro fuel hf
    exact bufferLoop_fuel b _ _ w PState.init [] (cstr mbuf) _ 0 hf (Nat.lt_succ_self _)
  · intro fuel w0 st done p tail n w1 st1 hn hp
    obtain ⟨h1, h2, h3⟩ := split_at_newline p hn
    exact ⟨_, _, h1, h2, h3, bufferLoop_next b fuel w0 w1 st st1 done p tail n hn hp⟩
  · intro l hl p hp
    have hnl := splitLines_no_newline _ l hl
    refine ⟨(word_cursor_suffix p).trans hp, (word_within p).trans hp.isInfix, ?_, ?_, ?_⟩
    · exact hchar l _ hnl ((word_within p).trans hp.isInfix) (fun c hc => word_no_blank p c hc)
    · intro fuel hf
      exact tokensAux_fuel fuel (p.length + 1) p hf (Nat.lt_succ_self _)
    · intro t ht
      obtain ⟨h1, h2⟩ := tokensAux_within _ p t ht
      exact ⟨h1.trans hp.isInfix, hchar l t hnl (h1.trans hp.isInfix) h2⟩

/-- C20, witness: the run over the buffer `SHADER s` / `VERTEX` / `a` ends after at most
three rounds. -/
theorem C20_scanner_progress_witness :
    ∃ r, ParseMaterialFileBuf acceptAll World.empty "SHADER s\nVERTEX\na".toList = some r ∧
      r.result = ParseMaterialFile acceptAll World.empty "SHADER s\nVERTEX\na".toList ∧
      1 ≤ r.rounds ∧ r.rounds ≤ (cstr "SHADER s\nVERTEX\na".toList).count '\n' + 1 :=
  (C20_scanner_progress acceptAll World.empty "SHADER s\nVERTEX\na".toList).1

end Lobster
